import Mathlib

/-!
# grapi: the embedded template file system and the service generation pipeline

Two parts:

* `Template`: the virtual file system of `cmd/grapi-gen-command/template/fs_vfsdata.go`
  (the `FS` value, `Open`, the file and directory handles), embedded from the Go source.
  Go strings are embedded as Lean strings, `[]byte` as `List UInt8`, Go `int` as `Int`,
  pointers to immutable nodes as values. The construction of `FS` is embedded step by step
  with pointers named by map keys, and calls on open handles act on an explicit state (the
  map and the table of handles). `path.Clean`, `path.Join`, `path.Base`, `path.Dir` and the
  `Read` and `Seek` of `bytes.Reader` follow the Go standard library.
* `Svcgen`: the service generation pipeline exercised by
  `cmd/grapi-gen-service/main_test.go` (naming engine, method catalog, template resolver,
  orchestrator, file writer). Its implementation lives in packages outside the two source
  files, so its definitions are modelled from the specification, section by section.
-/

set_option autoImplicit false

namespace Template

/-! ## Go's `path.Clean` -/

/-- Path name elements of a path: the pieces between slashes (`"/a//b"` gives
`["", "a", "", "b"]`). -/
def splitSlash : List Char → List (List Char)
  | [] => [[]]
  | c :: cs =>
    if c = '/' then [] :: splitSlash cs
    else
      match splitSlash cs with
      | [] => [[c]]
      | s :: ss => (c :: s) :: ss

/-- One path name element processed by `path.Clean`; `out` is the stack of elements kept
so far, innermost first. Empty elements and `.` are dropped; `..` removes the preceding
non-`..` element, is dropped at the root of a rooted path and is kept at the start of a
relative one. -/
def cleanStep (rooted : Bool) (out : List (List Char)) (elem : List Char) : List (List Char) :=
  if elem = [] ∨ elem = ['.'] then out
  else if elem = ['.', '.'] then
    match out with
    | [] => if rooted then [] else [elem]
    | top :: rest => if top = ['.', '.'] then elem :: out else rest
  else elem :: out

/-- The elements kept by `path.Clean`, outermost first. -/
def cleanElems (rooted : Bool) (p : List Char) : List (List Char) :=
  ((splitSlash p).foldl (cleanStep rooted) []).reverse

/-- Elements joined by single slashes. -/
def joinSlash : List (List Char) → List Char
  | [] => []
  | [e] => e
  | e :: es => e ++ '/' :: joinSlash es

/-- Go's `path.Clean`: the shortest path name equivalent to `path` by purely lexical
processing. The empty path cleans to `"."`; a rooted path stays rooted. Only `/` and `.`
are inspected, so working on characters instead of bytes changes nothing. -/
def Clean (path : String) : String :=
  match path.data with
  | [] => "."
  | c :: cs =>
    if c = '/' then ⟨'/' :: joinSlash (cleanElems true cs)⟩
    else
      match cleanElems false (c :: cs) with
      | [] => "."
      | es => ⟨joinSlash es⟩

/-- A path name element kept in a cleaned rooted path: not empty, not `.`, not `..`, and
without a slash. -/
def ProperElem (e : List Char) : Prop :=
  e ≠ [] ∧ e ≠ ['.'] ∧ e ≠ ['.', '.'] ∧ '/' ∉ e

instance (e : List Char) : Decidable (ProperElem e) := by
  unfold ProperElem
  infer_instance

/-! ## The static file system -/

/-- A `time.Time` in UTC, as the arguments of `time.Date`. -/
structure Time where
  year : Nat
  month : Nat
  day : Nat
  hour : Nat
  min : Nat
  sec : Nat
  nsec : Nat
  deriving DecidableEq, Repr

/-- Type `vfsgen۰FileInfo`: a static definition of an uncompressed file. -/
structure vfsgenFileInfo where
  name : String
  modTime : Time
  content : List UInt8
  deriving DecidableEq, Repr

mutual
/-- Type `vfsgen۰DirInfo`: a static definition of a directory. -/
inductive vfsgenDirInfo where
  | mk (name : String) (modTime : Time) (entries : List FileInfo)
/-- The `os.FileInfo` values stored in `entries`: a `*vfsgen۰FileInfo` or a
`*vfsgen۰DirInfo`. -/
inductive FileInfo where
  | file (f : vfsgenFileInfo)
  | dir (d : vfsgenDirInfo)
end

namespace vfsgenDirInfo

/-- Field `name`. -/
def name : vfsgenDirInfo → String
  | mk n _ _ => n

/-- Field `modTime`. -/
def modTime : vfsgenDirInfo → Time
  | mk _ t _ => t

/-- Field `entries`. -/
def entries : vfsgenDirInfo → List FileInfo
  | mk _ _ es => es

end vfsgenDirInfo

/-- A value of the map `vfsgen۰FS` (`interface{}`): one of the two generated types, or
anything else. -/
inductive Value where
  | fileInfo (f : vfsgenFileInfo)
  | dirInfo (d : vfsgenDirInfo)
  | other (typeName : String)

/-- Type `vfsgen۰FS`: `map[string]interface{}`, as an association list with unique keys. -/
abbrev vfsgenFS := List (String × Value)

/-- Map index `fs[path]` with the comma-ok form. -/
def vfsgenFS.get (fs : vfsgenFS) (path : String) : Option Value :=
  (fs.find? (fun kv => kv.1 == path)).map Prod.snd

/-- The modification time of every node, `time.Date(2018, 11, 9, 1, 5, 41, 0, time.UTC)`. -/
def genTime : Time := ⟨2018, 11, 9, 1, 5, 41, 0⟩

/-- The content of `/cmd/{{ .name }}/run.go.tmpl`. -/
def runGoTmplContent : List UInt8 :=
  [0x70, 0x61, 0x63, 0x6b, 0x61, 0x67, 0x65, 0x20, 0x6d, 0x61, 0x69, 0x6e, 0x0a, 0x0a, 0x69, 0x6d,
   0x70, 0x6f, 0x72, 0x74, 0x20, 0x28, 0x0a, 0x09, 0x22, 0x66, 0x6d, 0x74, 0x22, 0x0a, 0x09, 0x22,
   0x6f, 0x73, 0x22, 0x0a, 0x29, 0x0a, 0x0a, 0x66, 0x75, 0x6e, 0x63, 0x20, 0x6d, 0x61, 0x69, 0x6e,
   0x28, 0x29, 0x20, 0x7b, 0x0a, 0x09, 0x6f, 0x73, 0x2e, 0x45, 0x78, 0x69, 0x74, 0x28, 0x72, 0x75,
   0x6e, 0x28, 0x29, 0x29, 0x0a, 0x7d, 0x0a, 0x0a, 0x66, 0x75, 0x6e, 0x63, 0x20, 0x72, 0x75, 0x6e,
   0x28, 0x29, 0x20, 0x69, 0x6e, 0x74, 0x20, 0x7b, 0x0a, 0x09, 0x66, 0x6d, 0x74, 0x2e, 0x50, 0x72,
   0x69, 0x6e, 0x74, 0x6c, 0x6e, 0x28, 0x22, 0x49, 0x74, 0x20, 0x77, 0x6f, 0x72, 0x6b, 0x73, 0x21,
   0x22, 0x29, 0x0a, 0x09, 0x72, 0x65, 0x74, 0x75, 0x72, 0x6e, 0x20, 0x30, 0x0a, 0x7d, 0x0a]

/-- The node stored under `/cmd/{{ .name }}/run.go.tmpl`. -/
def runGoTmpl : vfsgenFileInfo :=
  { name := "run.go.tmpl", modTime := genTime, content := runGoTmplContent }

/-- The node stored under `/cmd/{{ .name }}`, with the entries assigned after the map
literal. -/
def nameDir : vfsgenDirInfo :=
  .mk "\x7b\x7b .name \x7d\x7d" genTime [.file runGoTmpl]

/-- The node stored under `/cmd`. -/
def cmdDir : vfsgenDirInfo :=
  .mk "cmd" genTime [.dir nameDir]

/-- The node stored under `/`. -/
def rootDir : vfsgenDirInfo :=
  .mk "/" genTime [.dir cmdDir]

/-- The shipped value `FS`. -/
def FS : vfsgenFS :=
  [ ("/", .dirInfo rootDir),
    ("/cmd", .dirInfo cmdDir),
    ("/cmd/\x7b\x7b .name \x7d\x7d", .dirInfo nameDir),
    ("/cmd/\x7b\x7b .name \x7d\x7d/run.go.tmpl", .fileInfo runGoTmpl) ]

/-- Type `os.PathError`. `err` holds the wrapped error value, by its message. -/
structure PathError where
  op : String
  path : String
  err : String
  deriving DecidableEq, Repr

/-- The error value `os.ErrNotExist`. -/
def ErrNotExist : String := "file does not exist"

/-- Type `vfsgen۰File`: an opened file instance, the file's info and a `bytes.Reader` on its
content; `off` is the reader's offset. -/
structure vfsgenFile where
  info : vfsgenFileInfo
  reader : List UInt8
  off : Int

/-- Type `vfsgen۰Dir`: an opened dir instance; `pos` is the position within entries for `Seek`
and `Readdir`. -/
structure vfsgenDir where
  info : vfsgenDirInfo
  pos : Int

/-- The outcomes of `Open`: an `http.File` (a file or a directory handle), a nil file with
an error, or a panic. -/
inductive OpenResult where
  | file (f : vfsgenFile)
  | dir (d : vfsgenDir)
  | error (e : PathError)
  | panic (msg : String)

/-- Method `func (fs vfsgen۰FS) Open(path string) (http.File, error)`: the path is cleaned
as an absolute path and looked up in the map. -/
def vfsgenFS.Open (fs : vfsgenFS) (path : String) : OpenResult :=
  let path := Clean ("/" ++ path)
  match fs.get path with
  | none => .error { op := "open", path := path, err := ErrNotExist }
  | some (.fileInfo f) => .file { info := f, reader := f.content, off := 0 }
  | some (.dirInfo d) => .dir { info := d, pos := 0 }
  | some (.other t) => .panic ("unexpected type " ++ t)

/-- The key set of a file system value. -/
def vfsgenFS.keys (fs : vfsgenFS) : List String := fs.map Prod.fst

/-! ## The methods of a file node -/

/-- Method `(*vfsgen۰FileInfo).Name`. -/
def vfsgenFileInfo.Name (f : vfsgenFileInfo) : String := f.name

/-- Method `(*vfsgen۰FileInfo).Size`: `int64(len(f.content))`. -/
def vfsgenFileInfo.Size (f : vfsgenFileInfo) : Int := f.content.length

/-- Method `(*vfsgen۰FileInfo).Mode`: `0444`. -/
def vfsgenFileInfo.Mode (_ : vfsgenFileInfo) : Nat := 0o444

/-- Method `(*vfsgen۰FileInfo).ModTime`. -/
def vfsgenFileInfo.ModTime (f : vfsgenFileInfo) : Time := f.modTime

/-- Method `(*vfsgen۰FileInfo).IsDir`. -/
def vfsgenFileInfo.IsDir (_ : vfsgenFileInfo) : Bool := false

/-- Method `(*vfsgen۰FileInfo).Sys`: nil. -/
def vfsgenFileInfo.Sys (_ : vfsgenFileInfo) : Option Unit := none

/-- Method `(*vfsgen۰FileInfo).Stat`: the node itself and a nil error. -/
def vfsgenFileInfo.Stat (f : vfsgenFileInfo) : FileInfo × Option String := (.file f, none)

/-- Method `(*vfsgen۰FileInfo).Readdir`: a nil slice and an error. -/
def vfsgenFileInfo.Readdir (f : vfsgenFileInfo) (_ : Int) :
    Option (List FileInfo) × Option String :=
  (none, some ("cannot Readdir from file " ++ f.name))

/-! ## The methods of a directory node -/

/-- The bit `os.ModeDir`, `1 << 31`. -/
def ModeDir : Nat := 2 ^ 31

/-- Method `(*vfsgen۰DirInfo).Read`: nothing read and an error. -/
def vfsgenDirInfo.Read (d : vfsgenDirInfo) (_ : Nat) : Int × Option String :=
  (0, some ("cannot Read from directory " ++ d.name))

/-- Method `(*vfsgen۰DirInfo).Close`: nil. -/
def vfsgenDirInfo.Close (_ : vfsgenDirInfo) : Option String := none

/-- Method `(*vfsgen۰DirInfo).Stat`: the node itself and a nil error. -/
def vfsgenDirInfo.Stat (d : vfsgenDirInfo) : FileInfo × Option String := (.dir d, none)

/-- Method `(*vfsgen۰DirInfo).Name`. -/
def vfsgenDirInfo.Name (d : vfsgenDirInfo) : String := d.name

/-- Method `(*vfsgen۰DirInfo).Size`. -/
def vfsgenDirInfo.Size (_ : vfsgenDirInfo) : Int := 0

/-- Method `(*vfsgen۰DirInfo).Mode`: `0755 | os.ModeDir`. -/
def vfsgenDirInfo.Mode (_ : vfsgenDirInfo) : Nat := 0o755 ||| ModeDir

/-- Method `(*vfsgen۰DirInfo).ModTime`. -/
def vfsgenDirInfo.ModTime (d : vfsgenDirInfo) : Time := d.modTime

/-- Method `(*vfsgen۰DirInfo).IsDir`. -/
def vfsgenDirInfo.IsDir (_ : vfsgenDirInfo) : Bool := true

/-- Method `(*vfsgen۰DirInfo).Sys`: nil. -/
def vfsgenDirInfo.Sys (_ : vfsgenDirInfo) : Option Unit := none

/-- Method `Name` of an `os.FileInfo` value. -/
def FileInfo.Name : FileInfo → String
  | .file f => f.Name
  | .dir d => d.Name

/-- Method `IsDir` of an `os.FileInfo` value. -/
def FileInfo.IsDir : FileInfo → Bool
  | .file f => f.IsDir
  | .dir d => d.IsDir

/-- Method `Size` of an `os.FileInfo` value. -/
def FileInfo.Size : FileInfo → Int
  | .file f => f.Size
  | .dir d => d.Size

/-- The map value that is a given `os.FileInfo` node. -/
def FileInfo.toValue : FileInfo → Value
  | .file f => .fileInfo f
  | .dir d => .dirInfo d

/-! ## Opened files: `bytes.Reader` -/

/-- The error value `io.EOF`. -/
def EOF : String := "EOF"

/-- Go's `int64` arithmetic: the value wrapped into `[-2^63, 2^63)`. -/
def wrapInt64 (x : Int) : Int := (x + 2 ^ 63) % 2 ^ 64 - 2 ^ 63

/-- What `Read` returns: the bytes copied into the buffer, the count, the error, and the
handle afterwards. -/
structure ReadReturn where
  bytes : List UInt8
  n : Int
  err : Option String
  file : vfsgenFile

/-- Method `Read` of an opened file, promoted from `*bytes.Reader`, on a buffer of
`bufLen` bytes: at the end of the content nothing is read and the error is `io.EOF`;
otherwise as many bytes as fit are copied from the offset, which advances by their
number. -/
def vfsgenFile.Read (f : vfsgenFile) (bufLen : Nat) : ReadReturn :=
  if f.off ≥ f.reader.length then { bytes := [], n := 0, err := some EOF, file := f }
  else
    let b := (f.reader.drop f.off.toNat).take bufLen
    { bytes := b, n := b.length, err := none, file := { f with off := f.off + b.length } }

/-- Reading an opened file to the end with a buffer of `bufLen` bytes, as `io.ReadAll`
does: `Read` is called until it returns an error, for at most `fuel` calls. -/
def vfsgenFile.readAll (bufLen : Nat) : Nat → vfsgenFile → List UInt8
  | 0, _ => []
  | fuel + 1, f =>
    let r := f.Read bufLen
    match r.err with
    | some _ => r.bytes
    | none => r.bytes ++ vfsgenFile.readAll bufLen fuel r.file

/-- The constant `io.SeekStart`. -/
def SeekStart : Int := 0

/-- The constant `io.SeekCurrent`. -/
def SeekCurrent : Int := 1

/-- The constant `io.SeekEnd`. -/
def SeekEnd : Int := 2

/-- Method `Seek` of an opened file, promoted from `*bytes.Reader`: the offset is set
relative to the start, the current offset or the end; an invalid whence or a negative
position is an error and leaves the offset. -/
def vfsgenFile.Seek (f : vfsgenFile) (offset whence : Int) : Int × Option String × vfsgenFile :=
  if whence = SeekStart then
    if offset < 0 then (0, some "bytes.Reader.Seek: negative position", f)
    else (offset, none, { f with off := offset })
  else if whence = SeekCurrent then
    if wrapInt64 (f.off + offset) < 0 then (0, some "bytes.Reader.Seek: negative position", f)
    else (wrapInt64 (f.off + offset), none, { f with off := wrapInt64 (f.off + offset) })
  else if whence = SeekEnd then
    if wrapInt64 (f.reader.length + offset) < 0 then
      (0, some "bytes.Reader.Seek: negative position", f)
    else
      (wrapInt64 (f.reader.length + offset), none,
        { f with off := wrapInt64 (f.reader.length + offset) })
  else (0, some "bytes.Reader.Seek: invalid whence", f)

/-- Method `(*vfsgen۰File).Close`: nil. -/
def vfsgenFile.Close (_ : vfsgenFile) : Option String := none

/-! ## Opened directories -/

/-- What a call returns or a run-time panic. -/
inductive Outcome (α : Type) where
  | ret (a : α)
  | panic (msg : String)

/-- What `Readdir` returns: the slice (`none` is the nil slice), the error, and the handle
afterwards. -/
structure ReaddirReturn where
  entries : Option (List FileInfo)
  err : Option String
  dir : vfsgenDir

/-- The slice expression `entries[lo:hi]` on a slice whose capacity is its length, as those
of `FS` are: out of range unless `0 <= lo <= hi <= len(entries)`. -/
def sliceEntries (entries : List FileInfo) (lo hi : Int) : Option (List FileInfo) :=
  if 0 ≤ lo ∧ lo ≤ hi ∧ hi ≤ entries.length then
    some ((entries.drop lo.toNat).take (hi - lo).toNat)
  else none

/-- Method `func (d *vfsgen۰Dir) Seek(offset int64, whence int) (int64, error)`. -/
def vfsgenDir.Seek (d : vfsgenDir) (offset whence : Int) : Int × Option String × vfsgenDir :=
  if offset = 0 ∧ whence = SeekStart then (0, none, { d with pos := 0 })
  else (0, some ("unsupported Seek in directory " ++ d.info.name), d)

/-- Method `func (d *vfsgen۰Dir) Readdir(count int) ([]os.FileInfo, error)`. The sums and
differences are those of Go's `int`: on a handle whose cursor is in range they lie between
0 and `len(d.entries)`, so none wraps. -/
def vfsgenDir.Readdir (d : vfsgenDir) (count : Int) : Outcome ReaddirReturn :=
  if d.pos ≥ d.info.entries.length ∧ count > 0 then
    .ret { entries := none, err := some EOF, dir := d }
  else
    let count :=
      if count ≤ 0 ∨ count > d.info.entries.length - d.pos then d.info.entries.length - d.pos
      else count
    match sliceEntries d.info.entries d.pos (d.pos + count) with
    | none => .panic "slice bounds out of range"
    | some e => .ret { entries := some e, err := none, dir := { d with pos := d.pos + count } }

/-- The cursor of an opened directory is in range: `0 <= pos <= len(entries)`. -/
def vfsgenDir.InRange (d : vfsgenDir) : Prop :=
  0 ≤ d.pos ∧ d.pos ≤ d.info.entries.length

instance (d : vfsgenDir) : Decidable d.InRange := by
  unfold vfsgenDir.InRange
  infer_instance

/-- A sequence of `Readdir` calls on one handle with the given counts: what each call
returned, and the handle afterwards; `none` if a call panicked. -/
def vfsgenDir.readdirs : vfsgenDir → List Int → Option (List ReaddirReturn × vfsgenDir)
  | d, [] => some ([], d)
  | d, c :: cs =>
    match d.Readdir c with
    | .panic _ => none
    | .ret r =>
      match vfsgenDir.readdirs r.dir cs with
      | none => none
      | some (rs, d') => some (r :: rs, d')

/-- The entries returned by a sequence of calls, concatenated. -/
def concatEntries (rs : List ReaddirReturn) : List FileInfo :=
  (rs.map (fun r => r.entries.getD [])).flatten

/-! ## Go's `path.Join` and `path.Base` -/

/-- Strings joined by single slashes. -/
def joinStrings : List String → String
  | [] => ""
  | [s] => s
  | s :: t :: ts => s ++ "/" ++ joinStrings (t :: ts)

/-- Go's `path.Join`: the elements from the first non-empty one on, joined by slashes and
cleaned; the empty string if all are empty. -/
def Join (elem : List String) : String :=
  match elem.dropWhile (fun e => e = "") with
  | [] => ""
  | es => Clean (joinStrings es)

/-- A path without its trailing slashes, given reversed. -/
def stripSlashesRev : List Char → List Char
  | [] => []
  | c :: cs => if c = '/' then stripSlashesRev cs else c :: cs

/-- Go's `path.Base`: the last element of the path, trailing slashes removed; `"."` for
the empty path and `"/"` for a path of slashes only. -/
def Base (path : String) : String :=
  if path = "" then "."
  else
    match (splitSlash (stripSlashesRev path.data.reverse).reverse).getLast? with
    | none => "/"
    | some [] => "/"
    | some last => ⟨last⟩

/-! ## The construction of `FS` -/

/-- A value of the map while `FS` is built. The elements of `entries` are pointers: each
is given by the key of the map under which the node pointed to was allocated. -/
inductive RawValue where
  | fileInfo (f : vfsgenFileInfo)
  | dirInfo (name : String) (modTime : Time) (entries : List String)
  | other (typeName : String)
  deriving DecidableEq, Repr

/-- The map while `FS` is built. -/
abbrev RawFS := List (String × RawValue)

/-- Map index with the comma-ok form. -/
def RawFS.get (fs : RawFS) (key : String) : Option RawValue :=
  (fs.find? (fun kv => kv.1 == key)).map Prod.snd

/-- The composite literal `vfsgen۰FS{...}` that starts the construction: every directory
still without entries. -/
def fsLiteral : RawFS :=
  [ ("/", .dirInfo "/" genTime []),
    ("/cmd", .dirInfo "cmd" genTime []),
    ("/cmd/\x7b\x7b .name \x7d\x7d", .dirInfo "\x7b\x7b .name \x7d\x7d" genTime []),
    ("/cmd/\x7b\x7b .name \x7d\x7d/run.go.tmpl", .fileInfo runGoTmpl) ]

/-- Sequencing of calls that may panic. -/
def Outcome.bind {α β : Type} (o : Outcome α) (f : α → Outcome β) : Outcome β :=
  match o with
  | .ret a => f a
  | .panic msg => .panic msg

/-- The type assertion `fs[key].(*vfsgen۰DirInfo)`: it panics unless the value is a
directory node. -/
def assertDirInfo (fs : RawFS) (key : String) : Outcome Unit :=
  match fs.get key with
  | some (.dirInfo _ _ _) => .ret ()
  | some (.fileInfo _) =>
    .panic "interface conversion: interface \x7b\x7d is *vfsgen۰FileInfo, not *vfsgen۰DirInfo"
  | some (.other t) =>
    .panic ("interface conversion: interface \x7b\x7d is " ++ t ++ ", not *vfsgen۰DirInfo")
  | none => .panic "interface conversion: interface \x7b\x7d is nil, not *vfsgen۰DirInfo"

/-- The type assertion `fs[key].(os.FileInfo)`: the pointer stored under the key, when it
is one of the two node types, which implement `os.FileInfo`; a panic otherwise. -/
def assertFileInfo (fs : RawFS) (key : String) : Outcome String :=
  match fs.get key with
  | some (.dirInfo _ _ _) => .ret key
  | some (.fileInfo _) => .ret key
  | some (.other t) =>
    .panic ("interface conversion: " ++ t ++ " is not os.FileInfo")
  | none => .panic "interface conversion: interface is nil, not os.FileInfo"

/-- The assignment `fs[key].(*vfsgen۰DirInfo).entries = entries`, the assertion done. -/
def assignEntries (fs : RawFS) (key : String) (entries : List String) : RawFS :=
  fs.map (fun kv =>
    match kv with
    | (k, .dirInfo n t es) => if k = key then (k, .dirInfo n t entries) else (k, .dirInfo n t es)
    | kv => kv)

/-- The three assignments that follow the literal, each with the type assertion on its
left side evaluated first and the one on its right side next. -/
def buildRaw : Outcome RawFS :=
  (assertDirInfo fsLiteral "/").bind fun _ =>
  (assertFileInfo fsLiteral "/cmd").bind fun e₁ =>
  let fs₁ := assignEntries fsLiteral "/" [e₁]
  (assertDirInfo fs₁ "/cmd").bind fun _ =>
  (assertFileInfo fs₁ "/cmd/\x7b\x7b .name \x7d\x7d").bind fun e₂ =>
  let fs₂ := assignEntries fs₁ "/cmd" [e₂]
  (assertDirInfo fs₂ "/cmd/\x7b\x7b .name \x7d\x7d").bind fun _ =>
  (assertFileInfo fs₂ "/cmd/\x7b\x7b .name \x7d\x7d/run.go.tmpl").bind fun e₃ =>
  .ret (assignEntries fs₂ "/cmd/\x7b\x7b .name \x7d\x7d" [e₃])

/-- The node a pointer leads to, with the pointers in its entries followed in turn, for at
most `fuel` levels. -/
def derefNode (fs : RawFS) : Nat → String → Option FileInfo
  | 0, _ => none
  | fuel + 1, key =>
    match fs.get key with
    | some (.fileInfo f) => some (.file f)
    | some (.dirInfo n t es) =>
      (es.mapM (derefNode fs fuel)).map (fun nodes => .dir (.mk n t nodes))
    | _ => none

/-- The map with every pointer followed: the value of type `vfsgen۰FS` that the
construction returns. -/
def derefFS (fs : RawFS) : Option vfsgenFS :=
  fs.mapM (fun kv =>
    match kv.2 with
    | .other t => some (kv.1, Value.other t)
    | _ => (derefNode fs fs.length kv.1).map (fun node => (kv.1, node.toValue)))

/-- The function literal `func() http.FileSystem { ... }()` whose result is `FS`. -/
def buildFS : Outcome vfsgenFS :=
  buildRaw.bind fun raw =>
    match derefFS raw with
    | some fs => .ret fs
    | none => .panic "invalid memory address or nil pointer dereference"

/-! ## The tree of the map -/

/-- Go's `path.Dir`: the path up to its last slash, cleaned. -/
def Dir (path : String) : String :=
  Clean ⟨((path.data.reverse.dropWhile (fun c => c ≠ '/'))).reverse⟩

/-- The keys under which the entries of a node are expected: `path.Join(key, e.Name())`
for each entry `e` of a directory node, none for another value. -/
def childKeys (key : String) : Value → List String
  | .dirInfo d => d.entries.map (fun e => Join [key, e.Name])
  | _ => []

/-- The keys of the directories that have an entry expected under the given key. -/
def parents (fs : vfsgenFS) (key : String) : List String :=
  (fs.filter (fun kv => decide (key ∈ childKeys kv.1 kv.2))).map Prod.fst

/-- The name of a node while `FS` is built. -/
def RawValue.name : RawValue → String
  | .fileInfo f => f.name
  | .dirInfo n _ _ => n
  | .other _ => ""

/-- The pointers in the entries of a node while `FS` is built. -/
def RawValue.entries : RawValue → List String
  | .dirInfo _ _ es => es
  | _ => []

/-! ## Walking the tree -/

/-- A depth-first walk from a path with `Open` and `Readdir`, for at most `fuel` levels:
the paths opened, in order, each with whether it is a directory. -/
def walk (fs : vfsgenFS) : Nat → String → List (String × Bool)
  | 0, _ => []
  | fuel + 1, path =>
    match fs.Open path with
    | .file _ => [(path, false)]
    | .dir d =>
      match d.Readdir (-1) with
      | .ret r =>
        (path, true) ::
          ((r.entries.getD []).map (fun e => walk fs fuel (Join [path, e.Name]))).flatten
      | .panic _ => [(path, true)]
    | .error _ => []
    | .panic _ => []

/-! ## Calls on the file system and its open handles -/

/-- An `http.File` returned by `Open`. -/
inductive Handle where
  | file (f : vfsgenFile)
  | dir (d : vfsgenDir)

/-- The node a handle was opened on: what `Stat` returns. -/
def Handle.info : Handle → FileInfo
  | .file f => .file f.info
  | .dir d => .dir d.info

/-- The state calls act on: the map and the handles opened so far, each known by its
index. -/
structure World where
  fs : vfsgenFS
  handles : List Handle

/-- A call: `Open` on the file system; `Readdir`, `Seek` or `Stat` on the handle of index
`h`; or a metadata method on the `os.FileInfo` of that handle. -/
inductive Call where
  | Open (path : String)
  | Readdir (h : Nat) (count : Int)
  | Seek (h : Nat) (offset whence : Int)
  | Stat (h : Nat)
  | Name (h : Nat)
  | Size (h : Nat)
  | Mode (h : Nat)
  | ModTime (h : Nat)
  | IsDir (h : Nat)
  | Sys (h : Nat)

/-- What a call returns. -/
inductive Response where
  | opened (h : Nat)
  | openError (e : PathError)
  | entries (es : Option (List FileInfo)) (err : Option String)
  | offset (n : Int) (err : Option String)
  | info (i : FileInfo) (err : Option String)
  | name (s : String)
  | size (n : Int)
  | mode (m : Nat)
  | modTime (t : Time)
  | isDir (b : Bool)
  | sys (v : Option Unit)
  | noHandle
  | panic (msg : String)

/-- One call. A call on a file handle goes to the methods of `vfsgen۰File` (those of its
`*vfsgen۰FileInfo`, and `Seek` of its `*bytes.Reader`), a call on a directory handle to
those of `vfsgen۰Dir`. -/
def World.call (w : World) : Call → World × Response
  | .Open path =>
    match w.fs.Open path with
    | .file f => ({ w with handles := w.handles ++ [.file f] }, .opened w.handles.length)
    | .dir d => ({ w with handles := w.handles ++ [.dir d] }, .opened w.handles.length)
    | .error e => (w, .openError e)
    | .panic msg => (w, .panic msg)
  | .Readdir h count =>
    match w.handles[h]? with
    | none => (w, .noHandle)
    | some (.file f) => (w, .entries (f.info.Readdir count).1 (f.info.Readdir count).2)
    | some (.dir d) =>
      match d.Readdir count with
      | .panic msg => (w, .panic msg)
      | .ret r => ({ w with handles := w.handles.set h (.dir r.dir) }, .entries r.entries r.err)
  | .Seek h offset whence =>
    match w.handles[h]? with
    | none => (w, .noHandle)
    | some (.file f) =>
      let r := f.Seek offset whence
      ({ w with handles := w.handles.set h (.file r.2.2) }, .offset r.1 r.2.1)
    | some (.dir d) =>
      let r := d.Seek offset whence
      ({ w with handles := w.handles.set h (.dir r.2.2) }, .offset r.1 r.2.1)
  | .Stat h =>
    match w.handles[h]? with
    | none => (w, .noHandle)
    | some (.file f) => (w, .info f.info.Stat.1 f.info.Stat.2)
    | some (.dir d) => (w, .info d.info.Stat.1 d.info.Stat.2)
  | .Name h =>
    match w.handles[h]? with
    | none => (w, .noHandle)
    | some (.file f) => (w, .name f.info.Name)
    | some (.dir d) => (w, .name d.info.Name)
  | .Size h =>
    match w.handles[h]? with
    | none => (w, .noHandle)
    | some (.file f) => (w, .size f.info.Size)
    | some (.dir d) => (w, .size d.info.Size)
  | .Mode h =>
    match w.handles[h]? with
    | none => (w, .noHandle)
    | some (.file f) => (w, .mode f.info.Mode)
    | some (.dir d) => (w, .mode d.info.Mode)
  | .ModTime h =>
    match w.handles[h]? with
    | none => (w, .noHandle)
    | some (.file f) => (w, .modTime f.info.ModTime)
    | some (.dir d) => (w, .modTime d.info.ModTime)
  | .IsDir h =>
    match w.handles[h]? with
    | none => (w, .noHandle)
    | some (.file f) => (w, .isDir f.info.IsDir)
    | some (.dir d) => (w, .isDir d.info.IsDir)
  | .Sys h =>
    match w.handles[h]? with
    | none => (w, .noHandle)
    | some (.file f) => (w, .sys f.info.Sys)
    | some (.dir d) => (w, .sys d.info.Sys)

/-- A sequence of calls: the state afterwards and what each call returned. -/
def World.calls : World → List Call → World × List Response
  | w, [] => (w, [])
  | w, c :: cs =>
    let r := w.call c
    let rs := World.calls r.1 cs
    (rs.1, r.2 :: rs.2)

/-- The handle a call is made on, if any. -/
def Call.target : Call → Option Nat
  | .Open _ => none
  | .Readdir h _ => some h
  | .Seek h _ _ => some h
  | .Stat h => some h
  | .Name h => some h
  | .Size h => some h
  | .Mode h => some h
  | .ModTime h => some h
  | .IsDir h => some h
  | .Sys h => some h

/-- Two states of one handle that differ at most in the cursor: both on the same directory
node, or both on the same file node with the same content to read. -/
def Handle.SameButCursor : Handle → Handle → Prop
  | .dir d, .dir d' => d'.info = d.info
  | .file f, .file f' => f'.info = f.info ∧ f'.reader = f.reader
  | _, _ => False

/-- Two states of one handle of which the second is the first, or a directory handle on
the same node with another `pos`. -/
def Handle.SameButDirPos : Handle → Handle → Prop
  | .dir d, .dir d' => d'.info = d.info
  | .file f, .file f' => f'.info = f.info ∧ f'.reader = f.reader ∧ f'.off = f.off
  | _, _ => False

/-- The frame condition with only the `pos` of directory handles allowed to change: the
map is the same and every handle is as it was, or is a directory handle on the same node. -/
def World.FrameAsClaimed (w w' : World) : Prop :=
  w'.fs = w.fs ∧
  ∀ (i : Nat) (h : Handle), w.handles[i]? = some h →
    ∃ h', w'.handles[i]? = some h' ∧ h.SameButDirPos h'

/-- The state the program starts in: the shipped map and no open handle. -/
def World.start : World := { fs := FS, handles := [] }

end Template

namespace Svcgen

/-! ## Naming Engine (specification §4.1) -/

/-- Modelled from the spec: the splitting of a raw identifier on a separator character,
part of the naming engine (`pkg/svcgen`, not among the source files). `"foo/bar"` split on
`/` gives `["foo", "bar"]`; a string without the separator gives one piece. -/
def splitOnChar (sep : Char) : List Char → List (List Char)
  | [] => [[]]
  | c :: cs =>
    if c = sep then [] :: splitOnChar sep cs
    else
      match splitOnChar sep cs with
      | [] => [[c]]
      | s :: ss => (c :: s) :: ss

/-- Modelled from the spec: the per-character normalisation of the naming engine
(`pkg/svcgen`, not among the source files), "converting kebab-case to snake_case
(hyphen → underscore) and lower-casing". -/
def normalizeChar (c : Char) : Char :=
  if c = '-' then '_' else c.toLower

/-- Modelled from the spec: the normalisation of one path segment to snake_case, the
canonical form (naming engine, `pkg/svcgen`, not among the source files). -/
def normalizeSegment (s : String) : String :=
  ⟨s.data.map normalizeChar⟩

/-- Modelled from the spec: the segments of a raw resource path, "split on path
separators; every segment is normalized" (naming engine, `pkg/svcgen`, not among the
source files). -/
def pathSegments (rawPath : String) : List String :=
  (splitOnChar '/' rawPath.data).map (fun s => normalizeSegment ⟨s⟩)

/-- Modelled from the spec: upper-casing of the first letter, used for PascalCase (naming
engine, `pkg/svcgen`, not among the source files). -/
def capitalize : List Char → List Char
  | [] => []
  | c :: cs => c.toUpper :: cs

/-- Modelled from the spec: lower-casing of the first letter, used for camelCase (naming
engine, `pkg/svcgen`, not among the source files). -/
def uncapitalize : List Char → List Char
  | [] => []
  | c :: cs => c.toLower :: cs

/-- Modelled from the spec: the PascalCase form of a snake_case name (naming engine,
`pkg/svcgen`, not among the source files): the words between underscores, capitalised and
concatenated. -/
def pascalCase (snake : String) : String :=
  ⟨((splitOnChar '_' snake.data).map capitalize).flatten⟩

/-- Modelled from the spec: the camelCase form of a snake_case name (naming engine,
`pkg/svcgen`, not among the source files). -/
def camelCase (snake : String) : String :=
  ⟨uncapitalize (pascalCase snake).data⟩

/-- Modelled from the spec: the kebab-case form of a snake_case name (naming engine,
`pkg/svcgen`, not among the source files). -/
def kebabCase (snake : String) : String :=
  ⟨snake.data.map (fun c => if c = '_' then '-' else c)⟩

/-- Modelled from the spec: the vowels of the pluralisation heuristic (naming engine,
`pkg/svcgen`, not among the source files). -/
def isVowel (c : Char) : Bool :=
  c = 'a' || c = 'e' || c = 'i' || c = 'o' || c = 'u'

/-- Modelled from the spec: the English pluralisation heuristic of the naming engine
(`pkg/svcgen`, not among the source files): "default append `s`; words ending in `s`, `x`,
`z`, `ch`, `sh` append `es`; words ending in consonant+`y` replace `y` with `ies`"; no
irregular nouns. The word is given reversed. -/
def pluralizeRev : List Char → List Char
  | 's' :: rest => ('s' :: rest).reverse ++ ['e', 's']
  | 'x' :: rest => ('x' :: rest).reverse ++ ['e', 's']
  | 'z' :: rest => ('z' :: rest).reverse ++ ['e', 's']
  | 'h' :: 'c' :: rest => ('h' :: 'c' :: rest).reverse ++ ['e', 's']
  | 'h' :: 's' :: rest => ('h' :: 's' :: rest).reverse ++ ['e', 's']
  | 'y' :: c :: rest =>
    if c.isAlpha && !isVowel c then (c :: rest).reverse ++ ['i', 'e', 's']
    else ('y' :: c :: rest).reverse ++ ['s']
  | w => w.reverse ++ ['s']

/-- Modelled from the spec: the plural of a snake_case name (naming engine, `pkg/svcgen`,
not among the source files). -/
def pluralize (snake : String) : String :=
  ⟨pluralizeRev snake.data.reverse⟩

/-- Modelled from the spec: `NameSet`, the result of the naming engine (`pkg/svcgen`, not
among the source files). `ns` and `leaf` are the normalised namespace segments and last
path segment, used for file and directory naming; the other fields are the derived forms
used for type and identifier generation. -/
structure NameSet where
  ns : List String
  leaf : String
  snake : String
  pascal : String
  camel : String
  kebab : String
  pluralSnake : String
  pluralPascal : String
  deriving DecidableEq, Repr

/-- Modelled from the spec: `DeriveNameSet(rawPath, resourceNameOverride) -> NameSet`
(naming engine, `pkg/svcgen`, not among the source files). The last segment is the leaf,
the preceding segments the namespace; an override replaces only the value the derived
forms are computed from. -/
def DeriveNameSet (rawPath : String) (resourceNameOverride : Option String) : NameSet :=
  let segs := pathSegments rawPath
  let leaf := segs.getLastD ""
  let ident :=
    match resourceNameOverride with
    | some r => normalizeSegment r
    | none => leaf
  { ns := segs.dropLast
    leaf := leaf
    snake := ident
    pascal := pascalCase ident
    camel := camelCase ident
    kebab := kebabCase ident
    pluralSnake := pluralize ident
    pluralPascal := pascalCase (pluralize ident) }

/-! ## Method Catalog (specification §4.2) -/

/-- Modelled from the spec: the classification tag of a `MethodSpec` (method catalog,
`pkg/svcgen`, not among the source files). -/
inductive MethodKind where
  | Standard
  | Custom
  deriving DecidableEq, Repr

/-- Modelled from the spec: the parameter/return shape descriptor of a `MethodSpec`
(method catalog, `pkg/svcgen`, not among the source files): the pre-defined shape of a
standard method, or the generic shape (a request containing the resource identifier field,
a response containing the resource body). -/
inductive Shape where
  | predefined (method : String)
  | generic
  deriving DecidableEq, Repr

/-- Modelled from the spec: `MethodSpec` (method catalog, `pkg/svcgen`, not among the
source files). -/
structure MethodSpec where
  name : String
  kind : MethodKind
  shape : Shape
  deriving DecidableEq, Repr

/-- Modelled from the spec: the pieces of a template's relative path (template resolver,
`pkg/svcgen`, not among the source files): literal text and the placeholder tokens
resource-name, namespace and package. -/
inductive PathToken where
  | lit (s : String)
  | resourceName
  | nspace
  | package
  deriving DecidableEq, Repr

/-- Modelled from the spec: the errors of a generation run (`pkg/svcgen`, not among the
source files): `ErrDuplicateMethod`, `ErrTemplateSyntax` carrying the offending template's
logical path (its relative path in the template tree), and the error of the interface
compiler, carried verbatim under the operation that met it. -/
inductive GenError where
  | ErrDuplicateMethod (name : String)
  | ErrTemplateSyntax (templatePath : List (List PathToken))
  | compiler (cause : String)
  deriving DecidableEq, Repr

/-- Modelled from the spec: the project configuration of the method catalog (`pkg/svcgen`,
not among the source files): the project-specific additions to the standard set and the
default method list that applies when the caller passes zero methods. -/
structure Catalog where
  additions : List String
  defaultMethods : List String

/-- Modelled from the spec: the fixed part of the standard set, "list, get, create,
update, delete" (method catalog, `pkg/svcgen`, not among the source files). -/
def standardBase : List String := ["list", "get", "create", "update", "delete"]

/-- Modelled from the spec: membership in the fixed standard set (method catalog,
`pkg/svcgen`, not among the source files). -/
def isStandard (c : Catalog) (name : String) : Bool :=
  decide (name ∈ standardBase ++ c.additions)

/-- Modelled from the spec: the `MethodSpec` of a normalised method name (method catalog,
`pkg/svcgen`, not among the source files): Standard with its pre-defined shape when the
name is in the standard set, Custom with the generic shape otherwise. -/
def toMethodSpec (c : Catalog) (name : String) : MethodSpec :=
  if isStandard c name then { name := name, kind := .Standard, shape := .predefined name }
  else { name := name, kind := .Custom, shape := .generic }

/-- Modelled from the spec: the classification loop of the method catalog (`pkg/svcgen`,
not among the source files). `seen` holds the normalised names met so far; a name met
again is `ErrDuplicateMethod`. -/
def classifyFrom (c : Catalog) : List String → List String → Except GenError (List MethodSpec)
  | _, [] => .ok []
  | seen, n :: rest =>
    let m := normalizeSegment n
    if m ∈ seen then .error (.ErrDuplicateMethod m)
    else
      match classifyFrom c (m :: seen) rest with
      | .ok specs => .ok (toMethodSpec c m :: specs)
      | .error e => .error e

/-- Modelled from the spec: `ClassifyMethods(names []string) -> []MethodSpec` (method
catalog, `pkg/svcgen`, not among the source files): each name normalised and classified, in
the order of the input; a duplicate after normalisation is `ErrDuplicateMethod`. -/
def ClassifyMethods (c : Catalog) (names : List String) : Except GenError (List MethodSpec) :=
  classifyFrom c [] names

/-- Modelled from the spec: the method names a run classifies (method catalog,
`pkg/svcgen`, not among the source files): "if the caller passes zero methods, a
project-level default minimal method list applies". -/
def effectiveMethods (c : Catalog) (names : List String) : List String :=
  if names.isEmpty then c.defaultMethods else names

/-! ## Template Resolver (specification §4.3) -/

/-- Modelled from the spec: the two output roots of the template resolver (`pkg/svcgen`,
not among the source files), the proto dir and the server dir. -/
inductive OutputRoot where
  | ProtoDir
  | ServerDir
  deriving DecidableEq, Repr

/-- Modelled from the spec: a file of the virtual template tree (`pkg/svcgen`, not among
the source files): raw template bytes plus the relative path containing placeholder
tokens, as a list of path segments, and the output root it is generated under. The
relative path is also the template's logical path. -/
structure TemplateFile where
  root : OutputRoot
  relPath : List (List PathToken)
  content : String
  deriving DecidableEq, Repr

/-- Modelled from the spec: `TemplateNode`, a node of the virtual template tree
(`pkg/svcgen`, not among the source files): a directory with its ordered children, or a
file. -/
inductive TemplateNode where
  | dir (name : String) (children : List TemplateNode)
  | file (f : TemplateFile)

/-- Modelled from the spec: `RunOptions` (`pkg/svcgen`, not among the source files): package
name override, proto source and output directory overrides, server output directory
override, skip-test flag and resource-name override. As in the configuration built by
`TestRun`, an empty string is a directory or package that is not overridden. Existing
files are never overwritten (§4.5), so no overwrite policy is carried. -/
structure RunOptions where
  packageName : String
  protoDir : String
  protoOutDir : String
  serverDir : String
  skipTest : Bool
  resourceName : Option String
  deriving DecidableEq, Repr

/-- Modelled from the spec: the options of a run with nothing overridden (`pkg/svcgen`, not
among the source files). -/
def defaultOptions : RunOptions :=
  { packageName := "", protoDir := "", protoOutDir := "", serverDir := "",
    skipTest := false, resourceName := none }

/-- Modelled from the spec: the default proto dir of the persisted state layout (§6;
`pkg/svcgen`, not among the source files). -/
def defaultProtoDir : String := "api/protos"

/-- Modelled from the spec: the default server dir of the persisted state layout (§6;
`pkg/svcgen`, not among the source files). -/
def defaultServerDir : String := "app/server"

/-- Modelled from the spec: the effective output root (template resolver, `pkg/svcgen`, not
among the source files): the override when given, the default otherwise. -/
def effectiveRoot (o : RunOptions) : OutputRoot → String
  | .ProtoDir => if o.protoDir = "" then defaultProtoDir else o.protoDir
  | .ServerDir => if o.serverDir = "" then defaultServerDir else o.serverDir

/-- Modelled from the spec: path segments joined by the path separator (template resolver,
`pkg/svcgen`, not among the source files). -/
def joinSegs : List String → String
  | [] => ""
  | [s] => s
  | s :: t :: ts => s ++ "/" ++ joinSegs (t :: ts)

/-- Modelled from the spec: the joining of an output root with the substituted segments
(template resolver, `pkg/svcgen`, not among the source files); an empty segment, such as
the empty namespace of a single-segment path, contributes no directory. -/
def joinPath (parts : List String) : String :=
  joinSegs (parts.filter (fun s => s ≠ ""))

/-- Modelled from the spec: the substitution of one placeholder token (template resolver,
`pkg/svcgen`, not among the source files). The resource-name token is the leaf of the
path, never the override; the namespace is kept verbatim. -/
def substToken (n : NameSet) (o : RunOptions) : PathToken → String
  | .lit s => s
  | .resourceName => n.leaf
  | .nspace => joinSegs n.ns
  | .package => o.packageName

/-- Modelled from the spec: the substitution of the tokens of one path segment (template
resolver, `pkg/svcgen`, not among the source files). -/
def substSegment (n : NameSet) (o : RunOptions) : List PathToken → String
  | [] => ""
  | t :: ts => substToken n o t ++ substSegment n o ts

/-- Modelled from the spec: the output path of a template file under its effective output
root (template resolver, `pkg/svcgen`, not among the source files). Paths are relative to
the project root. -/
def outputPathOf (n : NameSet) (o : RunOptions) (f : TemplateFile) : String :=
  joinPath (effectiveRoot o f.root :: f.relPath.map (substSegment n o))

/-- Modelled from the spec: the test-file naming pattern (template resolver, `pkg/svcgen`,
not among the source files): the path ends in `_test.go`. -/
def isTestFile (path : String) : Bool :=
  "_test.go".data.isSuffixOf path.data

/-- Modelled from the spec: an unrendered `GenerationTarget` (template resolver,
`pkg/svcgen`, not among the source files): the template and the output path. -/
structure ResolvedTarget where
  template : TemplateFile
  outputPath : String
  deriving DecidableEq, Repr

mutual
/-- Modelled from the spec: `ResolveTargets(tree, nameSet, options)` (template resolver,
`pkg/svcgen`, not among the source files): a depth-first walk in the order of the
children; a file whose substituted path matches the test-file pattern is skipped when
`skipTest` is set. -/
def ResolveTargets (n : NameSet) (o : RunOptions) : TemplateNode → List ResolvedTarget
  | .file f =>
    let p := outputPathOf n o f
    if o.skipTest && isTestFile p then [] else [{ template := f, outputPath := p }]
  | .dir _ children => resolveChildren n o children
/-- Modelled from the spec: the walk over the ordered children of a directory node
(template resolver, `pkg/svcgen`, not among the source files). -/
def resolveChildren (n : NameSet) (o : RunOptions) : List TemplateNode → List ResolvedTarget
  | [] => []
  | c :: cs => ResolveTargets n o c ++ resolveChildren n o cs
end

/-- Modelled from the spec: the raw bytes of the four service templates (`pkg/svcgen`
template assets, not among the source files). -/
structure TemplateBytes where
  proto : String
  server : String
  registerFuncs : String
  test : String

/-- Modelled from the spec: the proto template (`pkg/svcgen` template assets, not among the
source files): `<namespace>/<resource-name>.proto` under the proto dir. -/
def protoTemplate (b : TemplateBytes) : TemplateFile :=
  ⟨.ProtoDir, [[.nspace], [.resourceName, .lit ".proto"]], b.proto⟩

/-- Modelled from the spec: the server implementation template (`pkg/svcgen` template
assets, not among the source files): `<namespace>/<resource-name>_server.go` under the
server dir. -/
def serverTemplate (b : TemplateBytes) : TemplateFile :=
  ⟨.ServerDir, [[.nspace], [.resourceName, .lit "_server.go"]], b.server⟩

/-- Modelled from the spec: the registration-glue template (`pkg/svcgen` template assets,
not among the source files): `<namespace>/<resource-name>_server_register_funcs.go` under
the server dir. -/
def registerFuncsTemplate (b : TemplateBytes) : TemplateFile :=
  ⟨.ServerDir, [[.nspace], [.resourceName, .lit "_server_register_funcs.go"]], b.registerFuncs⟩

/-- Modelled from the spec: the test template (`pkg/svcgen` template assets, not among the
source files): `<namespace>/<resource-name>_server_test.go` under the server dir. -/
def testTemplate (b : TemplateBytes) : TemplateFile :=
  ⟨.ServerDir, [[.nspace], [.resourceName, .lit "_server_test.go"]], b.test⟩

/-- Modelled from the spec: the template tree of the service generator (`pkg/svcgen`
template assets, not among the source files), after the persisted state layout of §6: the
proto file under the proto dir; the server, registration and test files under the server
dir; each below the namespace and named after the resource. -/
def serviceTemplates (b : TemplateBytes) : TemplateNode :=
  .dir "/"
    [ .dir "protos" [ .file (protoTemplate b) ],
      .dir "server"
        [ .file (serverTemplate b), .file (registerFuncsTemplate b), .file (testTemplate b) ] ]

/-- The path `<root>/<ns>/<file>` of the persisted state layout: an empty namespace
contributes no directory, so `<root>/<file>`. -/
def claimedPath (root ns file : String) : String :=
  if ns = "" then root ++ "/" ++ file else root ++ "/" ++ ns ++ "/" ++ file

/-- The generated file set of a resource with namespace `ns` and leaf `l` under the given
proto and server directories: the proto file, the server file, the register-funcs
file and, unless tests are skipped, the test file. -/
def claimedFiles (protoDir serverDir ns l : String) (skipTest : Bool) : List String :=
  [ claimedPath protoDir ns (l ++ ".proto"),
    claimedPath serverDir ns (l ++ "_server.go"),
    claimedPath serverDir ns (l ++ "_server_register_funcs.go") ] ++
  (if skipTest then [] else [claimedPath serverDir ns (l ++ "_server_test.go")])

/-- The snake_case spelling of a resource path: every hyphen replaced by an underscore. -/
def snakeSpelling (path : String) : String :=
  ⟨path.data.map (fun c => if c = '-' then '_' else c)⟩

/-! ## Renderer (specification §4.4) -/

/-- Modelled from the spec: `RenderContext` (renderer, `pkg/svcgen`, not among the source
files): the name set, the ordered method specs, the package name and the project
metadata. -/
structure RenderContext where
  nameSet : NameSet
  methodSpecs : List MethodSpec
  packageName : String
  metadata : List (String × String)
  deriving DecidableEq, Repr

/-! ## Collaborators (specification §6) and File Writer (specification §4.6) -/

/-- Modelled from the spec: the project filesystem collaborator (`pkg/svcgen`, not among
the source files), as the list of the files of the project with their contents, in the
order of creation; paths are relative to the project root. It is held in memory, as the
filesystem of `TestRun` is: a write does not fail. -/
abbrev ProjectFS := List (String × String)

/-- Modelled from the spec: the existence check of the filesystem collaborator
(`pkg/svcgen`, not among the source files). -/
def fileExists (fs : ProjectFS) (path : String) : Bool :=
  fs.any (fun e => e.1 == path)

/-- Modelled from the spec: the paths of the files of the project (filesystem
collaborator, `pkg/svcgen`, not among the source files). -/
def filePaths (fs : ProjectFS) : List String := fs.map Prod.fst

/-- Modelled from the spec: what the interface compiler collaborator is given (`pkg/svcgen`
and `pkg/protoc`, not among the source files): the resolved proto-file paths, the proto
directory and the proto output directory override. -/
structure CompileCtx where
  protoFiles : List String
  protoDir : String
  protoOutDir : String
  deriving DecidableEq, Repr

/-- Modelled from the spec: the collaborators and project configuration injected into a
generation run (`pkg/svcgen`, not among the source files): the method catalog
configuration, the template tree, the templating capability (`none` is a rendering
failure), the interface compiler (`none` is success, `some e` its error) and the project
metadata. -/
structure Env where
  catalog : Catalog
  templates : TemplateNode
  render : String → RenderContext → Option String
  compile : CompileCtx → ProjectFS → Option String
  metadata : List (String × String)

/-- Modelled from the spec: `Render(templateBytes, context) -> (content, err)` (renderer,
`pkg/svcgen`, not among the source files); a failure is `ErrTemplateSyntax` with the
template's logical path. -/
def Render (env : Env) (t : TemplateFile) (ctx : RenderContext) : Except GenError String :=
  match env.render t.content ctx with
  | some content => .ok content
  | none => .error (.ErrTemplateSyntax t.relPath)

/-- Modelled from the spec: `GenerationTarget`, a resolved (outputPath, renderedContent)
pair (`pkg/svcgen`, not among the source files). -/
structure GenerationTarget where
  outputPath : String
  renderedContent : String
  deriving DecidableEq, Repr

/-- Modelled from the spec: `WriteOutcome` (file writer, `pkg/svcgen`, not among the source
files). -/
inductive WriteOutcome where
  | Written
  | Skipped
  deriving DecidableEq, Repr

/-- Modelled from the spec: `Write(target, existsCheck) -> WriteOutcome` (file writer,
`pkg/svcgen`, not among the source files): an existing file is left as it is, a fresh one
is created with the rendered content. -/
def Write (fs : ProjectFS) (t : GenerationTarget) : ProjectFS × WriteOutcome :=
  if fileExists fs t.outputPath then (fs, .Skipped)
  else (fs ++ [(t.outputPath, t.renderedContent)], .Written)

/-! ## Generation Orchestrator (specification §4.5) -/

/-- Modelled from the spec: `RunResult` (`pkg/svcgen`, not among the source files): the
files written, the files skipped and the first hard error. The lists are filled by
`GenerateSources` (§4.5); a target excluded by `--skip-test` is never resolved and is in
neither list (§8). -/
structure RunResult where
  written : List String
  skipped : List String
  err : Option GenError
  deriving DecidableEq, Repr

/-- Modelled from the spec: the states of the orchestrator (`pkg/svcgen`, not among the
source files). -/
inductive State where
  | Start
  | EnsureProtoFile
  | InvokeCompiler
  | GenerateSources
  | Done
  | Failed
  deriving DecidableEq, Repr

/-- Modelled from the spec: the orchestrator's state during a run (`pkg/svcgen`, not among
the source files): the state of the state machine, the project files and the result
accumulated so far. -/
structure Machine where
  state : State
  fs : ProjectFS
  result : RunResult
  deriving DecidableEq, Repr

/-- Modelled from the spec: what is fixed at the start of a run (`pkg/svcgen`, not among the
source files): the name set, the classified methods and the options. -/
structure RunInput where
  nameSet : NameSet
  methodSpecs : List MethodSpec
  options : RunOptions
  deriving DecidableEq, Repr

/-- Modelled from the spec: the render context of a run (`pkg/svcgen`, not among the source
files). -/
def renderContext (env : Env) (i : RunInput) : RenderContext :=
  { nameSet := i.nameSet, methodSpecs := i.methodSpecs,
    packageName := i.options.packageName, metadata := env.metadata }

/-- Modelled from the spec: the resolved targets of a run under one output root
(`pkg/svcgen`, not among the source files). -/
def targetsUnder (env : Env) (i : RunInput) (root : OutputRoot) : List ResolvedTarget :=
  (ResolveTargets i.nameSet i.options env.templates).filter (fun t => t.template.root = root)

/-- Modelled from the spec: the work of `EnsureProtoFile` on the proto targets (`pkg/svcgen`,
not among the source files): an existing proto file is left untouched, a missing one is
rendered and written from the proto template. Returns the files and the error met, if
any. -/
def ensureProtoFiles (env : Env) (ctx : RenderContext) :
    ProjectFS → List ResolvedTarget → ProjectFS × Option GenError
  | fs, [] => (fs, none)
  | fs, t :: ts =>
    if fileExists fs t.outputPath then ensureProtoFiles env ctx fs ts
    else
      match Render env t.template ctx with
      | .ok content =>
        ensureProtoFiles env ctx (Write fs ⟨t.outputPath, content⟩).1 ts
      | .error e => (fs, some e)

/-- Modelled from the spec: the rendering of the source targets in `GenerateSources`
(`pkg/svcgen`, not among the source files); the first failure ends it. -/
def renderAll (env : Env) (ctx : RenderContext) :
    List ResolvedTarget → Except GenError (List GenerationTarget)
  | [] => .ok []
  | t :: ts =>
    match Render env t.template ctx with
    | .error e => .error e
    | .ok content =>
      match renderAll env ctx ts with
      | .error e => .error e
      | .ok rest => .ok (⟨t.outputPath, content⟩ :: rest)

/-- Modelled from the spec: the recording of a write outcome in the `RunResult`
(`pkg/svcgen`, not among the source files). -/
def record (r : RunResult) (path : String) : WriteOutcome → RunResult
  | .Written => { r with written := r.written ++ [path] }
  | .Skipped => { r with skipped := r.skipped ++ [path] }

/-- Modelled from the spec: the writing of the rendered source targets in
`GenerateSources` (`pkg/svcgen`, not among the source files): an existing file is skipped
and recorded in the skip list, a fresh file is written and recorded in the written
list. -/
def writeAll : ProjectFS → RunResult → List GenerationTarget → ProjectFS × RunResult
  | fs, r, [] => (fs, r)
  | fs, r, t :: ts =>
    let w := Write fs t
    writeAll w.1 (record r t.outputPath w.2) ts

/-- Modelled from the spec: the compiler invocation context of a run (`pkg/svcgen`, not
among the source files). -/
def compileCtx (env : Env) (i : RunInput) : CompileCtx :=
  { protoFiles := (targetsUnder env i .ProtoDir).map (fun t => t.outputPath)
    protoDir := effectiveRoot i.options .ProtoDir
    protoOutDir := i.options.protoOutDir }

/-- Modelled from the spec: one transition of the orchestrator's state machine
`Start → EnsureProtoFile → InvokeCompiler → GenerateSources → Done`, with `Failed`
reachable from any step (`pkg/svcgen`, not among the source files). -/
def step (env : Env) (i : RunInput) (m : Machine) : Machine :=
  match m.state with
  | .Start => { m with state := .EnsureProtoFile }
  | .EnsureProtoFile =>
    match ensureProtoFiles env (renderContext env i) m.fs (targetsUnder env i .ProtoDir) with
    | (fs, none) => { m with state := .InvokeCompiler, fs := fs }
    | (fs, some e) => { state := .Failed, fs := fs, result := { m.result with err := some e } }
  | .InvokeCompiler =>
    match env.compile (compileCtx env i) m.fs with
    | none => { m with state := .GenerateSources }
    | some e => { m with state := .Failed, result := { m.result with err := some (.compiler e) } }
  | .GenerateSources =>
    match renderAll env (renderContext env i) (targetsUnder env i .ServerDir) with
    | .error e => { m with state := .Failed, result := { m.result with err := some e } }
    | .ok targets =>
      let w := writeAll m.fs m.result targets
      { state := .Done, fs := w.1, result := w.2 }
  | .Done => m
  | .Failed => m

/-- Modelled from the spec: whether a state is terminal (`pkg/svcgen`, not among the source
files). -/
def State.isTerminal : State → Bool
  | .Done => true
  | .Failed => true
  | _ => false

/-- Modelled from the spec: the machines a run goes through, the first one included, for
at most `fuel` transitions (`pkg/svcgen`, not among the source files). -/
def trace (env : Env) (i : RunInput) : Nat → Machine → List Machine
  | 0, m => [m]
  | fuel + 1, m =>
    if m.state.isTerminal then [m] else m :: trace env i fuel (step env i m)

/-- Modelled from the spec: the number of transitions from `Start` to `Done` (`pkg/svcgen`,
not among the source files). -/
def runFuel : Nat := 4

/-- Modelled from the spec: the machine at the start of a run on the given project files
(`pkg/svcgen`, not among the source files). -/
def initial (fs : ProjectFS) : Machine :=
  { state := .Start, fs := fs, result := { written := [], skipped := [], err := none } }

/-- Modelled from the spec: the machine a run ends in (`pkg/svcgen`, not among the source
files). -/
def run (env : Env) (i : RunInput) (fs : ProjectFS) : Machine :=
  (trace env i runFuel (initial fs)).getLastD (initial fs)

/-- Modelled from the spec: the input of a run, from the command line arguments
(`pkg/svcgen`, not among the source files): name derivation, then method classification.
An input error is reported before the run starts. -/
def runInput (env : Env) (o : RunOptions) (resourcePath : String) (methods : List String) :
    Except GenError RunInput :=
  match ClassifyMethods env.catalog (effectiveMethods env.catalog methods) with
  | .error e => .error e
  | .ok specs =>
    .ok { nameSet := DeriveNameSet resourcePath o.resourceName, methodSpecs := specs,
          options := o }

/-- Modelled from the spec: a generation run from the command line arguments of the
subcommand (`pkg/svcgen`, not among the source files): the resource path and the method
names, on the given project files. -/
def generate (env : Env) (o : RunOptions) (resourcePath : String) (methods : List String)
    (fs : ProjectFS) : Except GenError Machine :=
  match runInput env o resourcePath methods with
  | .error e => .error e
  | .ok i => .ok (run env i fs)

/-- The fake compiler of `main_test.go`: `fakeProtocWrapper.Exec` returns nil. -/
def fakeProtocWrapper (_ : CompileCtx) (_ : ProjectFS) : Option String := none

/-- Template bytes of a sample environment. -/
def sampleBytes : TemplateBytes :=
  { proto := "proto:", server := "server:", registerFuncs := "register:", test := "test:" }

/-- A sample environment, after the harness of `TestRun`: the fake compiler, no project
additions to the standard set, no default methods, and a renderer that appends the
PascalCase type name to the template bytes. -/
def sampleEnv : Env :=
  { catalog := { additions := [], defaultMethods := [] }
    templates := serviceTemplates sampleBytes
    render := fun t c => some (t ++ c.nameSet.pascal)
    compile := fakeProtocWrapper
    metadata := [] }


/-! ## Path and name lemmas -/

theorem toLower_ne_hyphen (c : Char) (h : c ≠ '-') : c.toLower ≠ '-' := by
  intro hl
  apply h
  unfold Char.toLower at hl
  simp only at hl
  split at hl
  · rename_i hr
    exfalso
    obtain ⟨h1, h2⟩ := hr
    generalize c.toNat = k at *
    interval_cases k <;> revert hl <;> decide
  · exact hl

theorem normalizeChar_ne_hyphen (c : Char) : normalizeChar c ≠ '-' := by
  unfold normalizeChar
  split
  · decide
  · rename_i h
    exact toLower_ne_hyphen c h

theorem string_append_data (a b : String) : (a ++ b).data = a.data ++ b.data :=
  String.data_append a b

theorem string_eq_empty_iff (a : String) : a = "" ↔ a.data = [] := by
  rw [String.ext_iff]

theorem append_ne_empty_right (a b : String) (h : b ≠ "") : a ++ b ≠ "" := by
  intro h1
  apply h
  rw [string_eq_empty_iff] at h1 ⊢
  rw [string_append_data] at h1
  exact (List.append_eq_nil.mp h1).2

theorem joinPath_three (root ns file : String) (hr : root ≠ "") (hf : file ≠ "") :
    joinPath [root, ns, file] = claimedPath root ns file := by
  unfold joinPath claimedPath
  by_cases hn : ns = ""
  · simp [List.filter, hr, hf, hn, joinSegs]
  · simp [List.filter, hr, hf, hn, joinSegs, String.append_assoc]

theorem effectiveRoot_ne_empty (o : RunOptions) (r : OutputRoot) : effectiveRoot o r ≠ "" := by
  cases r <;> simp only [effectiveRoot] <;> split
  · decide
  · assumption
  · decide
  · assumption

theorem claimedPath_append (root ns l e : String) :
    claimedPath root ns (l ++ e) = claimedPath root ns l ++ e := by
  unfold claimedPath
  split <;> simp [String.append_assoc]

/-- Two paths that end in extensions neither of which is a suffix of the other differ. -/
theorem append_ne_of_ext (a b s t : String)
    (h : ¬ (s.data <:+ t.data ∨ t.data <:+ s.data)) : a ++ s ≠ b ++ t := by
  intro he
  apply h
  have h1 : s.data <:+ (a ++ s).data := by
    rw [string_append_data]; exact List.suffix_append _ _
  have h2 : t.data <:+ (a ++ s).data := by
    rw [he, string_append_data]; exact List.suffix_append _ _
  exact List.suffix_or_suffix_of_suffix h1 h2

theorem isTestFile_append_true (a e : String) (h : isTestFile e = true) :
    isTestFile (a ++ e) = true := by
  unfold isTestFile at *
  rw [List.isSuffixOf_iff_suffix] at *
  rw [string_append_data]
  exact h.trans (List.suffix_append _ _)

theorem isTestFile_append_false (a e : String)
    (h : ¬ ("_test.go".data <:+ e.data ∨ e.data <:+ "_test.go".data)) :
    isTestFile (a ++ e) = false := by
  rw [Bool.eq_false_iff]
  intro ht
  apply h
  unfold isTestFile at ht
  rw [List.isSuffixOf_iff_suffix, string_append_data] at ht
  exact List.suffix_or_suffix_of_suffix ht (List.suffix_append _ _)


/-! ## The resolved targets of the service templates -/

theorem outputPathOf_ext (n : NameSet) (o : RunOptions) (r : OutputRoot) (e c : String)
    (he : e ≠ "") :
    outputPathOf n o ⟨r, [[.nspace], [.resourceName, .lit e]], c⟩ =
      claimedPath (effectiveRoot o r) (joinSegs n.ns) (n.leaf ++ e) := by
  simp only [outputPathOf, List.map, substSegment, substToken, String.append_empty]
  exact joinPath_three _ _ _ (effectiveRoot_ne_empty o r) (append_ne_empty_right _ _ he)

theorem isTestFile_claimed_true (root ns l e : String) (h : isTestFile e = true) :
    isTestFile (claimedPath root ns (l ++ e)) = true := by
  rw [claimedPath_append]
  exact isTestFile_append_true _ _ h

theorem isTestFile_claimed_false (root ns l e : String)
    (h : ¬ ("_test.go".data <:+ e.data ∨ e.data <:+ "_test.go".data)) :
    isTestFile (claimedPath root ns (l ++ e)) = false := by
  rw [claimedPath_append]
  exact isTestFile_append_false _ _ h

theorem resolve_service (n : NameSet) (o : RunOptions) (b : TemplateBytes) :
    ResolveTargets n o (serviceTemplates b) =
      [ ⟨protoTemplate b,
          claimedPath (effectiveRoot o .ProtoDir) (joinSegs n.ns) (n.leaf ++ ".proto")⟩,
        ⟨serverTemplate b,
          claimedPath (effectiveRoot o .ServerDir) (joinSegs n.ns) (n.leaf ++ "_server.go")⟩,
        ⟨registerFuncsTemplate b,
          claimedPath (effectiveRoot o .ServerDir) (joinSegs n.ns)
            (n.leaf ++ "_server_register_funcs.go")⟩ ] ++
      (if o.skipTest then []
       else [ ⟨testTemplate b,
          claimedPath (effectiveRoot o .ServerDir) (joinSegs n.ns)
            (n.leaf ++ "_server_test.go")⟩ ]) := by
  have h1 := isTestFile_claimed_false (effectiveRoot o .ProtoDir) (joinSegs n.ns) n.leaf
    ".proto" (by decide)
  have h2 := isTestFile_claimed_false (effectiveRoot o .ServerDir) (joinSegs n.ns) n.leaf
    "_server.go" (by decide)
  have h3 := isTestFile_claimed_false (effectiveRoot o .ServerDir) (joinSegs n.ns) n.leaf
    "_server_register_funcs.go" (by decide)
  have h4 := isTestFile_claimed_true (effectiveRoot o .ServerDir) (joinSegs n.ns) n.leaf
    "_server_test.go" (by decide)
  have p1 := outputPathOf_ext n o .ProtoDir ".proto" b.proto (by decide)
  have p2 := outputPathOf_ext n o .ServerDir "_server.go" b.server (by decide)
  have p3 := outputPathOf_ext n o .ServerDir "_server_register_funcs.go" b.registerFuncs
    (by decide)
  have p4 := outputPathOf_ext n o .ServerDir "_server_test.go" b.test (by decide)
  simp only [serviceTemplates, ResolveTargets, resolveChildren, protoTemplate, serverTemplate,
    registerFuncsTemplate, testTemplate, p1, p2, p3, p4, h1, h2, h3, h4, Bool.and_false,
    Bool.and_true, List.append_nil, List.nil_append, List.cons_append, Bool.false_eq_true,
    if_false]


/-! ## The orchestrator -/

theorem run_unfold (env : Env) (i : RunInput) (fs : ProjectFS) :
    run env i fs =
      match ensureProtoFiles env (renderContext env i) fs (targetsUnder env i .ProtoDir) with
      | (fs1, some e) => ⟨.Failed, fs1, ⟨[], [], some e⟩⟩
      | (fs1, none) =>
        match env.compile (compileCtx env i) fs1 with
        | some e => ⟨.Failed, fs1, ⟨[], [], some (.compiler e)⟩⟩
        | none =>
          match renderAll env (renderContext env i) (targetsUnder env i .ServerDir) with
          | .error e => ⟨.Failed, fs1, ⟨[], [], some e⟩⟩
          | .ok ts => ⟨.Done, (writeAll fs1 ⟨[], [], none⟩ ts).1,
              (writeAll fs1 ⟨[], [], none⟩ ts).2⟩ := by
  simp only [run, runFuel, trace, initial, step, State.isTerminal, Bool.false_eq_true, if_false]
  rcases hE : ensureProtoFiles env (renderContext env i) fs (targetsUnder env i .ProtoDir)
    with ⟨fs1, _ | e⟩
  · simp only [step]
    rcases hC : env.compile (compileCtx env i) fs1 with _ | e
    · simp only [State.isTerminal, step, Bool.false_eq_true, if_false]
      rcases hR : renderAll env (renderContext env i) (targetsUnder env i .ServerDir)
        with e | ts
      · simp [State.isTerminal, List.getLastD]
      · simp [State.isTerminal, List.getLastD]
    · simp [State.isTerminal, List.getLastD]
  · simp [State.isTerminal, List.getLastD]


theorem fileExists_iff (fs : ProjectFS) (p : String) :
    fileExists fs p = true ↔ p ∈ filePaths fs := by
  simp [fileExists, filePaths]

theorem fileExists_append (fs gs : ProjectFS) (p : String) :
    fileExists (fs ++ gs) p = (fileExists fs p || fileExists gs p) := by
  simp [fileExists, List.any_append]

theorem Write_fst_exists (fs : ProjectFS) (t : GenerationTarget) :
    fileExists (Write fs t).1 t.outputPath = true := by
  unfold Write
  split
  · assumption
  · simp [fileExists_append, fileExists]

theorem Write_fst_mono (fs : ProjectFS) (t : GenerationTarget) (p : String)
    (h : fileExists fs p = true) : fileExists (Write fs t).1 p = true := by
  unfold Write
  split
  · exact h
  · simp [fileExists_append, h]

theorem Write_of_exists (fs : ProjectFS) (t : GenerationTarget)
    (h : fileExists fs t.outputPath = true) : Write fs t = (fs, .Skipped) := by
  simp [Write, h]

/-! ### `EnsureProtoFile` -/

theorem ensure_of_exist (env : Env) (ctx : RenderContext) (fs : ProjectFS)
    (ts : List ResolvedTarget) (h : ∀ t ∈ ts, fileExists fs t.outputPath = true) :
    ensureProtoFiles env ctx fs ts = (fs, none) := by
  induction ts with
  | nil => rfl
  | cons t ts ih =>
    simp only [ensureProtoFiles, h t (List.mem_cons_self _ _), if_true]
    exact ih (fun u hu => h u (List.mem_cons_of_mem _ hu))

theorem ensure_mono (env : Env) (ctx : RenderContext) (ts : List ResolvedTarget) :
    ∀ (fs : ProjectFS) (p : String), fileExists fs p = true →
      fileExists (ensureProtoFiles env ctx fs ts).1 p = true := by
  induction ts with
  | nil => intro fs p h; exact h
  | cons t ts ih =>
    intro fs p h
    simp only [ensureProtoFiles]
    split
    · exact ih fs p h
    · split
      · exact ih _ p (Write_fst_mono fs _ p h)
      · exact h

theorem ensure_exists (env : Env) (ctx : RenderContext) (ts : List ResolvedTarget) :
    ∀ (fs : ProjectFS), (ensureProtoFiles env ctx fs ts).2 = none →
      ∀ t ∈ ts, fileExists (ensureProtoFiles env ctx fs ts).1 t.outputPath = true := by
  induction ts with
  | nil => intro fs _ t ht; cases ht
  | cons t ts ih =>
    intro fs hn u hu
    simp only [ensureProtoFiles] at hn ⊢
    split at hn
    · rename_i hex
      simp only [hex, if_true]
      rcases List.mem_cons.mp hu with rfl | hu
      · exact ensure_mono env ctx ts fs _ hex
      · exact ih fs hn u hu
    · rename_i hex
      simp only [hex, Bool.false_eq_true, if_false]
      split at hn
      · rename_i c hc
        rcases List.mem_cons.mp hu with rfl | hu
        · exact ensure_mono env ctx ts _ _ (Write_fst_exists fs ⟨_, c⟩)
        · exact ih _ hn u hu
      · simp at hn

/-! ### `GenerateSources` -/

theorem renderAll_paths (env : Env) (ctx : RenderContext) (ts : List ResolvedTarget) :
    ∀ gts, renderAll env ctx ts = .ok gts →
      gts.map (fun g => g.outputPath) = ts.map (fun t => t.outputPath) := by
  induction ts with
  | nil => intro gts h; simp only [renderAll] at h; cases h; rfl
  | cons t ts ih =>
    intro gts h
    simp only [renderAll] at h
    split at h
    · cases h
    · split at h
      · cases h
      · rename_i rest hrest
        cases h
        simp [ih rest hrest]

theorem writeAll_of_exist (ts : List GenerationTarget) :
    ∀ (fs : ProjectFS) (r : RunResult),
      (∀ t ∈ ts, fileExists fs t.outputPath = true) →
      writeAll fs r ts =
        (fs, { r with skipped := r.skipped ++ ts.map (fun g => g.outputPath) }) := by
  induction ts with
  | nil => intro fs r _; simp [writeAll]
  | cons t ts ih =>
    intro fs r h
    simp only [writeAll, Write_of_exists fs t (h t (List.mem_cons_self _ _)), record]
    rw [ih fs _ (fun u hu => h u (List.mem_cons_of_mem _ hu))]
    simp

theorem writeAll_mono (ts : List GenerationTarget) :
    ∀ (fs : ProjectFS) (r : RunResult) (p : String), fileExists fs p = true →
      fileExists (writeAll fs r ts).1 p = true := by
  induction ts with
  | nil => intro fs r p h; exact h
  | cons t ts ih =>
    intro fs r p h
    simp only [writeAll]
    exact ih _ _ p (Write_fst_mono fs t p h)

theorem writeAll_exists (ts : List GenerationTarget) :
    ∀ (fs : ProjectFS) (r : RunResult),
      ∀ t ∈ ts, fileExists (writeAll fs r ts).1 t.outputPath = true := by
  induction ts with
  | nil => intro fs r t ht; cases ht
  | cons t ts ih =>
    intro fs r u hu
    simp only [writeAll]
    rcases List.mem_cons.mp hu with rfl | hu
    · exact writeAll_mono ts _ _ _ (Write_fst_exists fs _)
    · exact ih _ _ u hu


/-! ### Runs over the service templates -/

theorem claimed_ne (r₁ r₂ ns₁ ns₂ l₁ l₂ e₁ e₂ : String)
    (h : ¬ (e₁.data <:+ e₂.data ∨ e₂.data <:+ e₁.data)) :
    claimedPath r₁ ns₁ (l₁ ++ e₁) ≠ claimedPath r₂ ns₂ (l₂ ++ e₂) := by
  rw [claimedPath_append, claimedPath_append]
  exact append_ne_of_ext _ _ _ _ h

theorem targets_proto (env : Env) (i : RunInput) (b : TemplateBytes)
    (ht : env.templates = serviceTemplates b) :
    targetsUnder env i .ProtoDir =
      [ ⟨protoTemplate b, claimedPath (effectiveRoot i.options .ProtoDir)
          (joinSegs i.nameSet.ns) (i.nameSet.leaf ++ ".proto")⟩ ] := by
  unfold targetsUnder
  rw [ht, resolve_service]
  cases i.options.skipTest <;>
    simp [protoTemplate, serverTemplate, registerFuncsTemplate, testTemplate]

theorem targets_server (env : Env) (i : RunInput) (b : TemplateBytes)
    (ht : env.templates = serviceTemplates b) :
    targetsUnder env i .ServerDir =
      [ ⟨serverTemplate b, claimedPath (effectiveRoot i.options .ServerDir)
          (joinSegs i.nameSet.ns) (i.nameSet.leaf ++ "_server.go")⟩,
        ⟨registerFuncsTemplate b, claimedPath (effectiveRoot i.options .ServerDir)
          (joinSegs i.nameSet.ns) (i.nameSet.leaf ++ "_server_register_funcs.go")⟩ ] ++
      (if i.options.skipTest then []
       else [ ⟨testTemplate b, claimedPath (effectiveRoot i.options .ServerDir)
          (joinSegs i.nameSet.ns) (i.nameSet.leaf ++ "_server_test.go")⟩ ]) := by
  unfold targetsUnder
  rw [ht, resolve_service]
  cases i.options.skipTest <;>
    simp [protoTemplate, serverTemplate, registerFuncsTemplate, testTemplate]

/-- A run on an empty project, with a renderer that renders every template and a compiler
that succeeds: the state, the files with their contents and the result. -/
theorem run_empty (env : Env) (i : RunInput) (b : TemplateBytes)
    (ht : env.templates = serviceTemplates b)
    (hr : ∀ t c, (env.render t c).isSome = true)
    (hc : ∀ c fs, env.compile c fs = none) :
    ∃ cP cS cR cT,
      env.render b.proto (renderContext env i) = some cP ∧
      env.render b.server (renderContext env i) = some cS ∧
      env.render b.registerFuncs (renderContext env i) = some cR ∧
      env.render b.test (renderContext env i) = some cT ∧
      run env i [] =
        ⟨.Done,
         [ (claimedPath (effectiveRoot i.options .ProtoDir) (joinSegs i.nameSet.ns)
              (i.nameSet.leaf ++ ".proto"), cP),
           (claimedPath (effectiveRoot i.options .ServerDir) (joinSegs i.nameSet.ns)
              (i.nameSet.leaf ++ "_server.go"), cS),
           (claimedPath (effectiveRoot i.options .ServerDir) (joinSegs i.nameSet.ns)
              (i.nameSet.leaf ++ "_server_register_funcs.go"), cR) ] ++
         (if i.options.skipTest then []
          else [ (claimedPath (effectiveRoot i.options .ServerDir) (joinSegs i.nameSet.ns)
              (i.nameSet.leaf ++ "_server_test.go"), cT) ]),
         ⟨[ claimedPath (effectiveRoot i.options .ServerDir) (joinSegs i.nameSet.ns)
              (i.nameSet.leaf ++ "_server.go"),
            claimedPath (effectiveRoot i.options .ServerDir) (joinSegs i.nameSet.ns)
              (i.nameSet.leaf ++ "_server_register_funcs.go") ] ++
          (if i.options.skipTest then []
           else [ claimedPath (effectiveRoot i.options .ServerDir) (joinSegs i.nameSet.ns)
              (i.nameSet.leaf ++ "_server_test.go") ]),
          [], none⟩⟩ := by
  obtain ⟨cP, hP⟩ := Option.isSome_iff_exists.mp (hr b.proto (renderContext env i))
  obtain ⟨cS, hS⟩ := Option.isSome_iff_exists.mp (hr b.server (renderContext env i))
  obtain ⟨cR, hR⟩ := Option.isSome_iff_exists.mp (hr b.registerFuncs (renderContext env i))
  obtain ⟨cT, hT⟩ := Option.isSome_iff_exists.mp (hr b.test (renderContext env i))
  refine ⟨cP, cS, cR, cT, hP, hS, hR, hT, ?_⟩
  have d1 := claimed_ne (effectiveRoot i.options .ProtoDir) (effectiveRoot i.options .ServerDir)
    (joinSegs i.nameSet.ns) (joinSegs i.nameSet.ns) i.nameSet.leaf i.nameSet.leaf
    ".proto" "_server.go" (by decide)
  have d2 := claimed_ne (effectiveRoot i.options .ProtoDir) (effectiveRoot i.options .ServerDir)
    (joinSegs i.nameSet.ns) (joinSegs i.nameSet.ns) i.nameSet.leaf i.nameSet.leaf
    ".proto" "_server_register_funcs.go" (by decide)
  have d3 := claimed_ne (effectiveRoot i.options .ProtoDir) (effectiveRoot i.options .ServerDir)
    (joinSegs i.nameSet.ns) (joinSegs i.nameSet.ns) i.nameSet.leaf i.nameSet.leaf
    ".proto" "_server_test.go" (by decide)
  have d4 := claimed_ne (effectiveRoot i.options .ServerDir) (effectiveRoot i.options .ServerDir)
    (joinSegs i.nameSet.ns) (joinSegs i.nameSet.ns) i.nameSet.leaf i.nameSet.leaf
    "_server.go" "_server_register_funcs.go" (by decide)
  have d5 := claimed_ne (effectiveRoot i.options .ServerDir) (effectiveRoot i.options .ServerDir)
    (joinSegs i.nameSet.ns) (joinSegs i.nameSet.ns) i.nameSet.leaf i.nameSet.leaf
    "_server.go" "_server_test.go" (by decide)
  have d6 := claimed_ne (effectiveRoot i.options .ServerDir) (effectiveRoot i.options .ServerDir)
    (joinSegs i.nameSet.ns) (joinSegs i.nameSet.ns) i.nameSet.leaf i.nameSet.leaf
    "_server_register_funcs.go" "_server_test.go" (by decide)
  rw [run_unfold, targets_proto env i b ht, targets_server env i b ht]
  cases hs : i.options.skipTest <;>
    simp [ensureProtoFiles, renderAll, writeAll, Write, record, Render, fileExists,
      protoTemplate, serverTemplate, registerFuncsTemplate, testTemplate,
      hP, hS, hR, hT, hc, d1, d2, d3, d4, d5, d6]


/-! ### Names -/

theorem derive_ns (p : String) (r : Option String) (nsSegs : List String) (l : String)
    (h : pathSegments p = nsSegs ++ [l]) : (DeriveNameSet p r).ns = nsSegs := by
  simp [DeriveNameSet, h]

theorem derive_leaf (p : String) (r : Option String) (nsSegs : List String) (l : String)
    (h : pathSegments p = nsSegs ++ [l]) : (DeriveNameSet p r).leaf = l := by
  simp [DeriveNameSet, h]

theorem generate_of_classified (env : Env) (o : RunOptions) (p : String)
    (methods : List String) (fs : ProjectFS) (specs : List MethodSpec)
    (hm : ClassifyMethods env.catalog (effectiveMethods env.catalog methods) = .ok specs) :
    generate env o p methods fs =
      .ok (run env ⟨DeriveNameSet p o.resourceName, specs, o⟩ fs) := by
  simp [generate, runInput, hm]


/-- C1: with no `--skip-test` and the default directories, a run on an empty project, for
a resource path whose segments normalise to the namespace `nsSegs` and the leaf `l`
(method names accepted by the catalog, renderer and compiler succeeding), ends in
`Done` and leaves exactly the four files `api/protos/<ns>/<l>.proto`,
`app/server/<ns>/<l>_server.go`, `app/server/<ns>/<l>_server_register_funcs.go` and
`app/server/<ns>/<l>_server_test.go`; with an empty namespace they lie directly under the
two directories; `foo` gives the four `foo` files directly under the
two directories and `foo/bar_baz` the four `foo/bar_baz` files. -/
theorem default_run_produces_four_files (env : Env) (b : TemplateBytes) (o : RunOptions)
    (p : String) (methods : List String) (specs : List MethodSpec)
    (nsSegs : List String) (l : String)
    (ht : env.templates = serviceTemplates b)
    (hr : ∀ t c, (env.render t c).isSome = true)
    (hc : ∀ c fs, env.compile c fs = none)
    (hm : ClassifyMethods env.catalog (effectiveMethods env.catalog methods) = .ok specs)
    (hseg : pathSegments p = nsSegs ++ [l])
    (hs : o.skipTest = false) (hp : o.protoDir = "") (hv : o.serverDir = "") :
    ∃ m, generate env o p methods [] = .ok m ∧ m.state = .Done ∧ m.result.err = none ∧
      filePaths m.fs =
        [ claimedPath "api/protos" (joinSegs nsSegs) (l ++ ".proto"),
          claimedPath "app/server" (joinSegs nsSegs) (l ++ "_server.go"),
          claimedPath "app/server" (joinSegs nsSegs) (l ++ "_server_register_funcs.go"),
          claimedPath "app/server" (joinSegs nsSegs) (l ++ "_server_test.go") ] ∧
      (nsSegs = [] → filePaths m.fs =
        [ "api/protos" ++ "/" ++ (l ++ ".proto"), "app/server" ++ "/" ++ (l ++ "_server.go"),
          "app/server" ++ "/" ++ (l ++ "_server_register_funcs.go"),
          "app/server" ++ "/" ++ (l ++ "_server_test.go") ]) ∧
      (p = "foo" → filePaths m.fs =
        [ "api/protos/foo.proto", "app/server/foo_server.go",
          "app/server/foo_server_register_funcs.go", "app/server/foo_server_test.go" ]) ∧
      (p = "foo/bar_baz" → filePaths m.fs =
        [ "api/protos/foo/bar_baz.proto", "app/server/foo/bar_baz_server.go",
          "app/server/foo/bar_baz_server_register_funcs.go",
          "app/server/foo/bar_baz_server_test.go" ]) := by
  obtain ⟨cP, cS, cR, cT, -, -, -, -, hrun⟩ :=
    run_empty env ⟨DeriveNameSet p o.resourceName, specs, o⟩ b ht hr hc
  have hpaths : filePaths (run env ⟨DeriveNameSet p o.resourceName, specs, o⟩ []).fs =
      [ claimedPath "api/protos" (joinSegs nsSegs) (l ++ ".proto"),
        claimedPath "app/server" (joinSegs nsSegs) (l ++ "_server.go"),
        claimedPath "app/server" (joinSegs nsSegs) (l ++ "_server_register_funcs.go"),
        claimedPath "app/server" (joinSegs nsSegs) (l ++ "_server_test.go") ] := by
    rw [hrun]
    simp [filePaths, hs, effectiveRoot, hp, hv, defaultProtoDir, defaultServerDir,
      derive_ns p o.resourceName nsSegs l hseg, derive_leaf p o.resourceName nsSegs l hseg]
  refine ⟨_, generate_of_classified env o p methods [] specs hm, ?_, ?_, hpaths, ?_, ?_, ?_⟩
  · rw [hrun]
  · rw [hrun]
  · intro hnil
    rw [hpaths, hnil]
    rfl
  · intro hfoo
    subst hfoo
    have h0 : pathSegments "foo" = [] ++ ["foo"] := by decide
    rw [h0] at hseg
    obtain ⟨h1, h2⟩ := List.append_inj' hseg rfl
    rw [hpaths, ← h1, ← List.singleton_inj.mp h2]
    decide
  · intro hfoo
    subst hfoo
    have h0 : pathSegments "foo/bar_baz" = ["foo"] ++ ["bar_baz"] := by decide
    rw [h0] at hseg
    obtain ⟨h1, h2⟩ := List.append_inj' hseg rfl
    rw [hpaths, ← h1, ← List.singleton_inj.mp h2]
    decide

/-- C1, at `foo/bar_baz` in the sample environment. -/
theorem default_run_produces_four_files_witness :
    sampleEnv.templates = serviceTemplates sampleBytes ∧
    (∀ t c, (sampleEnv.render t c).isSome = true) ∧
    (∀ c fs, sampleEnv.compile c fs = none) ∧
    ClassifyMethods sampleEnv.catalog (effectiveMethods sampleEnv.catalog []) = .ok [] ∧
    pathSegments "foo/bar_baz" = ["foo"] ++ ["bar_baz"] ∧
    ∃ m, generate sampleEnv defaultOptions "foo/bar_baz" [] [] = .ok m ∧ m.state = .Done ∧
      m.result.err = none ∧
      filePaths m.fs =
        [ claimedPath "api/protos" (joinSegs ["foo"]) ("bar_baz" ++ ".proto"),
          claimedPath "app/server" (joinSegs ["foo"]) ("bar_baz" ++ "_server.go"),
          claimedPath "app/server" (joinSegs ["foo"]) ("bar_baz" ++ "_server_register_funcs.go"),
          claimedPath "app/server" (joinSegs ["foo"]) ("bar_baz" ++ "_server_test.go") ] ∧
      ((["foo"] : List String) = [] → filePaths m.fs =
        [ "api/protos" ++ "/" ++ ("bar_baz" ++ ".proto"),
          "app/server" ++ "/" ++ ("bar_baz" ++ "_server.go"),
          "app/server" ++ "/" ++ ("bar_baz" ++ "_server_register_funcs.go"),
          "app/server" ++ "/" ++ ("bar_baz" ++ "_server_test.go") ]) ∧
      (("foo/bar_baz" : String) = "foo" → filePaths m.fs =
        [ "api/protos/foo.proto", "app/server/foo_server.go",
          "app/server/foo_server_register_funcs.go", "app/server/foo_server_test.go" ]) ∧
      (("foo/bar_baz" : String) = "foo/bar_baz" → filePaths m.fs =
        [ "api/protos/foo/bar_baz.proto", "app/server/foo/bar_baz_server.go",
          "app/server/foo/bar_baz_server_register_funcs.go",
          "app/server/foo/bar_baz_server_test.go" ]) :=
  ⟨rfl, fun _ _ => rfl, fun _ _ => rfl, rfl, by decide,
    default_run_produces_four_files sampleEnv sampleBytes defaultOptions "foo/bar_baz" [] []
      ["foo"] "bar_baz" rfl (fun _ _ => rfl) (fun _ _ => rfl) rfl (by decide)
      rfl rfl rfl⟩


/-! ### Hyphens -/

theorem splitOnChar_ne_nil (sep : Char) (l : List Char) : splitOnChar sep l ≠ [] := by
  cases l with
  | nil => simp [splitOnChar]
  | cons c cs =>
    simp only [splitOnChar]
    split
    · simp
    · split <;> simp

theorem splitOnChar_map (sep : Char) (f : Char → Char) (hf : ∀ c, f c = sep ↔ c = sep)
    (l : List Char) :
    splitOnChar sep (l.map f) = (splitOnChar sep l).map (List.map f) := by
  induction l with
  | nil => simp [splitOnChar]
  | cons c cs ih =>
    simp only [List.map_cons, splitOnChar, hf c]
    by_cases hc : c = sep
    · simp [hc, ih]
    · simp only [hc, if_false, ih]
      cases h : splitOnChar sep cs with
      | nil => exact absurd h (splitOnChar_ne_nil sep cs)
      | cons s ss => simp

theorem normalizeChar_snake (c : Char) :
    normalizeChar (if c = '-' then '_' else c) = normalizeChar c := by
  by_cases h : c = '-'
  · subst h; decide
  · simp [h]

theorem pathSegments_snakeSpelling (p : String) :
    pathSegments (snakeSpelling p) = pathSegments p := by
  unfold pathSegments snakeSpelling
  rw [splitOnChar_map '/' _ (by
    intro c
    by_cases h : c = '-'
    · subst h; decide
    · simp [h])]
  simp only [List.map_map]
  apply List.map_congr_left
  intro s _
  simp only [Function.comp, normalizeSegment, List.map_map]
  congr 1
  apply List.map_congr_left
  intro c _
  exact normalizeChar_snake c

theorem derive_snakeSpelling (p : String) (r : Option String) :
    DeriveNameSet (snakeSpelling p) r = DeriveNameSet p r := by
  simp only [DeriveNameSet, pathSegments_snakeSpelling]

theorem normalizeSegment_count (s : String) : (normalizeSegment s).data.count '-' = 0 := by
  rw [List.count_eq_zero]
  simp only [normalizeSegment, List.mem_map, not_exists, not_and]
  intro c _
  exact normalizeChar_ne_hyphen c

theorem pathSegments_count (p : String) : ∀ s ∈ pathSegments p, s.data.count '-' = 0 := by
  intro s hs
  simp only [pathSegments, List.mem_map] at hs
  obtain ⟨t, -, rfl⟩ := hs
  exact normalizeSegment_count _

theorem joinSegs_count (segs : List String) (h : ∀ s ∈ segs, s.data.count '-' = 0) :
    (joinSegs segs).data.count '-' = 0 := by
  induction segs with
  | nil => decide
  | cons s ss ih =>
    cases ss with
    | nil => simpa [joinSegs] using h s (List.mem_cons_self _ _)
    | cons t ts =>
      simp only [joinSegs, string_append_data, List.count_append]
      rw [h s (List.mem_cons_self _ _), ih (fun u hu => h u (List.mem_cons_of_mem _ hu))]
      decide

theorem derive_ns_count (p : String) (r : Option String) :
    (joinSegs (DeriveNameSet p r).ns).data.count '-' = 0 := by
  apply joinSegs_count
  intro s hs
  exact pathSegments_count p s (List.mem_of_mem_dropLast hs)

theorem derive_leaf_count (p : String) (r : Option String) :
    (DeriveNameSet p r).leaf.data.count '-' = 0 := by
  have hne : pathSegments p ≠ [] := by
    simp only [pathSegments, ne_eq, List.map_eq_nil_iff]
    exact splitOnChar_ne_nil _ _
  have : (DeriveNameSet p r).leaf = (pathSegments p).getLast hne := by
    simp only [DeriveNameSet]
    rw [List.getLastD_eq_getLast? , List.getLast?_eq_getLast _ hne]
    rfl
  rw [this]
  exact pathSegments_count p _ (List.getLast_mem hne)

theorem claimedPath_count (root ns l e : String) (hn : ns.data.count '-' = 0)
    (hl : l.data.count '-' = 0) (he : e.data.count '-' = 0) :
    (claimedPath root ns (l ++ e)).data.count '-' = root.data.count '-' := by
  unfold claimedPath
  split <;> simp [string_append_data, List.count_append, hn, hl, he]


/-! ### The files of a run come from the project or from the resolved targets -/

theorem Write_subset (fs : ProjectFS) (t : GenerationTarget) (p : String)
    (h : p ∈ filePaths (Write fs t).1) : p ∈ filePaths fs ∨ p = t.outputPath := by
  unfold Write at h
  split at h
  · exact Or.inl h
  · simp only [filePaths, List.map_append, List.mem_append, List.map_cons, List.map_nil,
      List.mem_singleton] at h
    exact h

theorem ensure_subset (env : Env) (ctx : RenderContext) (ts : List ResolvedTarget) :
    ∀ (fs : ProjectFS) (p : String), p ∈ filePaths (ensureProtoFiles env ctx fs ts).1 →
      p ∈ filePaths fs ∨ p ∈ ts.map (fun t => t.outputPath) := by
  induction ts with
  | nil => intro fs p h; exact Or.inl h
  | cons t ts ih =>
    intro fs p h
    simp only [ensureProtoFiles] at h
    split at h
    · rcases ih fs p h with h1 | h1
      · exact Or.inl h1
      · exact Or.inr (List.mem_cons_of_mem _ h1)
    · split at h
      · rcases ih _ p h with h1 | h1
        · rcases Write_subset fs _ p h1 with h2 | h2
          · exact Or.inl h2
          · exact Or.inr (by simp [h2])
        · exact Or.inr (List.mem_cons_of_mem _ h1)
      · exact Or.inl h

theorem writeAll_subset (ts : List GenerationTarget) :
    ∀ (fs : ProjectFS) (r : RunResult) (p : String), p ∈ filePaths (writeAll fs r ts).1 →
      p ∈ filePaths fs ∨ p ∈ ts.map (fun t => t.outputPath) := by
  induction ts with
  | nil => intro fs r p h; exact Or.inl h
  | cons t ts ih =>
    intro fs r p h
    simp only [writeAll] at h
    rcases ih _ _ p h with h1 | h1
    · rcases Write_subset fs _ p h1 with h2 | h2
      · exact Or.inl h2
      · exact Or.inr (by simp [h2])
    · exact Or.inr (List.mem_cons_of_mem _ h1)

theorem writeAll_recorded (ts : List GenerationTarget) :
    ∀ (fs : ProjectFS) (r : RunResult) (p : String),
      p ∈ (writeAll fs r ts).2.written ∨ p ∈ (writeAll fs r ts).2.skipped →
      p ∈ r.written ∨ p ∈ r.skipped ∨ p ∈ ts.map (fun t => t.outputPath) := by
  induction ts with
  | nil => intro fs r p h; rcases h with h | h <;> simp [writeAll] at h <;> simp [h]
  | cons t ts ih =>
    intro fs r p h
    simp only [writeAll] at h
    rcases ih _ _ p h with h1 | h1 | h1
    · cases hw : (Write fs t).2 <;> simp only [hw, record, List.mem_append,
        List.mem_singleton] at h1
      · rcases h1 with h1 | h1
        · exact Or.inl h1
        · exact Or.inr (Or.inr (by simp [h1]))
      · exact Or.inl h1
    · cases hw : (Write fs t).2 <;> simp only [hw, record, List.mem_append,
        List.mem_singleton] at h1
      · exact Or.inr (Or.inl h1)
      · rcases h1 with h1 | h1
        · exact Or.inr (Or.inl h1)
        · exact Or.inr (Or.inr (by simp [h1]))
    · exact Or.inr (Or.inr (List.mem_cons_of_mem _ h1))

theorem targetsUnder_subset (env : Env) (i : RunInput) (root : OutputRoot) (p : String)
    (h : p ∈ (targetsUnder env i root).map (fun t => t.outputPath)) :
    p ∈ (ResolveTargets i.nameSet i.options env.templates).map (fun t => t.outputPath) := by
  simp only [targetsUnder, List.mem_map, List.mem_filter] at h ⊢
  obtain ⟨t, ⟨ht, -⟩, rfl⟩ := h
  exact ⟨t, ht, rfl⟩

/-- Whatever the collaborators do, every file of the project after a run was there before
or is the output path of a resolved target, and every path recorded in the result is the
output path of a resolved target. -/
theorem run_frame (env : Env) (i : RunInput) (fs : ProjectFS) (p : String) :
    (p ∈ filePaths (run env i fs).fs →
      p ∈ filePaths fs ∨
      p ∈ (ResolveTargets i.nameSet i.options env.templates).map (fun t => t.outputPath)) ∧
    (p ∈ (run env i fs).result.written ∨ p ∈ (run env i fs).result.skipped →
      p ∈ (ResolveTargets i.nameSet i.options env.templates).map (fun t => t.outputPath)) := by
  rw [run_unfold]
  have hE := ensure_subset env (renderContext env i) (targetsUnder env i .ProtoDir) fs p
  rcases hEq : ensureProtoFiles env (renderContext env i) fs (targetsUnder env i .ProtoDir)
    with ⟨fs1, _ | e⟩
  · rw [hEq] at hE
    have hE' : p ∈ filePaths fs1 → p ∈ filePaths fs ∨
        p ∈ (ResolveTargets i.nameSet i.options env.templates).map (fun t => t.outputPath) :=
      fun h => (hE h).imp id (targetsUnder_subset env i _ p)
    simp only
    rcases hC : env.compile (compileCtx env i) fs1 with _ | e
    · simp only
      rcases hR : renderAll env (renderContext env i) (targetsUnder env i .ServerDir)
        with e | ts
      · exact ⟨hE', by simp⟩
      · simp only
        have hp := renderAll_paths env _ _ ts hR
        constructor
        · intro h
          rcases writeAll_subset ts fs1 _ p h with h1 | h1
          · exact hE' h1
          · rw [hp] at h1
            exact Or.inr (targetsUnder_subset env i _ p h1)
        · intro h
          rcases writeAll_recorded ts fs1 _ p h with h1 | h1 | h1
          · simp at h1
          · simp at h1
          · rw [hp] at h1
            exact targetsUnder_subset env i _ p h1
    · exact ⟨hE', by simp⟩
  · rw [hEq] at hE
    exact ⟨fun h => (hE h).imp id (targetsUnder_subset env i _ p), by simp⟩


theorem effectiveRoot_count (o : RunOptions) (r : OutputRoot)
    (hp : '-' ∉ o.protoDir.data) (hv : '-' ∉ o.serverDir.data) :
    (effectiveRoot o r).data.count '-' = 0 := by
  cases r <;> simp only [effectiveRoot] <;> split
  · decide
  · exact List.count_eq_zero.mpr hp
  · decide
  · exact List.count_eq_zero.mpr hv

theorem service_targets_no_hyphen (b : TemplateBytes) (o : RunOptions) (p : String)
    (r : Option String) (hp : '-' ∉ o.protoDir.data) (hv : '-' ∉ o.serverDir.data) :
    ∀ t ∈ ResolveTargets (DeriveNameSet p r) o (serviceTemplates b), '-' ∉ t.outputPath.data := by
  intro t ht
  rw [← List.count_eq_zero]
  have hn := derive_ns_count p r
  have hl := derive_leaf_count p r
  have hP := effectiveRoot_count o .ProtoDir hp hv
  have hS := effectiveRoot_count o .ServerDir hp hv
  rw [resolve_service] at ht
  simp only [List.mem_append, List.mem_cons, List.mem_nil_iff, or_false] at ht
  rcases ht with (rfl | rfl | rfl) | ht
  · rw [claimedPath_count _ _ _ _ hn hl (by decide)]; exact hP
  · rw [claimedPath_count _ _ _ _ hn hl (by decide)]; exact hS
  · rw [claimedPath_count _ _ _ _ hn hl (by decide)]; exact hS
  · split at ht
    · cases ht
    · rw [List.mem_singleton] at ht
      subst ht
      rw [claimedPath_count _ _ _ _ hn hl (by decide)]; exact hS

theorem generate_ok_run (env : Env) (o : RunOptions) (p : String) (methods : List String)
    (fs : ProjectFS) (m : Machine) (h : generate env o p methods fs = .ok m) :
    ∃ specs, ClassifyMethods env.catalog (effectiveMethods env.catalog methods) = .ok specs ∧
      m = run env ⟨DeriveNameSet p o.resourceName, specs, o⟩ fs := by
  simp only [generate, runInput] at h
  rcases hC : ClassifyMethods env.catalog (effectiveMethods env.catalog methods) with e | specs
  · simp [hC] at h
  · simp only [hC, Except.ok.injEq] at h
    exact ⟨specs, rfl, h.symm⟩

/-- C2: a kebab-case resource path and its snake_case spelling (every hyphen replaced by an
underscore) normalise to the same segments and give the same run, hence the identical file
set; and with the service templates and output directories that contain no hyphen (the
defaults, or overrides without one) no hyphen appears in any output path: not in a resolved
target, and not in a file or a recorded path of a run on an empty project. -/
theorem kebab_case_paths_use_snake_case (env : Env) (b : TemplateBytes) (o : RunOptions)
    (p : String) (methods : List String) (fs : ProjectFS)
    (ht : env.templates = serviceTemplates b)
    (hp : '-' ∉ o.protoDir.data) (hv : '-' ∉ o.serverDir.data) :
    pathSegments (snakeSpelling p) = pathSegments p ∧
    generate env o (snakeSpelling p) methods fs = generate env o p methods fs ∧
    (∀ s ∈ pathSegments p, '-' ∉ s.data) ∧
    (∀ t ∈ ResolveTargets (DeriveNameSet p o.resourceName) o env.templates,
      '-' ∉ t.outputPath.data) ∧
    (∀ m, generate env o p methods [] = .ok m →
      ∀ path, path ∈ filePaths m.fs ∨ path ∈ m.result.written ∨ path ∈ m.result.skipped →
        '-' ∉ path.data) := by
  have hT : ∀ t ∈ ResolveTargets (DeriveNameSet p o.resourceName) o env.templates,
      '-' ∉ t.outputPath.data := by
    rw [ht]
    exact service_targets_no_hyphen b o p o.resourceName hp hv
  refine ⟨pathSegments_snakeSpelling p, ?_, ?_, hT, ?_⟩
  · simp only [generate, runInput, derive_snakeSpelling]
  · intro s hs
    exact List.count_eq_zero.mp (pathSegments_count p s hs)
  · intro m hm path hpath
    obtain ⟨specs, -, rfl⟩ := generate_ok_run env o p methods [] m hm
    have hf := run_frame env ⟨DeriveNameSet p o.resourceName, specs, o⟩ [] path
    have hmem : path ∈ (ResolveTargets (DeriveNameSet p o.resourceName) o env.templates).map
        (fun t => t.outputPath) := by
      rcases hpath with h | h | h
      · rcases hf.1 h with h1 | h1
        · simp [filePaths] at h1
        · exact h1
      · exact hf.2 (Or.inl h)
      · exact hf.2 (Or.inr h)
    obtain ⟨t, ht', rfl⟩ := List.mem_map.mp hmem
    exact hT t ht'

/-- C2, at `foo/bar-baz` in the sample environment: the files of the run are those of
`foo/bar_baz`. -/
theorem kebab_case_paths_use_snake_case_witness :
    sampleEnv.templates = serviceTemplates sampleBytes ∧
    '-' ∉ defaultOptions.protoDir.data ∧ '-' ∉ defaultOptions.serverDir.data ∧
    snakeSpelling "foo/bar-baz" = "foo/bar_baz" ∧
    (generate sampleEnv defaultOptions "foo/bar-baz" [] []).toOption.map
        (fun m => filePaths m.fs) =
      some [ "api/protos/foo/bar_baz.proto", "app/server/foo/bar_baz_server.go",
        "app/server/foo/bar_baz_server_register_funcs.go",
        "app/server/foo/bar_baz_server_test.go" ] ∧
    (pathSegments (snakeSpelling "foo/bar-baz") = pathSegments "foo/bar-baz" ∧
    generate sampleEnv defaultOptions (snakeSpelling "foo/bar-baz") [] [] =
      generate sampleEnv defaultOptions "foo/bar-baz" [] [] ∧
    (∀ s ∈ pathSegments "foo/bar-baz", '-' ∉ s.data) ∧
    (∀ t ∈ ResolveTargets (DeriveNameSet "foo/bar-baz" defaultOptions.resourceName)
        defaultOptions sampleEnv.templates, '-' ∉ t.outputPath.data) ∧
    (∀ m, generate sampleEnv defaultOptions "foo/bar-baz" [] [] = .ok m →
      ∀ path, path ∈ filePaths m.fs ∨ path ∈ m.result.written ∨ path ∈ m.result.skipped →
        '-' ∉ path.data)) :=
  ⟨rfl, by decide, by decide, by decide, by decide,
    kebab_case_paths_use_snake_case sampleEnv sampleBytes defaultOptions "foo/bar-baz" [] []
      rfl (by decide) (by decide)⟩


/-- C3: with `--skip-test`, for every resource path (segments normalising to `nsSegs` and
`l`) the test-file target `<leaf>_server_test.go` is never resolved: it is no resolved
target; a run on an empty project (method names accepted, renderer and compiler
succeeding) ends in `Done` with exactly the proto, server and register-funcs files, the
test file does not exist and is in neither the written nor the skipped list; and on any
project, whatever the outcome, the run neither records the test file nor creates it. -/
theorem skip_test_never_produces_test_file (env : Env) (b : TemplateBytes) (o : RunOptions)
    (p : String) (methods : List String) (specs : List MethodSpec)
    (nsSegs : List String) (l : String)
    (ht : env.templates = serviceTemplates b)
    (hr : ∀ t c, (env.render t c).isSome = true)
    (hc : ∀ c fs, env.compile c fs = none)
    (hm : ClassifyMethods env.catalog (effectiveMethods env.catalog methods) = .ok specs)
    (hseg : pathSegments p = nsSegs ++ [l])
    (hs : o.skipTest = true) :
    claimedPath (effectiveRoot o .ServerDir) (joinSegs nsSegs) (l ++ "_server_test.go") ∉
      (ResolveTargets (DeriveNameSet p o.resourceName) o env.templates).map
        (fun t => t.outputPath) ∧
    (∃ m, generate env o p methods [] = .ok m ∧ m.state = .Done ∧ m.result.err = none ∧
      filePaths m.fs =
        [ claimedPath (effectiveRoot o .ProtoDir) (joinSegs nsSegs) (l ++ ".proto"),
          claimedPath (effectiveRoot o .ServerDir) (joinSegs nsSegs) (l ++ "_server.go"),
          claimedPath (effectiveRoot o .ServerDir) (joinSegs nsSegs)
            (l ++ "_server_register_funcs.go") ] ∧
      claimedPath (effectiveRoot o .ServerDir) (joinSegs nsSegs) (l ++ "_server_test.go") ∉
        filePaths m.fs ∧
      claimedPath (effectiveRoot o .ServerDir) (joinSegs nsSegs) (l ++ "_server_test.go") ∉
        m.result.written ∧
      claimedPath (effectiveRoot o .ServerDir) (joinSegs nsSegs) (l ++ "_server_test.go") ∉
        m.result.skipped) ∧
    (∀ fs₀ m, generate env o p methods fs₀ = .ok m →
      claimedPath (effectiveRoot o .ServerDir) (joinSegs nsSegs) (l ++ "_server_test.go") ∉
        m.result.written ∧
      claimedPath (effectiveRoot o .ServerDir) (joinSegs nsSegs) (l ++ "_server_test.go") ∉
        m.result.skipped ∧
      (claimedPath (effectiveRoot o .ServerDir) (joinSegs nsSegs) (l ++ "_server_test.go") ∈
        filePaths m.fs →
       claimedPath (effectiveRoot o .ServerDir) (joinSegs nsSegs) (l ++ "_server_test.go") ∈
        filePaths fs₀)) := by
  have hns := derive_ns p o.resourceName nsSegs l hseg
  have hlf := derive_leaf p o.resourceName nsSegs l hseg
  have d3 := claimed_ne (effectiveRoot o .ServerDir) (effectiveRoot o .ProtoDir)
    (joinSegs nsSegs) (joinSegs nsSegs) l l "_server_test.go" ".proto" (by decide)
  have d5 := claimed_ne (effectiveRoot o .ServerDir) (effectiveRoot o .ServerDir)
    (joinSegs nsSegs) (joinSegs nsSegs) l l "_server_test.go" "_server.go" (by decide)
  have d6 := claimed_ne (effectiveRoot o .ServerDir) (effectiveRoot o .ServerDir)
    (joinSegs nsSegs) (joinSegs nsSegs) l l "_server_test.go" "_server_register_funcs.go"
    (by decide)
  have hT : claimedPath (effectiveRoot o .ServerDir) (joinSegs nsSegs)
      (l ++ "_server_test.go") ∉
      (ResolveTargets (DeriveNameSet p o.resourceName) o env.templates).map
        (fun t => t.outputPath) := by
    rw [ht, resolve_service, hns, hlf]
    simp [hs, d3, d5, d6]
  refine ⟨hT, ?_, ?_⟩
  · obtain ⟨cP, cS, cR, cT, -, -, -, -, hrun⟩ :=
      run_empty env ⟨DeriveNameSet p o.resourceName, specs, o⟩ b ht hr hc
    refine ⟨_, generate_of_classified env o p methods [] specs hm, ?_⟩
    rw [hrun]
    simp [filePaths, hs, hns, hlf, d3, d5, d6]
  · intro fs₀ m hgen
    obtain ⟨specs', -, rfl⟩ := generate_ok_run env o p methods fs₀ m hgen
    have hf := run_frame env ⟨DeriveNameSet p o.resourceName, specs', o⟩ fs₀
      (claimedPath (effectiveRoot o .ServerDir) (joinSegs nsSegs) (l ++ "_server_test.go"))
    refine ⟨fun h => hT (hf.2 (Or.inl h)), fun h => hT (hf.2 (Or.inr h)), fun h => ?_⟩
    rcases hf.1 h with h1 | h1
    · exact h1
    · exact absurd h1 hT

/-- C3, at `book` with `--skip-test` in the sample environment: the three files of the
test case "skip tests", and no `app/server/book_server_test.go`. -/
theorem skip_test_never_produces_test_file_witness :
    (generate sampleEnv { defaultOptions with skipTest := true } "book" [] []).toOption.map
        (fun m => (filePaths m.fs, m.result.written, m.result.skipped)) =
      some ([ "api/protos/book.proto", "app/server/book_server.go",
              "app/server/book_server_register_funcs.go" ],
            [ "app/server/book_server.go", "app/server/book_server_register_funcs.go" ],
            []) ∧
    claimedPath (effectiveRoot { defaultOptions with skipTest := true } .ServerDir)
      (joinSegs []) ("book" ++ "_server_test.go") = "app/server/book_server_test.go" ∧
    claimedPath (effectiveRoot { defaultOptions with skipTest := true } .ServerDir)
        (joinSegs []) ("book" ++ "_server_test.go") ∉
      (ResolveTargets
        (DeriveNameSet "book" ({ defaultOptions with skipTest := true }).resourceName)
        { defaultOptions with skipTest := true } sampleEnv.templates).map
        (fun t => t.outputPath) :=
  ⟨by decide, by decide,
    (skip_test_never_produces_test_file sampleEnv sampleBytes
      { defaultOptions with skipTest := true } "book" [] [] [] "book" rfl
      (fun _ _ => rfl) (fun _ _ => rfl) rfl (by decide) rfl).1⟩


theorem derive_override_ns (p : String) (r : Option String) :
    (DeriveNameSet p r).ns = (DeriveNameSet p none).ns := rfl

theorem derive_override_leaf (p : String) (r : Option String) :
    (DeriveNameSet p r).leaf = (DeriveNameSet p none).leaf := rfl

/-- C4: for every resource path `p` and every `--resource-name` override `r`, the resolved
output paths are those of `p` without the override, and a run on an empty project (method
names accepted, renderer and compiler succeeding) ends in `Done` with the same file paths
as the run without the override; the derived forms used for type identifiers are those of
`r`, and every file of the run holds a rendering in the context of that name set. -/
theorem resource_name_override_keeps_paths (env : Env) (b : TemplateBytes) (o : RunOptions)
    (p r : String) (methods : List String) (specs : List MethodSpec)
    (ht : env.templates = serviceTemplates b)
    (hr : ∀ t c, (env.render t c).isSome = true)
    (hc : ∀ c fs, env.compile c fs = none)
    (hm : ClassifyMethods env.catalog (effectiveMethods env.catalog methods) = .ok specs) :
    (ResolveTargets (DeriveNameSet p (some r)) { o with resourceName := some r }
        env.templates).map (fun t => t.outputPath) =
      (ResolveTargets (DeriveNameSet p none) { o with resourceName := none }
        env.templates).map (fun t => t.outputPath) ∧
    (DeriveNameSet p (some r)).snake = normalizeSegment r ∧
    (DeriveNameSet p (some r)).pascal = pascalCase (normalizeSegment r) ∧
    (DeriveNameSet p (some r)).camel = camelCase (normalizeSegment r) ∧
    (DeriveNameSet p (some r)).pluralPascal = pascalCase (pluralize (normalizeSegment r)) ∧
    (DeriveNameSet p (some r)).leaf = (DeriveNameSet p none).leaf ∧
    (DeriveNameSet p (some r)).ns = (DeriveNameSet p none).ns ∧
    ∃ m m₀, generate env { o with resourceName := some r } p methods [] = .ok m ∧
      generate env { o with resourceName := none } p methods [] = .ok m₀ ∧
      m.state = .Done ∧ m₀.state = .Done ∧
      filePaths m.fs = filePaths m₀.fs ∧
      m.result.written = m₀.result.written ∧
      ∀ e ∈ m.fs, ∃ tmpl, env.render tmpl
        { nameSet := DeriveNameSet p (some r), methodSpecs := specs,
          packageName := o.packageName, metadata := env.metadata } = some e.2 := by
  refine ⟨?_, rfl, rfl, rfl, rfl, rfl, rfl, ?_⟩
  · rw [ht, resolve_service, resolve_service]
    rfl
  · obtain ⟨cP, cS, cR, cT, hP, hS, hR, hT, hrun⟩ :=
      run_empty env ⟨DeriveNameSet p (some r), specs, { o with resourceName := some r }⟩ b
        ht hr hc
    obtain ⟨cP', cS', cR', cT', -, -, -, -, hrun'⟩ :=
      run_empty env ⟨DeriveNameSet p none, specs, { o with resourceName := none }⟩ b
        ht hr hc
    refine ⟨_, _, generate_of_classified env _ p methods [] specs hm,
      generate_of_classified env _ p methods [] specs hm, ?_⟩
    simp only [] at hrun hrun'
    rw [hrun, hrun']
    refine ⟨rfl, rfl, ?_, ?_, ?_⟩
    · cases o.skipTest <;> simp [filePaths, effectiveRoot, derive_override_ns p (some r),
        derive_override_leaf p (some r)]
    · cases o.skipTest <;> simp [effectiveRoot, derive_override_ns p (some r),
        derive_override_leaf p (some r)]
    · intro e he
      simp only [renderContext] at hP hS hR hT
      simp only [List.mem_append, List.mem_cons, List.mem_nil_iff, or_false] at he
      rcases he with (rfl | rfl | rfl) | he
      · exact ⟨_, hP⟩
      · exact ⟨_, hS⟩
      · exact ⟨_, hR⟩
      · split at he
        · cases he
        · rw [List.mem_singleton] at he
          subst he
          exact ⟨_, hT⟩

/-- C4, at `library` with `--resource-name=book` in the sample environment: the files are
named after `library`, the type name rendered into them is `Book`. -/
theorem resource_name_override_keeps_paths_witness :
    (generate sampleEnv { defaultOptions with resourceName := some "book" } "library" []
        []).toOption.map (fun m => m.fs) =
      some [ ("api/protos/library.proto", "proto:Book"),
             ("app/server/library_server.go", "server:Book"),
             ("app/server/library_server_register_funcs.go", "register:Book"),
             ("app/server/library_server_test.go", "test:Book") ] ∧
    (DeriveNameSet "library" (some "book")).pascal = "Book" ∧
    (ResolveTargets (DeriveNameSet "library" (some "book"))
        { defaultOptions with resourceName := some "book" } sampleEnv.templates).map
        (fun t => t.outputPath) =
      (ResolveTargets (DeriveNameSet "library" none)
        { defaultOptions with resourceName := none } sampleEnv.templates).map
        (fun t => t.outputPath) :=
  ⟨by decide, by decide,
    (resource_name_override_keeps_paths sampleEnv sampleBytes defaultOptions "library" "book"
      [] [] rfl (fun _ _ => rfl) (fun _ _ => rfl) rfl).1⟩


/-- A run on an empty project over the service templates, method names accepted, renderer
and compiler succeeding: it ends in `Done` and its files are the claimed file set under
the effective directories, with the rendered contents. -/
theorem generate_empty (env : Env) (b : TemplateBytes) (o : RunOptions)
    (p : String) (methods : List String) (specs : List MethodSpec)
    (nsSegs : List String) (l : String)
    (ht : env.templates = serviceTemplates b)
    (hr : ∀ t c, (env.render t c).isSome = true)
    (hc : ∀ c fs, env.compile c fs = none)
    (hm : ClassifyMethods env.catalog (effectiveMethods env.catalog methods) = .ok specs)
    (hseg : pathSegments p = nsSegs ++ [l]) :
    ∃ m, generate env o p methods [] = .ok m ∧ m.state = .Done ∧ m.result.err = none ∧
      filePaths m.fs =
        claimedFiles (effectiveRoot o .ProtoDir) (effectiveRoot o .ServerDir)
          (joinSegs nsSegs) l o.skipTest ∧
      m.fs.map (fun e => some e.2) =
        [ env.render b.proto ⟨DeriveNameSet p o.resourceName, specs, o.packageName,
            env.metadata⟩,
          env.render b.server ⟨DeriveNameSet p o.resourceName, specs, o.packageName,
            env.metadata⟩,
          env.render b.registerFuncs ⟨DeriveNameSet p o.resourceName, specs, o.packageName,
            env.metadata⟩ ] ++
        (if o.skipTest then []
         else [ env.render b.test ⟨DeriveNameSet p o.resourceName, specs, o.packageName,
            env.metadata⟩ ]) := by
  obtain ⟨cP, cS, cR, cT, hP, hS, hR, hT, hrun⟩ :=
    run_empty env ⟨DeriveNameSet p o.resourceName, specs, o⟩ b ht hr hc
  refine ⟨_, generate_of_classified env o p methods [] specs hm, ?_⟩
  simp only [renderContext] at hP hS hR hT
  rw [hrun, hP, hS, hR, hT]
  cases o.skipTest <;>
    simp [filePaths, claimedFiles, derive_ns p o.resourceName nsSegs l hseg,
      derive_leaf p o.resourceName nsSegs l hseg]

theorem same_paths_same_files (fs gs : ProjectFS) (h1 : filePaths fs = filePaths gs)
    (h2 : fs.map (fun e => some e.2) = gs.map (fun e => some e.2)) : fs = gs := by
  induction fs generalizing gs with
  | nil => cases gs with
    | nil => rfl
    | cons g gs => simp [filePaths] at h1
  | cons f fs ih =>
    cases gs with
    | nil => simp [filePaths] at h1
    | cons g gs =>
      simp only [filePaths, List.map_cons, List.cons.injEq, Option.some.injEq] at h1 h2
      rw [ih gs h1.2 h2.2, Prod.ext h1.1 h2.1]

/-- C5: the proto directory and the server directory are independent output roots. On an
empty project (method names accepted, renderer and compiler succeeding), for every
resource path with segments `nsSegs` and `l` and every non-empty directory `d`: overriding
only the proto dir puts the proto file at `d/<ns>/<l>.proto` and leaves the server files
under `app/server`; overriding only the server dir moves the server files under `d` and
leaves the proto file under `api/protos`; overriding the proto output dir changes no file
at all. -/
theorem directory_overrides_are_independent (env : Env) (b : TemplateBytes) (o : RunOptions)
    (p d : String) (methods : List String) (specs : List MethodSpec)
    (nsSegs : List String) (l : String)
    (ht : env.templates = serviceTemplates b)
    (hr : ∀ t c, (env.render t c).isSome = true)
    (hc : ∀ c fs, env.compile c fs = none)
    (hm : ClassifyMethods env.catalog (effectiveMethods env.catalog methods) = .ok specs)
    (hseg : pathSegments p = nsSegs ++ [l])
    (hd : d ≠ "") :
    (∃ m, generate env { o with protoDir := d, serverDir := "" } p methods [] = .ok m ∧
      m.state = .Done ∧
      filePaths m.fs = claimedFiles d "app/server" (joinSegs nsSegs) l o.skipTest) ∧
    (∃ m, generate env { o with protoDir := "", serverDir := d } p methods [] = .ok m ∧
      m.state = .Done ∧
      filePaths m.fs = claimedFiles "api/protos" d (joinSegs nsSegs) l o.skipTest) ∧
    (∃ m m₀, generate env { o with protoOutDir := d } p methods [] = .ok m ∧
      generate env { o with protoOutDir := "" } p methods [] = .ok m₀ ∧
      m.state = .Done ∧ m₀.state = .Done ∧ m.fs = m₀.fs ∧
      filePaths m.fs =
        claimedFiles (effectiveRoot o .ProtoDir) (effectiveRoot o .ServerDir)
          (joinSegs nsSegs) l o.skipTest) := by
  refine ⟨?_, ?_, ?_⟩
  · obtain ⟨m, h1, h2, -, h3, -⟩ := generate_empty env b { o with protoDir := d, serverDir := "" }
      p methods specs nsSegs l ht hr hc hm hseg
    refine ⟨m, h1, h2, ?_⟩
    rw [h3]
    simp [effectiveRoot, hd, defaultServerDir]
  · obtain ⟨m, h1, h2, -, h3, -⟩ := generate_empty env b { o with protoDir := "", serverDir := d }
      p methods specs nsSegs l ht hr hc hm hseg
    refine ⟨m, h1, h2, ?_⟩
    rw [h3]
    simp [effectiveRoot, hd, defaultProtoDir]
  · obtain ⟨m, h1, h2, -, h3, h4⟩ := generate_empty env b { o with protoOutDir := d }
      p methods specs nsSegs l ht hr hc hm hseg
    obtain ⟨m₀, g1, g2, -, g3, g4⟩ := generate_empty env b { o with protoOutDir := "" }
      p methods specs nsSegs l ht hr hc hm hseg
    refine ⟨m, m₀, h1, g1, h2, g2, ?_, ?_⟩
    · apply same_paths_same_files
      · rw [h3, g3]; rfl
      · rw [h4, g4]
    · rw [h3]; rfl

/-- C5, at the three test cases of `TestRun` in the sample environment: `qux` with the
proto dir `pkg/foo/protos`, `corge` with the server dir `pkg/foo/server`, `quux` with the
proto output dir `api/out`. -/
theorem directory_overrides_are_independent_witness :
    (generate sampleEnv { defaultOptions with protoDir := "pkg/foo/protos" } "qux" []
        []).toOption.map (fun m => filePaths m.fs) =
      some [ "pkg/foo/protos/qux.proto", "app/server/qux_server.go",
        "app/server/qux_server_register_funcs.go", "app/server/qux_server_test.go" ] ∧
    (generate sampleEnv { defaultOptions with serverDir := "pkg/foo/server" } "corge" []
        []).toOption.map (fun m => filePaths m.fs) =
      some [ "api/protos/corge.proto", "pkg/foo/server/corge_server.go",
        "pkg/foo/server/corge_server_register_funcs.go",
        "pkg/foo/server/corge_server_test.go" ] ∧
    (generate sampleEnv { defaultOptions with protoOutDir := "api/out" } "quux" []
        []).toOption.map (fun m => filePaths m.fs) =
      some [ "api/protos/quux.proto", "app/server/quux_server.go",
        "app/server/quux_server_register_funcs.go", "app/server/quux_server_test.go" ] ∧
    ∃ m m₀, generate sampleEnv { defaultOptions with protoOutDir := "api/out" } "quux" [] [] =
        .ok m ∧
      generate sampleEnv { defaultOptions with protoOutDir := "" } "quux" [] [] = .ok m₀ ∧
      m.state = .Done ∧ m₀.state = .Done ∧ m.fs = m₀.fs ∧
      filePaths m.fs =
        claimedFiles (effectiveRoot defaultOptions .ProtoDir)
          (effectiveRoot defaultOptions .ServerDir) (joinSegs []) "quux"
          defaultOptions.skipTest :=
  ⟨by decide, by decide, by decide,
    (directory_overrides_are_independent sampleEnv sampleBytes defaultOptions "quux" "api/out"
      [] [] [] "quux" rfl (fun _ _ => rfl) (fun _ _ => rfl) rfl (by decide) (by decide)).2.2⟩


/-! ### The method catalog -/

theorem classifyFrom_ok (c : Catalog) (names : List String) :
    ∀ seen : List String, (∀ n ∈ names, normalizeSegment n ∉ seen) →
      (names.map normalizeSegment).Nodup →
      classifyFrom c seen names =
        .ok (names.map (fun n => toMethodSpec c (normalizeSegment n))) := by
  induction names with
  | nil => intro seen _ _; rfl
  | cons n rest ih =>
    intro seen h1 h2
    simp only [List.map_cons, List.nodup_cons, List.mem_map, not_exists, not_and] at h2
    simp only [classifyFrom, h1 n (List.mem_cons_self _ _), if_false]
    rw [ih (normalizeSegment n :: seen) ?_ h2.2]
    · rfl
    · intro k hk hmem
      rcases List.mem_cons.mp hmem with h | h
      · exact h2.1 k hk h
      · exact h1 k (List.mem_cons_of_mem _ hk) h

theorem classifyFrom_ok_nodup (c : Catalog) (names : List String) :
    ∀ (seen : List String) (specs : List MethodSpec), classifyFrom c seen names = .ok specs →
      (∀ n ∈ names, normalizeSegment n ∉ seen) ∧ (names.map normalizeSegment).Nodup := by
  induction names with
  | nil => intro seen specs _; simp
  | cons n rest ih =>
    intro seen specs h
    simp only [classifyFrom] at h
    split at h
    · cases h
    · rename_i hn
      split at h
      · rename_i specs' hrec
        obtain ⟨h1, h2⟩ := ih _ _ hrec
        refine ⟨?_, ?_⟩
        · intro k hk
          rcases List.mem_cons.mp hk with rfl | hk
          · exact hn
          · exact fun hmem => h1 k hk (List.mem_cons_of_mem _ hmem)
        · simp only [List.map_cons, List.nodup_cons, List.mem_map, not_exists, not_and]
          exact ⟨fun k hk heq => h1 k hk (by simp [heq]), h2⟩
      · cases h

theorem classifyFrom_error (c : Catalog) (names : List String) :
    ∀ (seen : List String) (e : GenError), classifyFrom c seen names = .error e →
      ∃ d, e = .ErrDuplicateMethod d ∧
        ((d ∈ seen ∧ d ∈ names.map normalizeSegment) ∨
          2 ≤ (names.map normalizeSegment).count d) := by
  induction names with
  | nil => intro seen e h; cases h
  | cons n rest ih =>
    intro seen e h
    simp only [classifyFrom] at h
    split at h
    · rename_i hn
      cases h
      exact ⟨_, rfl, Or.inl ⟨hn, by simp⟩⟩
    · split at h
      · cases h
      · rename_i e' hrec
        cases h
        obtain ⟨d, rfl, hd⟩ := ih _ _ hrec
        refine ⟨d, rfl, ?_⟩
        rcases hd with ⟨hmem, hrest⟩ | hcount
        · rcases List.mem_cons.mp hmem with rfl | hseen
          · right
            have : 1 ≤ (rest.map normalizeSegment).count (normalizeSegment n) :=
              List.count_pos_iff.mpr hrest
            simp only [List.map_cons, List.count_cons_self]
            omega
          · exact Or.inl ⟨hseen, by simp only [List.map_cons]; exact List.mem_cons_of_mem _ hrest⟩
        · right
          simp only [List.map_cons, List.count_cons]
          omega

theorem ClassifyMethods_cases (c : Catalog) (names : List String) :
    ((names.map normalizeSegment).Nodup ∧
      ClassifyMethods c names =
        .ok (names.map (fun n => toMethodSpec c (normalizeSegment n)))) ∨
    (¬ (names.map normalizeSegment).Nodup ∧
      ∃ d, 2 ≤ (names.map normalizeSegment).count d ∧
        ClassifyMethods c names = .error (.ErrDuplicateMethod d)) := by
  by_cases h : (names.map normalizeSegment).Nodup
  · exact Or.inl ⟨h, classifyFrom_ok c names [] (by simp) h⟩
  · right
    refine ⟨h, ?_⟩
    rcases hC : ClassifyMethods c names with e | specs
    · obtain ⟨d, rfl, hd⟩ := classifyFrom_error c names [] _ hC
      rcases hd with ⟨hmem, -⟩ | hcount
      · cases hmem
      · exact ⟨d, hcount, rfl⟩
    · exact absurd (classifyFrom_ok_nodup c names [] specs hC).2 h


/-- C7: for every list of method names, `ClassifyMethods` either accepts the list, and then
the names are pairwise distinct after normalisation and the output is, in the order of the
input, the snake_case normalisation of each name tagged Standard when it is in the
standard set and Custom otherwise (the `i`-th output is the spec of the `i`-th input); or
it fails with `ErrDuplicateMethod` on a name that occurs twice after normalisation. So it
fails with a duplicate-method error if and only if two input names are equal after
normalisation: `move_move` with `move-move` fails, and the pairwise-distinct
`list, create, rename, delete, move_move` is accepted. -/
theorem ClassifyMethods_order_and_duplicates (c : Catalog) (names : List String) :
    (((names.map normalizeSegment).Nodup ∧
        ClassifyMethods c names =
          .ok (names.map (fun n => toMethodSpec c (normalizeSegment n)))) ∨
      (¬ (names.map normalizeSegment).Nodup ∧
        ∃ d, 2 ≤ (names.map normalizeSegment).count d ∧
          ClassifyMethods c names = .error (.ErrDuplicateMethod d))) ∧
    ((∃ d, ClassifyMethods c names = .error (.ErrDuplicateMethod d)) ↔
      ¬ (names.map normalizeSegment).Nodup) ∧
    (∀ specs, ClassifyMethods c names = .ok specs →
      specs.length = names.length ∧
      ∀ i (h : i < names.length),
        specs[i]? = some (toMethodSpec c (normalizeSegment (names.get ⟨i, h⟩)))) ∧
    (∀ n, (toMethodSpec c n).name = n ∧
      ((toMethodSpec c n).kind = .Standard ↔ n ∈ standardBase ++ c.additions) ∧
      ((toMethodSpec c n).kind = .Custom ↔ n ∉ standardBase ++ c.additions)) ∧
    ClassifyMethods c ["move_move", "move-move"] = .error (.ErrDuplicateMethod "move_move") ∧
    ClassifyMethods c ["list", "create", "rename", "delete", "move_move"] =
      .ok [ toMethodSpec c "list", toMethodSpec c "create", toMethodSpec c "rename",
            toMethodSpec c "delete", toMethodSpec c "move_move" ] := by
  have hcases := ClassifyMethods_cases c names
  refine ⟨hcases, ?_, ?_, ?_, ?_, ?_⟩
  · constructor
    · rintro ⟨d, hd⟩
      rcases hcases with ⟨-, hok⟩ | ⟨hdup, -⟩
      · rw [hok] at hd; cases hd
      · exact hdup
    · intro hdup
      rcases hcases with ⟨hn, -⟩ | ⟨-, d, -, hd⟩
      · exact absurd hn hdup
      · exact ⟨d, hd⟩
  · intro specs hs
    rcases hcases with ⟨-, hok⟩ | ⟨-, d, -, hd⟩
    · rw [hok] at hs
      cases hs
      refine ⟨by simp, ?_⟩
      intro i h
      simp [List.getElem?_map, List.getElem?_eq_getElem h]
    · rw [hd] at hs; cases hs
  · intro n
    unfold toMethodSpec isStandard
    by_cases hn : n ∈ standardBase ++ c.additions
    · simp [hn]
    · simp [hn]
  · have h1 : normalizeSegment "move_move" = "move_move" := by decide
    have h2 : normalizeSegment "move-move" = "move_move" := by decide
    simp [ClassifyMethods, classifyFrom, h1, h2]
  · have h1 : normalizeSegment "list" = "list" := by decide
    have h2 : normalizeSegment "create" = "create" := by decide
    have h3 : normalizeSegment "rename" = "rename" := by decide
    have h4 : normalizeSegment "delete" = "delete" := by decide
    have h5 : normalizeSegment "move_move" = "move_move" := by decide
    simp [ClassifyMethods, classifyFrom, h1, h2, h3, h4, h5]


theorem effectiveMethods_classified (c : Catalog) (methods : List String)
    (hn : (methods.map normalizeSegment).Nodup)
    (hd : (c.defaultMethods.map normalizeSegment).Nodup) :
    ∃ specs, ClassifyMethods c (effectiveMethods c methods) = .ok specs := by
  have h : ((effectiveMethods c methods).map normalizeSegment).Nodup := by
    unfold effectiveMethods
    split
    · exact hd
    · exact hn
  exact ⟨_, classifyFrom_ok c _ [] (by simp) h⟩

/-- C6: the generated file set depends neither on the method names nor on the package
name. On an empty project, over the service templates (renderer and compiler succeeding),
for every resource path, every list of method names that are distinct after normalisation
(the configured default list, used when none is given, being so too) and every package
name, the run succeeds and leaves the same file paths as the run with no methods and no
package override: the claimed file set of the resource. -/
theorem file_set_independent_of_methods_and_package (env : Env) (b : TemplateBytes)
    (o : RunOptions) (p pkg : String) (methods : List String)
    (nsSegs : List String) (l : String)
    (ht : env.templates = serviceTemplates b)
    (hr : ∀ t c, (env.render t c).isSome = true)
    (hc : ∀ c fs, env.compile c fs = none)
    (hn : (methods.map normalizeSegment).Nodup)
    (hd : (env.catalog.defaultMethods.map normalizeSegment).Nodup)
    (hseg : pathSegments p = nsSegs ++ [l]) :
    ∃ m m₀, generate env { o with packageName := pkg } p methods [] = .ok m ∧
      generate env { o with packageName := "" } p [] [] = .ok m₀ ∧
      m.state = .Done ∧ m.result.err = none ∧ m₀.state = .Done ∧ m₀.result.err = none ∧
      filePaths m.fs = filePaths m₀.fs ∧
      m.result.written = m₀.result.written ∧
      filePaths m.fs =
        claimedFiles (effectiveRoot o .ProtoDir) (effectiveRoot o .ServerDir)
          (joinSegs nsSegs) l o.skipTest := by
  obtain ⟨specs, hm⟩ := effectiveMethods_classified env.catalog methods hn hd
  obtain ⟨specs₀, hm₀⟩ := effectiveMethods_classified env.catalog [] (by simp) hd
  obtain ⟨m, h1, h2, h3, h4, -⟩ := generate_empty env b { o with packageName := pkg }
    p methods specs nsSegs l ht hr hc hm hseg
  obtain ⟨m₀, g1, g2, g3, g4, -⟩ := generate_empty env b { o with packageName := "" }
    p [] specs₀ nsSegs l ht hr hc hm₀ hseg
  refine ⟨m, m₀, h1, g1, h2, h3, g2, g3, ?_, ?_, ?_⟩
  · rw [h4, g4]; rfl
  · obtain ⟨cP, cS, cR, cT, -, -, -, -, hrun⟩ :=
      run_empty env ⟨DeriveNameSet p o.resourceName, specs, { o with packageName := pkg }⟩ b
        ht hr hc
    obtain ⟨cP₀, cS₀, cR₀, cT₀, -, -, -, -, hrun₀⟩ :=
      run_empty env ⟨DeriveNameSet p o.resourceName, specs₀, { o with packageName := "" }⟩ b
        ht hr hc
    rw [generate_of_classified env _ p methods [] specs hm] at h1
    rw [generate_of_classified env _ p [] [] specs₀ hm₀] at g1
    cases h1
    cases g1
    simp only [] at hrun hrun₀
    rw [hrun, hrun₀]
    rfl
  · rw [h4]; rfl

/-- C6, at the test cases of `TestRun` in the sample environment: `foo/bar-baz` with the
methods `list create rename delete move_move` and the package `testcompany.testapp` gives
the files of `foo/bar-baz` alone. -/
theorem file_set_independent_of_methods_and_package_witness :
    (["list", "create", "rename", "delete", "move_move"].map normalizeSegment).Nodup ∧
    (sampleEnv.catalog.defaultMethods.map normalizeSegment).Nodup ∧
    pathSegments "foo/bar-baz" = ["foo"] ++ ["bar_baz"] ∧
    (generate sampleEnv { defaultOptions with packageName := "testcompany.testapp" }
        "foo/bar-baz" ["list", "create", "rename", "delete", "move_move"] []).toOption.map
        (fun m => filePaths m.fs) =
      some [ "api/protos/foo/bar_baz.proto", "app/server/foo/bar_baz_server.go",
        "app/server/foo/bar_baz_server_register_funcs.go",
        "app/server/foo/bar_baz_server_test.go" ] ∧
    ∃ m m₀, generate sampleEnv { defaultOptions with packageName := "testcompany.testapp" }
        "foo/bar-baz" ["list", "create", "rename", "delete", "move_move"] [] = .ok m ∧
      generate sampleEnv { defaultOptions with packageName := "" } "foo/bar-baz" [] [] =
        .ok m₀ ∧
      m.state = .Done ∧ m.result.err = none ∧ m₀.state = .Done ∧ m₀.result.err = none ∧
      filePaths m.fs = filePaths m₀.fs ∧
      m.result.written = m₀.result.written ∧
      filePaths m.fs =
        claimedFiles (effectiveRoot defaultOptions .ProtoDir)
          (effectiveRoot defaultOptions .ServerDir) (joinSegs ["foo"]) "bar_baz"
          defaultOptions.skipTest :=
  ⟨by decide, by decide, by decide, by decide,
    file_set_independent_of_methods_and_package sampleEnv sampleBytes defaultOptions
      "foo/bar-baz" "testcompany.testapp" ["list", "create", "rename", "delete", "move_move"]
      ["foo"] "bar_baz" rfl (fun _ _ => rfl) (fun _ _ => rfl) (by decide) (by decide)
      (by decide)⟩


/-! ### Successful runs on any project -/

theorem ensure_total (env : Env) (ctx : RenderContext) (ts : List ResolvedTarget)
    (hr : ∀ t c, (env.render t c).isSome = true) :
    ∀ fs : ProjectFS, (ensureProtoFiles env ctx fs ts).2 = none := by
  induction ts with
  | nil => intro fs; rfl
  | cons t ts ih =>
    intro fs
    obtain ⟨c, hc⟩ := Option.isSome_iff_exists.mp (hr t.template.content ctx)
    simp only [ensureProtoFiles, Render, hc]
    split
    · exact ih fs
    · exact ih _

theorem renderAll_total (env : Env) (ctx : RenderContext) (ts : List ResolvedTarget)
    (hr : ∀ t c, (env.render t c).isSome = true) :
    ∃ gts, renderAll env ctx ts = .ok gts := by
  induction ts with
  | nil => exact ⟨[], rfl⟩
  | cons t ts ih =>
    obtain ⟨c, hc⟩ := Option.isSome_iff_exists.mp (hr t.template.content ctx)
    obtain ⟨gts, hg⟩ := ih
    exact ⟨⟨t.outputPath, c⟩ :: gts, by simp only [renderAll, Render, hc, hg]⟩

/-- A run with a renderer that renders every template and a compiler that succeeds, on any
project and any template tree: the machine it ends in. -/
theorem run_success (env : Env) (i : RunInput) (fs : ProjectFS)
    (hr : ∀ t c, (env.render t c).isSome = true)
    (hc : ∀ c fs, env.compile c fs = none) :
    ∃ gts, renderAll env (renderContext env i) (targetsUnder env i .ServerDir) = .ok gts ∧
      run env i fs =
        ⟨.Done,
         (writeAll (ensureProtoFiles env (renderContext env i) fs
            (targetsUnder env i .ProtoDir)).1 ⟨[], [], none⟩ gts).1,
         (writeAll (ensureProtoFiles env (renderContext env i) fs
            (targetsUnder env i .ProtoDir)).1 ⟨[], [], none⟩ gts).2⟩ := by
  obtain ⟨gts, hg⟩ := renderAll_total env (renderContext env i) (targetsUnder env i .ServerDir) hr
  refine ⟨gts, hg, ?_⟩
  rw [run_unfold]
  have hE := ensure_total env (renderContext env i) (targetsUnder env i .ProtoDir) hr fs
  rcases hEq : ensureProtoFiles env (renderContext env i) fs (targetsUnder env i .ProtoDir)
    with ⟨fs1, err⟩
  rw [hEq] at hE
  simp only at hE
  subst hE
  simp only [hc, hg]

theorem writeAll_err (ts : List GenerationTarget) :
    ∀ (fs : ProjectFS) (r : RunResult), (writeAll fs r ts).2.err = r.err := by
  induction ts with
  | nil => intro fs r; rfl
  | cons t ts ih =>
    intro fs r
    simp only [writeAll]
    rw [ih]
    cases (Write fs t).2 <;> rfl

/-- C8 (as amended): generation is idempotent. On any project and over any template tree
(method names accepted, renderer succeeding, compiler succeeding both times), the first run
ends in `Done`, after it every resolved target exists, and a second run with identical
arguments ends in `Done` on the very same files with the same contents, writes nothing and
records as skipped, in order, exactly the targets of `GenerateSources` (those under the
server dir: the server, register-funcs and test files); the proto file is left untouched
by `EnsureProtoFile`, which records nothing. -/
theorem generation_is_idempotent (env : Env) (o : RunOptions) (p : String)
    (methods : List String) (specs : List MethodSpec) (fs₀ : ProjectFS)
    (hr : ∀ t c, (env.render t c).isSome = true)
    (hc : ∀ c fs, env.compile c fs = none)
    (hm : ClassifyMethods env.catalog (effectiveMethods env.catalog methods) = .ok specs) :
    ∃ m₁ m₂, generate env o p methods fs₀ = .ok m₁ ∧
      generate env o p methods m₁.fs = .ok m₂ ∧
      m₁.state = .Done ∧ m₂.state = .Done ∧ m₂.result.err = none ∧
      m₂.fs = m₁.fs ∧
      m₂.result.written = [] ∧
      m₂.result.skipped =
        ((ResolveTargets (DeriveNameSet p o.resourceName) o env.templates).filter
          (fun t => t.template.root = .ServerDir)).map (fun t => t.outputPath) ∧
      (∀ t ∈ ResolveTargets (DeriveNameSet p o.resourceName) o env.templates,
        t.outputPath ∈ filePaths m₁.fs) := by
  obtain ⟨gts, hg, hrun₁⟩ := run_success env ⟨DeriveNameSet p o.resourceName, specs, o⟩ fs₀ hr hc
  have hpaths := renderAll_paths env _ _ gts hg
  -- after the first run every target exists
  have hproto : ∀ t ∈ targetsUnder env ⟨DeriveNameSet p o.resourceName, specs, o⟩ .ProtoDir,
      fileExists (run env ⟨DeriveNameSet p o.resourceName, specs, o⟩ fs₀).fs t.outputPath
        = true := by
    intro t ht
    rw [hrun₁]
    exact writeAll_mono gts _ _ _
      (ensure_exists env _ _ fs₀ (ensure_total env _ _ hr fs₀) t ht)
  have hserver : ∀ g ∈ gts,
      fileExists (run env ⟨DeriveNameSet p o.resourceName, specs, o⟩ fs₀).fs g.outputPath
        = true := by
    intro g hg'
    rw [hrun₁]
    exact writeAll_exists gts _ _ g hg'
  obtain ⟨gts₂, hg₂, hrun₂⟩ := run_success env ⟨DeriveNameSet p o.resourceName, specs, o⟩
    (run env ⟨DeriveNameSet p o.resourceName, specs, o⟩ fs₀).fs hr hc
  rw [hg] at hg₂
  cases hg₂
  rw [ensure_of_exist env _ _ _ hproto, writeAll_of_exist gts _ _ hserver] at hrun₂
  refine ⟨_, _, generate_of_classified env o p methods fs₀ specs hm,
    generate_of_classified env o p methods _ specs hm, ?_, ?_, ?_, ?_, ?_, ?_, ?_⟩
  · rw [hrun₁]
  · rw [hrun₂]
  · rw [hrun₂]
  · rw [hrun₂]
  · rw [hrun₂]
  · rw [hrun₂]
    simp only [List.nil_append, hpaths]
    rfl
  · intro t ht
    rw [← fileExists_iff]
    cases hroot : t.template.root
    · exact hproto t (by simp [targetsUnder, ht, hroot])
    · have hmem : t.outputPath ∈ gts.map (fun g => g.outputPath) := by
        rw [hpaths]
        exact List.mem_map.mpr ⟨t, by simp [targetsUnder, ht, hroot], rfl⟩
      obtain ⟨g, hg', hgp⟩ := List.mem_map.mp hmem
      rw [← hgp]
      exact hserver g hg'

/-- C8, at `foo` in the sample environment: the second run leaves the four files of the
first with their contents, writes nothing and skips the three source targets. -/
theorem generation_is_idempotent_witness :
    ((generate sampleEnv defaultOptions "foo" [] []).toOption.bind
        (fun m₁ => (generate sampleEnv defaultOptions "foo" [] m₁.fs).toOption)).map
        (fun m₂ => (m₂.fs, m₂.result.written, m₂.result.skipped)) =
      some ([ ("api/protos/foo.proto", "proto:Foo"), ("app/server/foo_server.go", "server:Foo"),
              ("app/server/foo_server_register_funcs.go", "register:Foo"),
              ("app/server/foo_server_test.go", "test:Foo") ],
            [],
            [ "app/server/foo_server.go", "app/server/foo_server_register_funcs.go",
              "app/server/foo_server_test.go" ]) ∧
    ∃ m₁ m₂, generate sampleEnv defaultOptions "foo" [] [] = .ok m₁ ∧
      generate sampleEnv defaultOptions "foo" [] m₁.fs = .ok m₂ ∧
      m₁.state = .Done ∧ m₂.state = .Done ∧ m₂.result.err = none ∧
      m₂.fs = m₁.fs ∧
      m₂.result.written = [] ∧
      m₂.result.skipped =
        ((ResolveTargets (DeriveNameSet "foo" defaultOptions.resourceName) defaultOptions
          sampleEnv.templates).filter
          (fun t => t.template.root = .ServerDir)).map (fun t => t.outputPath) ∧
      (∀ t ∈ ResolveTargets (DeriveNameSet "foo" defaultOptions.resourceName) defaultOptions
          sampleEnv.templates,
        t.outputPath ∈ filePaths m₁.fs) :=
  ⟨by decide,
    generation_is_idempotent sampleEnv defaultOptions "foo" [] [] [] (fun _ _ => rfl)
      (fun _ _ => rfl) rfl⟩

/-- C8, the claim as stated fails: at `foo` in the sample environment, on an empty project,
both runs end in `Done` and the second writes nothing, but it reports three of the four
resolved targets as skipped: the proto target `api/protos/foo.proto`, which exists and is
left untouched, is not in the skipped list, so not every target is reported as skipped. -/
theorem generation_is_idempotent_counterexample :
    (ResolveTargets (DeriveNameSet "foo" defaultOptions.resourceName) defaultOptions
        sampleEnv.templates).map (fun t => t.outputPath) =
      [ "api/protos/foo.proto", "app/server/foo_server.go",
        "app/server/foo_server_register_funcs.go", "app/server/foo_server_test.go" ] ∧
    (generate sampleEnv defaultOptions "foo" [] []).toOption.map (fun m₁ => m₁.state) =
      some .Done ∧
    ((generate sampleEnv defaultOptions "foo" [] []).toOption.bind
        (fun m₁ => (generate sampleEnv defaultOptions "foo" [] m₁.fs).toOption)).map
        (fun m₂ => (m₂.state, m₂.result.written, m₂.result.skipped)) =
      some (.Done, [],
        [ "app/server/foo_server.go", "app/server/foo_server_register_funcs.go",
          "app/server/foo_server_test.go" ]) ∧
    ¬ (∀ m₁ m₂, generate sampleEnv defaultOptions "foo" [] [] = .ok m₁ →
        generate sampleEnv defaultOptions "foo" [] m₁.fs = .ok m₂ →
        ∀ t ∈ ResolveTargets (DeriveNameSet "foo" defaultOptions.resourceName) defaultOptions
            sampleEnv.templates,
          t.outputPath ∈ m₂.result.skipped) := by
  refine ⟨by decide, by decide, by decide, ?_⟩
  intro h
  have hmem := h (run sampleEnv ⟨DeriveNameSet "foo" none, [], defaultOptions⟩ [])
    (run sampleEnv ⟨DeriveNameSet "foo" none, [], defaultOptions⟩
      (run sampleEnv ⟨DeriveNameSet "foo" none, [], defaultOptions⟩ []).fs)
    rfl rfl ⟨protoTemplate sampleBytes, "api/protos/foo.proto"⟩ (by decide)
  revert hmem
  decide


theorem trace_compiler_error (env : Env) (i : RunInput) (fs : ProjectFS) (e : String)
    (hr : ∀ t c, (env.render t c).isSome = true)
    (hfail : ∀ c fs, env.compile c fs = some e) :
    trace env i runFuel (initial fs) =
      [ initial fs,
        ⟨.EnsureProtoFile, fs, ⟨[], [], none⟩⟩,
        ⟨.InvokeCompiler, (ensureProtoFiles env (renderContext env i) fs
            (targetsUnder env i .ProtoDir)).1, ⟨[], [], none⟩⟩,
        ⟨.Failed, (ensureProtoFiles env (renderContext env i) fs
            (targetsUnder env i .ProtoDir)).1, ⟨[], [], some (.compiler e)⟩⟩ ] := by
  have hE := ensure_total env (renderContext env i) (targetsUnder env i .ProtoDir) hr fs
  rcases hEq : ensureProtoFiles env (renderContext env i) fs (targetsUnder env i .ProtoDir)
    with ⟨fs1, err⟩
  rw [hEq] at hE
  simp only at hE
  subst hE
  simp [trace, runFuel, initial, step, State.isTerminal, hEq, hfail]

/-- C9: if the injected compiler's invocation returns an error `e`, the run goes
`Start`, `EnsureProtoFile`, `InvokeCompiler`, `Failed` and never enters `GenerateSources`:
the result reports no written and no skipped file and its error is the compiler's error
`e`; the project holds what `EnsureProtoFile` left, so none of the three source files
(server, register-funcs, test) is created. With the compiler returning nil, as the fake
compiler of the test does, the same run reaches `Done` with a nil error. (Method names
accepted, renderer succeeding, service templates.) -/
theorem compiler_error_fails_run (env : Env) (b : TemplateBytes) (o : RunOptions)
    (p : String) (methods : List String) (specs : List MethodSpec) (fs₀ : ProjectFS)
    (e : String)
    (ht : env.templates = serviceTemplates b)
    (hr : ∀ t c, (env.render t c).isSome = true)
    (hm : ClassifyMethods env.catalog (effectiveMethods env.catalog methods) = .ok specs)
    (hfail : ∀ c fs, env.compile c fs = some e) :
    (∃ m, generate env o p methods fs₀ = .ok m ∧
      m.state = .Failed ∧ m.result.err = some (.compiler e) ∧
      m.result.written = [] ∧ m.result.skipped = [] ∧
      (trace env ⟨DeriveNameSet p o.resourceName, specs, o⟩ runFuel (initial fs₀)).map
          (fun k => k.state) =
        [.Start, .EnsureProtoFile, .InvokeCompiler, .Failed] ∧
      m.fs = (ensureProtoFiles env
          (renderContext env ⟨DeriveNameSet p o.resourceName, specs, o⟩) fs₀
          (targetsUnder env ⟨DeriveNameSet p o.resourceName, specs, o⟩ .ProtoDir)).1 ∧
      (∀ t ∈ ResolveTargets (DeriveNameSet p o.resourceName) o env.templates,
        t.template.root = .ServerDir → t.outputPath ∈ filePaths m.fs →
          t.outputPath ∈ filePaths fs₀)) ∧
    (∃ m, generate { env with compile := fakeProtocWrapper } o p methods fs₀ = .ok m ∧
      m.state = .Done ∧ m.result.err = none) := by
  constructor
  · have htr := trace_compiler_error env ⟨DeriveNameSet p o.resourceName, specs, o⟩ fs₀ e
      hr hfail
    have hrun : run env ⟨DeriveNameSet p o.resourceName, specs, o⟩ fs₀ =
        ⟨.Failed, (ensureProtoFiles env
          (renderContext env ⟨DeriveNameSet p o.resourceName, specs, o⟩) fs₀
          (targetsUnder env ⟨DeriveNameSet p o.resourceName, specs, o⟩ .ProtoDir)).1,
          ⟨[], [], some (.compiler e)⟩⟩ := by
      simp [run, htr, List.getLastD]
    refine ⟨_, generate_of_classified env o p methods fs₀ specs hm, ?_⟩
    rw [hrun, htr]
    refine ⟨rfl, rfl, rfl, rfl, by simp [initial], rfl, ?_⟩
    intro t hmem hroot hin
    rcases ensure_subset env _ _ fs₀ _ hin with h | h
    · exact h
    · exfalso
      rw [targets_proto env _ b ht] at h
      simp only [List.map_cons, List.map_nil, List.mem_singleton] at h
      rw [ht, resolve_service] at hmem
      simp only [List.mem_append, List.mem_cons, List.mem_nil_iff, or_false] at hmem
      rcases hmem with (rfl | rfl | rfl) | hmem
      · simp [protoTemplate] at hroot
      · exact claimed_ne _ _ _ _ _ _ "_server.go" ".proto" (by decide) h
      · exact claimed_ne _ _ _ _ _ _ "_server_register_funcs.go" ".proto" (by decide) h
      · split at hmem
        · cases hmem
        · rw [List.mem_singleton] at hmem
          subst hmem
          exact claimed_ne _ _ _ _ _ _ "_server_test.go" ".proto" (by decide) h
  · obtain ⟨gts, -, hrun⟩ := run_success { env with compile := fakeProtocWrapper }
      ⟨DeriveNameSet p o.resourceName, specs, o⟩ fs₀ hr (fun _ _ => rfl)
    refine ⟨_, generate_of_classified { env with compile := fakeProtocWrapper } o p methods
      fs₀ specs hm, ?_⟩
    rw [hrun]
    exact ⟨rfl, by rw [writeAll_err]⟩

/-- C9, at `foo` on an empty project with a compiler that fails with `boom` in the sample
environment: only the proto file exists, nothing is recorded, the error is `boom`. -/
theorem compiler_error_fails_run_witness :
    (generate { sampleEnv with compile := fun _ _ => some "boom" } defaultOptions "foo" []
        []).toOption =
      some ⟨.Failed, [("api/protos/foo.proto", "proto:Foo")],
        ⟨[], [], some (.compiler "boom")⟩⟩ ∧
    (∃ m, generate { sampleEnv with compile := fun _ _ => some "boom" } defaultOptions "foo"
        [] [] = .ok m ∧
      m.state = .Failed ∧ m.result.err = some (.compiler "boom") ∧
      m.result.written = [] ∧ m.result.skipped = []) ∧
    (∃ m, generate sampleEnv defaultOptions "foo" [] [] = .ok m ∧
      m.state = .Done ∧ m.result.err = none) :=
  have h := compiler_error_fails_run { sampleEnv with compile := fun _ _ => some "boom" }
    sampleBytes defaultOptions "foo" [] [] [] "boom" rfl (fun _ _ => rfl) rfl
    (fun _ _ => rfl)
  ⟨by decide,
    h.1.imp (fun _ hm => ⟨hm.1, hm.2.1, hm.2.2.1, hm.2.2.2.1, hm.2.2.2.2.1⟩),
    h.2⟩

end Svcgen

namespace Template

/-! ## The template file system -/

theorem FS_get (k : String) :
    FS.get k =
      if k = "/" then some (.dirInfo rootDir)
      else if k = "/cmd" then some (.dirInfo cmdDir)
      else if k = "/cmd/\x7b\x7b .name \x7d\x7d" then some (.dirInfo nameDir)
      else if k = "/cmd/\x7b\x7b .name \x7d\x7d/run.go.tmpl" then some (.fileInfo runGoTmpl)
      else none := by
  unfold FS vfsgenFS.get
  by_cases h1 : k = "/"
  · subst h1; rfl
  · by_cases h2 : k = "/cmd"
    · subst h2; rfl
    · by_cases h3 : k = "/cmd/\x7b\x7b .name \x7d\x7d"
      · subst h3; rfl
      · by_cases h4 : k = "/cmd/\x7b\x7b .name \x7d\x7d/run.go.tmpl"
        · subst h4; rfl
        · have e1 : ("/" == k) = false := by simpa using fun h => h1 h.symm
          have e2 : ("/cmd" == k) = false := by simpa using fun h => h2 h.symm
          have e3 : ("/cmd/\x7b\x7b .name \x7d\x7d" == k) = false := by
            simpa using fun h => h3 h.symm
          have e4 : ("/cmd/\x7b\x7b .name \x7d\x7d/run.go.tmpl" == k) = false := by
            simpa using fun h => h4 h.symm
          simp only [List.find?, e1, e2, e3, e4, h1, h2, h3, h4, if_false, Option.map]

theorem splitSlash_no_slash (l : List Char) : ∀ e ∈ splitSlash l, '/' ∉ e := by
  induction l with
  | nil => intro e he; simp [splitSlash] at he; simp [he]
  | cons c cs ih =>
    intro e he
    simp only [splitSlash] at he
    split at he
    · rcases List.mem_cons.mp he with rfl | h
      · simp
      · exact ih e h
    · rename_i hc
      split at he
      · simp only [List.mem_singleton] at he
        subst he
        simpa using fun h => hc h.symm
      · rename_i s ss hs
        rcases List.mem_cons.mp he with rfl | h
        · have := ih s (by rw [hs]; exact List.mem_cons_self _ _)
          simp only [List.mem_cons, not_or]
          exact ⟨fun h => hc h.symm, this⟩
        · exact ih e (by rw [hs]; exact List.mem_cons_of_mem _ h)

theorem cleanStep_rooted_proper (out : List (List Char)) (elem : List Char)
    (ho : ∀ e ∈ out, ProperElem e) (he : '/' ∉ elem) :
    ∀ e ∈ cleanStep true out elem, ProperElem e := by
  unfold cleanStep
  split
  · exact ho
  · rename_i h1
    simp only [not_or] at h1
    split
    · split
      · simp
      · rename_i top rest
        split
        · rename_i htop
          exact absurd htop (ho top (List.mem_cons_self _ _)).2.2.1
        · exact fun e h => ho e (List.mem_cons_of_mem _ h)
    · rename_i h2
      intro e h
      rcases List.mem_cons.mp h with rfl | h
      · exact ⟨h1.1, h1.2, h2, he⟩
      · exact ho e h

theorem foldl_cleanStep_proper (elems : List (List Char)) :
    ∀ out : List (List Char), (∀ e ∈ out, ProperElem e) → (∀ e ∈ elems, '/' ∉ e) →
      ∀ e ∈ elems.foldl (cleanStep true) out, ProperElem e := by
  induction elems with
  | nil => intro out ho _; exact ho
  | cons x xs ih =>
    intro out ho he
    simp only [List.foldl_cons]
    exact ih _ (cleanStep_rooted_proper out x ho (he x (List.mem_cons_self _ _)))
      (fun e h => he e (List.mem_cons_of_mem _ h))

theorem cleanElems_rooted_proper (l : List Char) : ∀ e ∈ cleanElems true l, ProperElem e := by
  intro e he
  simp only [cleanElems, List.mem_reverse] at he
  exact foldl_cleanStep_proper _ [] (by simp) (splitSlash_no_slash l) e he

theorem Clean_rooted (p : String) :
    Clean ("/" ++ p) = ⟨'/' :: joinSlash (cleanElems true p.data)⟩ := by
  have h : ("/" ++ p).data = '/' :: p.data := by
    rw [String.data_append]; rfl
  simp only [Clean, h, if_true]


/-- C10: the template file system is keyed by cleaned absolute path. The keys of `FS` are
`/`, `/cmd`, `/cmd/{{ .name }}` and `/cmd/{{ .name }}/run.go.tmpl`; for every string `p`,
`Open p` looks up `path.Clean("/" + p)`: a directory key yields a directory handle on that
node at position 0, the file key a file handle on the file, and any other path a nil file
with the `*os.PathError` of Op `open`, Path the cleaned path and Err `os.ErrNotExist`; so
`Open` succeeds if and only if the cleaned path is a key. `cmd`, `/cmd`, `/cmd/` and
`/../cmd` open the same directory node, and the cleaned path is always rooted with no `..`
element, so `..` cannot reach outside the tree. -/
theorem Open_keyed_by_cleaned_path (p : String) :
    FS.keys =
      [ "/", "/cmd", "/cmd/\x7b\x7b .name \x7d\x7d",
        "/cmd/\x7b\x7b .name \x7d\x7d/run.go.tmpl" ] ∧
    FS.Open p =
      (if Clean ("/" ++ p) = "/" then .dir ⟨rootDir, 0⟩
       else if Clean ("/" ++ p) = "/cmd" then .dir ⟨cmdDir, 0⟩
       else if Clean ("/" ++ p) = "/cmd/\x7b\x7b .name \x7d\x7d" then .dir ⟨nameDir, 0⟩
       else if Clean ("/" ++ p) = "/cmd/\x7b\x7b .name \x7d\x7d/run.go.tmpl" then
         .file ⟨runGoTmpl, runGoTmpl.content, 0⟩
       else .error ⟨"open", Clean ("/" ++ p), ErrNotExist⟩) ∧
    (((∃ f, FS.Open p = .file f) ∨ (∃ d, FS.Open p = .dir d)) ↔ Clean ("/" ++ p) ∈ FS.keys) ∧
    (Clean ("/" ++ p) ∉ FS.keys ↔
      FS.Open p = .error ⟨"open", Clean ("/" ++ p), ErrNotExist⟩) ∧
    (∀ msg, FS.Open p ≠ .panic msg) ∧
    FS.Open "cmd" = .dir ⟨cmdDir, 0⟩ ∧ FS.Open "/cmd" = .dir ⟨cmdDir, 0⟩ ∧
    FS.Open "/cmd/" = .dir ⟨cmdDir, 0⟩ ∧ FS.Open "/../cmd" = .dir ⟨cmdDir, 0⟩ ∧
    (∃ es, Clean ("/" ++ p) = ⟨'/' :: joinSlash es⟩ ∧ ∀ e ∈ es, ProperElem e) := by
  have hkeys : FS.keys =
      [ "/", "/cmd", "/cmd/\x7b\x7b .name \x7d\x7d",
        "/cmd/\x7b\x7b .name \x7d\x7d/run.go.tmpl" ] := rfl
  have hopen : FS.Open p =
      (if Clean ("/" ++ p) = "/" then .dir ⟨rootDir, 0⟩
       else if Clean ("/" ++ p) = "/cmd" then .dir ⟨cmdDir, 0⟩
       else if Clean ("/" ++ p) = "/cmd/\x7b\x7b .name \x7d\x7d" then .dir ⟨nameDir, 0⟩
       else if Clean ("/" ++ p) = "/cmd/\x7b\x7b .name \x7d\x7d/run.go.tmpl" then
         .file ⟨runGoTmpl, runGoTmpl.content, 0⟩
       else .error ⟨"open", Clean ("/" ++ p), ErrNotExist⟩) := by
    simp only [vfsgenFS.Open, FS_get]
    split_ifs <;> rfl
  refine ⟨hkeys, hopen, ?_, ?_, ?_, rfl, rfl, rfl, rfl,
    ⟨_, Clean_rooted p, cleanElems_rooted_proper p.data⟩⟩
  · rw [hopen, hkeys]
    simp only [List.mem_cons, List.mem_nil_iff, or_false]
    split_ifs <;> simp [*]
  · rw [hopen, hkeys]
    simp only [List.mem_cons, List.mem_nil_iff, or_false]
    split_ifs <;> simp [*]
  · intro msg
    rw [hopen]
    split_ifs <;> simp

/-- C10, at `/../cmd/./{{ .name }}/run.go.tmpl` and at `cmd/missing`: the first opens the
template file, the second is a not-exist error on the cleaned path `/cmd/missing`. -/
theorem Open_keyed_by_cleaned_path_witness :
    Clean ("/" ++ "/../cmd/./\x7b\x7b .name \x7d\x7d/run.go.tmpl") =
      "/cmd/\x7b\x7b .name \x7d\x7d/run.go.tmpl" ∧
    FS.Open "/../cmd/./\x7b\x7b .name \x7d\x7d/run.go.tmpl" =
      .file ⟨runGoTmpl, runGoTmpl.content, 0⟩ ∧
    FS.Open "cmd/missing" = .error ⟨"open", "/cmd/missing", ErrNotExist⟩ ∧
    (((∃ f, FS.Open "cmd/missing" = .file f) ∨ (∃ d, FS.Open "cmd/missing" = .dir d)) ↔
      Clean ("/" ++ "cmd/missing") ∈ FS.keys) :=
  ⟨by decide, rfl, rfl, (Open_keyed_by_cleaned_path "cmd/missing").2.2.1⟩


/-! ## Opened directories -/

theorem sliceEntries_of_le (entries : List FileInfo) (lo hi : Int)
    (h0 : 0 ≤ lo) (h1 : lo ≤ hi) (h2 : hi ≤ entries.length) :
    sliceEntries entries lo hi = some ((entries.drop lo.toNat).take (hi - lo).toNat) := by
  simp [sliceEntries, h0, h1, h2]

/-- What `Readdir` does on a handle whose cursor is in range. -/
theorem Readdir_inRange (d : vfsgenDir) (count : Int) (h : d.InRange) :
    d.Readdir count =
      if d.pos ≥ d.info.entries.length ∧ count > 0 then
        .ret { entries := none, err := some EOF, dir := d }
      else if count ≤ 0 ∨ count > d.info.entries.length - d.pos then
        .ret { entries := some (d.info.entries.drop d.pos.toNat), err := none,
               dir := { d with pos := d.info.entries.length } }
      else
        .ret { entries := some ((d.info.entries.drop d.pos.toNat).take count.toNat),
               err := none, dir := { d with pos := d.pos + count } } := by
  obtain ⟨h0, h1⟩ := h
  unfold vfsgenDir.Readdir
  split
  · rfl
  · split
    · dsimp only
      rw [sliceEntries_of_le d.info.entries d.pos _ h0 (by omega) (by omega)]
      have e1 : d.pos + (↑d.info.entries.length - d.pos) = d.info.entries.length := by omega
      have e2 : (d.pos + (↑d.info.entries.length - d.pos) - d.pos).toNat =
          d.info.entries.length - d.pos.toNat := by omega
      simp only [e1, e2]
      congr 2
      rw [List.take_of_length_le]
      simp only [List.length_drop]
      omega
    · rename_i hc
      simp only [not_or, not_le, not_lt] at hc
      dsimp only
      rw [sliceEntries_of_le d.info.entries d.pos _ h0 (by omega) (by omega)]
      have e2 : (d.pos + count - d.pos).toNat = count.toNat := by
        congr 1; omega
      simp only [e2]


/-- One `Readdir` call on a handle whose cursor is in range: it returns, the cursor moves
forward and stays in range, and the slice returned is the stretch of entries the cursor
moved over. -/
theorem Readdir_step (d : vfsgenDir) (count : Int) (h : d.InRange) :
    ∃ r, d.Readdir count = .ret r ∧ r.dir.info = d.info ∧ r.dir.InRange ∧
      d.pos ≤ r.dir.pos ∧
      r.entries.getD [] =
        (d.info.entries.drop d.pos.toNat).take (r.dir.pos - d.pos).toNat ∧
      (count ≤ 0 ∨ r.err = some EOF → r.dir.pos = d.info.entries.length) := by
  have hR := Readdir_inRange d count h
  obtain ⟨h0, h1⟩ := h
  by_cases hE : d.pos ≥ d.info.entries.length ∧ count > 0
  · rw [if_pos hE] at hR
    refine ⟨_, hR, rfl, ⟨h0, h1⟩, le_refl _, ?_, ?_⟩
    · simp
    · intro _
      show d.pos = _
      omega
  · rw [if_neg hE] at hR
    by_cases hA : count ≤ 0 ∨ count > d.info.entries.length - d.pos
    · rw [if_pos hA] at hR
      refine ⟨_, hR, rfl, ⟨Int.natCast_nonneg _, le_refl _⟩, h1, ?_, fun _ => rfl⟩
      show d.info.entries.drop d.pos.toNat = _
      rw [List.take_of_length_le]
      simp only [List.length_drop]
      omega
    · rw [if_neg hA] at hR
      simp only [not_or, not_le, not_lt] at hA
      refine ⟨_, hR, rfl,
        ⟨by show 0 ≤ d.pos + count; omega,
         by show d.pos + count ≤ (d.info.entries.length : Int); omega⟩,
        by show d.pos ≤ d.pos + count; omega, ?_, ?_⟩
      · show (d.info.entries.drop d.pos.toNat).take count.toNat = _
        congr 1
        show count.toNat = (d.pos + count - d.pos).toNat
        congr 1
        omega
      · intro hc
        rcases hc with hc | hc
        · omega
        · cases hc

/-- A sequence of `Readdir` calls on a handle whose cursor is in range: no call panics, the
cursor moves forward and stays in range, and the slices returned, concatenated, are the
stretch of entries the cursor moved over; after a call with a count `<= 0` or a call that
returned `io.EOF` the cursor is at the end. -/
theorem readdirs_spec (cs : List Int) :
    ∀ d : vfsgenDir, d.InRange →
      ∃ rs d', d.readdirs cs = some (rs, d') ∧ rs.length = cs.length ∧
        d'.info = d.info ∧ d'.InRange ∧ d.pos ≤ d'.pos ∧
        concatEntries rs = (d.info.entries.drop d.pos.toNat).take (d'.pos - d.pos).toNat ∧
        ((∃ c ∈ cs, c ≤ 0) ∨ (∃ r ∈ rs, r.err = some EOF) →
          d'.pos = d.info.entries.length) := by
  induction cs with
  | nil =>
    intro d h
    exact ⟨[], d, rfl, rfl, rfl, h, le_refl _, by simp [concatEntries], by simp⟩
  | cons c cs ih =>
    intro d h
    obtain ⟨r, hr, hinfo, hin, hle, hent, hend⟩ := Readdir_step d c h
    obtain ⟨rs, d', hrs, hlen, hinfo', hin', hle', hcat, hend'⟩ := ih r.dir hin
    refine ⟨r :: rs, d', ?_, by simp [hlen], hinfo'.trans hinfo, hin', le_trans hle hle', ?_, ?_⟩
    · simp [vfsgenDir.readdirs, hr, hrs]
    · have h0 := h.1
      have hcat' : concatEntries (r :: rs) = r.entries.getD [] ++ concatEntries rs := by
        simp [concatEntries]
      rw [hcat', hent, hcat, hinfo]
      have e1 : (d'.pos - d.pos).toNat = (r.dir.pos - d.pos).toNat + (d'.pos - r.dir.pos).toNat := by
        omega
      have e2 : r.dir.pos.toNat = d.pos.toNat + (r.dir.pos - d.pos).toNat := by omega
      rw [e1, List.take_add, List.drop_drop, e2]
    · intro hcase
      have hfin : r.dir.pos = d.info.entries.length ∨ d'.pos = r.dir.info.entries.length := by
        rcases hcase with ⟨c', hc', hle0⟩ | ⟨r', hr', herr⟩
        · rcases List.mem_cons.mp hc' with rfl | hmem
          · exact Or.inl (hend (Or.inl hle0))
          · exact Or.inr (hend' (Or.inl ⟨c', hmem, hle0⟩))
        · rcases List.mem_cons.mp hr' with rfl | hmem
          · exact Or.inl (hend (Or.inr herr))
          · exact Or.inr (hend' (Or.inr ⟨r', hmem, herr⟩))
      rcases hfin with hfin | hfin
      · have := hin'.2
        rw [hinfo', hinfo] at this
        omega
      · rw [hfin, hinfo]


theorem Open_dir_fresh (fs : vfsgenFS) (p : String) (d : vfsgenDir)
    (h : fs.Open p = .dir d) : d.pos = 0 := by
  simp only [vfsgenFS.Open] at h
  split at h <;> cases h
  rfl

theorem Open_file_fresh (fs : vfsgenFS) (p : String) (f : vfsgenFile)
    (h : fs.Open p = .file f) : f.off = 0 ∧ f.reader = f.info.content := by
  simp only [vfsgenFS.Open] at h
  split at h <;> cases h
  exact ⟨rfl, rfl⟩

/-- C13: directory enumeration is ordered, complete and deterministic. On a freshly opened
directory handle (`pos = 0`, as `Open` returns it) with entry list `E`: `Readdir(n)` with
`n <= 0` returns exactly `E`; for every sequence of `Readdir` calls with arbitrary counts
no call panics and the slices returned, concatenated, are the first `pos` entries of `E`,
a prefix in stored order, which is all of `E` once a call had a count `<= 0` or returned
`io.EOF`; and two handles opened on the same path return identical results for the same
sequence. -/
theorem Readdir_enumerates_in_order (i : vfsgenDirInfo) (cs : List Int) (n : Int) :
    (n ≤ 0 → (vfsgenDir.mk i 0).Readdir n =
      .ret { entries := some i.entries, err := none, dir := ⟨i, i.entries.length⟩ }) ∧
    (∃ rs d', (vfsgenDir.mk i 0).readdirs cs = some (rs, d') ∧ rs.length = cs.length ∧
      d'.info = i ∧
      concatEntries rs = i.entries.take d'.pos.toNat ∧
      concatEntries rs <+: i.entries ∧
      ((∃ c ∈ cs, c ≤ 0) ∨ (∃ r ∈ rs, r.err = some EOF) → concatEntries rs = i.entries)) ∧
    (∀ (fs : vfsgenFS) (p : String) (d₁ d₂ : vfsgenDir),
      fs.Open p = .dir d₁ → fs.Open p = .dir d₂ →
        d₁.pos = 0 ∧ d₂.pos = 0 ∧ d₁.readdirs cs = d₂.readdirs cs) := by
  have hin : (vfsgenDir.mk i 0).InRange := ⟨le_refl _, Int.natCast_nonneg _⟩
  refine ⟨?_, ?_, ?_⟩
  · intro hn
    rw [Readdir_inRange _ n hin]
    have h1 : ¬ ((0 : Int) ≥ i.entries.length ∧ n > 0) := by omega
    simp [h1, hn]
  · obtain ⟨rs, d', hrs, hlen, hinfo, -, -, hcat, hend⟩ := readdirs_spec cs _ hin
    simp only [Int.toNat_zero, List.drop_zero, sub_zero] at hcat
    refine ⟨rs, d', hrs, hlen, hinfo, hcat, ?_, ?_⟩
    · rw [hcat]; exact List.take_prefix _ _
    · intro hcase
      rw [hcat, hend hcase]
      simp
  · intro fs p d₁ d₂ h₁ h₂
    rw [h₁] at h₂
    cases h₂
    exact ⟨Open_dir_fresh fs p d₁ h₁, Open_dir_fresh fs p d₁ h₁, rfl⟩

/-- C13, on the root directory of `FS` with the counts `1, 5, -1`: the first call returns
the one entry, the second `io.EOF`, the third an empty slice. -/
theorem Readdir_enumerates_in_order_witness :
    ((vfsgenDir.mk rootDir 0).readdirs [1, 5, -1]).map
        (fun r => (r.1.map (fun x => (x.entries.map (fun es => es.map FileInfo.Name), x.err)),
          r.2.pos)) =
      some ([(some ["cmd"], none), (none, some EOF), (some [], none)], 1) ∧
    (∃ rs d', (vfsgenDir.mk rootDir 0).readdirs [1, 5, -1] = some (rs, d') ∧
      rs.length = [(1 : Int), 5, -1].length ∧ d'.info = rootDir ∧
      concatEntries rs = rootDir.entries.take d'.pos.toNat ∧
      concatEntries rs <+: rootDir.entries ∧
      ((∃ c ∈ [(1 : Int), 5, -1], c ≤ 0) ∨ (∃ r ∈ rs, r.err = some EOF) →
        concatEntries rs = rootDir.entries)) :=
  ⟨by decide, (Readdir_enumerates_in_order rootDir [1, 5, -1] 0).2.1⟩

/-- C16: `Readdir` follows the end-of-directory contract of `os.File`. On a handle whose
cursor is in range: for `count > 0` it returns `(nil, io.EOF)` if and only if the cursor
is at the end of the entries, and otherwise a non-empty slice of exactly
`min(count, remaining)` entries, the next ones, with a nil error; for `count <= 0` it
returns all remaining entries with a nil error, an empty slice when none remain. -/
theorem Readdir_end_of_directory_contract (d : vfsgenDir) (count : Int) (h : d.InRange) :
    (0 < count →
      ((d.Readdir count = .ret { entries := none, err := some EOF, dir := d } ↔
          d.pos = d.info.entries.length) ∧
       (d.pos ≠ d.info.entries.length →
          ∃ es d', d.Readdir count = .ret { entries := some es, err := none, dir := d' } ∧
            es ≠ [] ∧ (es.length : Int) = min count (d.info.entries.length - d.pos) ∧
            es = (d.info.entries.drop d.pos.toNat).take count.toNat ∧
            d'.pos = d.pos + es.length))) ∧
    (count ≤ 0 →
      d.Readdir count =
        .ret { entries := some (d.info.entries.drop d.pos.toNat), err := none,
               dir := { d with pos := d.info.entries.length } } ∧
      (d.pos = d.info.entries.length → d.info.entries.drop d.pos.toNat = [])) := by
  have hR := Readdir_inRange d count h
  obtain ⟨h0, h1⟩ := h
  refine ⟨?_, ?_⟩
  · intro hc
    refine ⟨?_, ?_⟩
    · constructor
      · intro heq
        by_contra hne
        have hE : ¬ (d.pos ≥ d.info.entries.length ∧ count > 0) := by omega
        rw [if_neg hE] at hR
        rw [heq] at hR
        split at hR <;> cases hR
      · intro hpos
        rw [hR, if_pos ⟨by omega, hc⟩]
    · intro hne
      have hE : ¬ (d.pos ≥ d.info.entries.length ∧ count > 0) := by omega
      rw [if_neg hE] at hR
      by_cases hA : count ≤ 0 ∨ count > d.info.entries.length - d.pos
      · rw [if_pos hA] at hR
        have hlen : (d.info.entries.drop d.pos.toNat).length =
            d.info.entries.length - d.pos.toNat := List.length_drop _ _
        refine ⟨_, _, hR, ?_, ?_, ?_, ?_⟩
        · intro hnil
          rw [hnil] at hlen
          simp only [List.length_nil] at hlen
          omega
        · rw [hlen]; omega
        · rw [List.take_of_length_le]
          rw [hlen]; omega
        · show (d.info.entries.length : Int) = _
          rw [hlen]; omega
      · rw [if_neg hA] at hR
        simp only [not_or, not_le, not_lt] at hA
        have hlen : ((d.info.entries.drop d.pos.toNat).take count.toNat).length = count.toNat := by
          rw [List.length_take, List.length_drop]
          omega
        refine ⟨_, _, hR, ?_, ?_, rfl, ?_⟩
        · intro hnil
          rw [hnil] at hlen
          simp only [List.length_nil] at hlen
          omega
        · rw [hlen]; omega
        · show d.pos + count = _
          rw [hlen]; omega
  · intro hc
    have hE : ¬ (d.pos ≥ d.info.entries.length ∧ count > 0) := by omega
    rw [hR, if_neg hE, if_pos (Or.inl hc)]
    refine ⟨rfl, ?_⟩
    intro hpos
    apply List.drop_of_length_le
    omega

/-- C16, on the handle of `/cmd` at position 0 with count 7 and at position 1 with count
7. -/
theorem Readdir_end_of_directory_contract_witness :
    (vfsgenDir.mk cmdDir 0).InRange ∧ (vfsgenDir.mk cmdDir 1).InRange ∧
    (vfsgenDir.mk cmdDir 0).Readdir 7 =
      .ret { entries := some [.dir nameDir], err := none, dir := ⟨cmdDir, 1⟩ } ∧
    (vfsgenDir.mk cmdDir 1).Readdir 7 =
      .ret { entries := none, err := some EOF, dir := ⟨cmdDir, 1⟩ } ∧
    ((vfsgenDir.mk cmdDir 1).Readdir 7 =
        .ret { entries := none, err := some EOF, dir := ⟨cmdDir, 1⟩ } ↔
      (vfsgenDir.mk cmdDir 1).pos = (vfsgenDir.mk cmdDir 1).info.entries.length) :=
  ⟨by decide, by decide, rfl, rfl,
    ((Readdir_end_of_directory_contract ⟨cmdDir, 1⟩ 7 (by decide)).1 (by decide)).1⟩


/-! ## Calls -/

/-- What one call does to the state: the map stays, and the handles stay, or grow by the
handle `Open` returned, or have the cursor of the handle the call was made on replaced by
what `Readdir` or `Seek` left. -/
theorem call_effect (w : World) (c : Call) :
    (w.call c).1.fs = w.fs ∧
    ((w.call c).1.handles = w.handles ∨
     (∃ p h, c = .Open p ∧ (w.call c).1.handles = w.handles ++ [h] ∧
        ((∃ f, w.fs.Open p = .file f ∧ h = .file f) ∨
         (∃ d, w.fs.Open p = .dir d ∧ h = .dir d))) ∨
     (∃ i d count r, c = .Readdir i count ∧ w.handles[i]? = some (.dir d) ∧
        d.Readdir count = .ret r ∧ (w.call c).1.handles = w.handles.set i (.dir r.dir)) ∨
     (∃ i d offset whence, c = .Seek i offset whence ∧ w.handles[i]? = some (.dir d) ∧
        (w.call c).1.handles = w.handles.set i (.dir (d.Seek offset whence).2.2)) ∨
     (∃ i f offset whence, c = .Seek i offset whence ∧ w.handles[i]? = some (.file f) ∧
        (w.call c).1.handles = w.handles.set i (.file (f.Seek offset whence).2.2))) := by
  cases c with
  | Open p =>
    simp only [World.call]
    rcases hO : w.fs.Open p with f | d | e | msg
    · exact ⟨rfl, Or.inr (Or.inl ⟨p, .file f, rfl, rfl, Or.inl ⟨f, hO, rfl⟩⟩)⟩
    · exact ⟨rfl, Or.inr (Or.inl ⟨p, .dir d, rfl, rfl, Or.inr ⟨d, hO, rfl⟩⟩)⟩
    · exact ⟨rfl, Or.inl rfl⟩
    · exact ⟨rfl, Or.inl rfl⟩
  | Readdir i count =>
    simp only [World.call]
    rcases hh : w.handles[i]? with _ | (f | d)
    · exact ⟨rfl, Or.inl rfl⟩
    · exact ⟨rfl, Or.inl rfl⟩
    · simp only
      rcases hr : d.Readdir count with r | msg
      · exact ⟨rfl, Or.inr (Or.inr (Or.inl ⟨i, d, count, r, rfl, hh, hr, rfl⟩))⟩
      · exact ⟨rfl, Or.inl rfl⟩
  | Seek i offset whence =>
    simp only [World.call]
    rcases hh : w.handles[i]? with _ | (f | d)
    · exact ⟨rfl, Or.inl rfl⟩
    · exact ⟨rfl, Or.inr (Or.inr (Or.inr (Or.inr ⟨i, f, offset, whence, rfl, hh, rfl⟩)))⟩
    · exact ⟨rfl, Or.inr (Or.inr (Or.inr (Or.inl ⟨i, d, offset, whence, rfl, hh, rfl⟩)))⟩
  | Stat i | Name i | Size i | Mode i | ModTime i | IsDir i | Sys i =>
    simp only [World.call]
    rcases hh : w.handles[i]? with _ | (f | d) <;> exact ⟨rfl, Or.inl rfl⟩

theorem Handle.sameButCursor_refl (h : Handle) : h.SameButCursor h := by
  cases h <;> simp [Handle.SameButCursor]

theorem Handle.sameButCursor_trans (a b c : Handle) (h₁ : a.SameButCursor b)
    (h₂ : b.SameButCursor c) : a.SameButCursor c := by
  cases a <;> cases b <;> cases c <;> simp_all [Handle.SameButCursor]

theorem fileSeek_same (f : vfsgenFile) (offset whence : Int) :
    (f.Seek offset whence).2.2.info = f.info ∧ (f.Seek offset whence).2.2.reader = f.reader := by
  unfold vfsgenFile.Seek
  split_ifs <;> exact ⟨rfl, rfl⟩

theorem dirSeek_info (d : vfsgenDir) (offset whence : Int) :
    (d.Seek offset whence).2.2.info = d.info := by
  unfold vfsgenDir.Seek
  split_ifs <;> rfl

theorem Readdir_info (d : vfsgenDir) (count : Int) (r : ReaddirReturn)
    (h : d.Readdir count = .ret r) : r.dir.info = d.info := by
  unfold vfsgenDir.Readdir at h
  split at h
  · cases h; rfl
  · dsimp only at h
    split at h
    · cases h
    · cases h; rfl

/-- One call leaves every handle in place, on the same node, and leaves every handle it
was not made on as it is. -/
theorem call_handles (w : World) (c : Call) (i : Nat) (h : Handle)
    (hh : w.handles[i]? = some h) :
    (∃ h', (w.call c).1.handles[i]? = some h' ∧ h.SameButCursor h') ∧
    (c.target ≠ some i → (w.call c).1.handles[i]? = some h) := by
  have hi : i < w.handles.length := by
    rcases Nat.lt_or_ge i w.handles.length with hlt | hge
    · exact hlt
    · rw [List.getElem?_eq_none hge] at hh; cases hh
  obtain ⟨-, heff⟩ := call_effect w c
  rcases heff with he | ⟨p, h₀, rfl, he, -⟩ | ⟨j, d, count, r, rfl, hj, hr, he⟩ |
    ⟨j, d, offset, whence, rfl, hj, he⟩ | ⟨j, f, offset, whence, rfl, hj, he⟩
  · rw [he]
    exact ⟨⟨h, hh, h.sameButCursor_refl⟩, fun _ => hh⟩
  · rw [he, List.getElem?_append_left hi]
    exact ⟨⟨h, hh, h.sameButCursor_refl⟩, fun _ => hh⟩
  · rw [he]
    by_cases hij : j = i
    · subst hij
      rw [hh] at hj
      cases hj
      refine ⟨⟨.dir r.dir, by simp [hi], ?_⟩, fun hne => absurd rfl hne⟩
      simp [Handle.SameButCursor, Readdir_info d count r hr]
    · rw [List.getElem?_set_ne hij]
      exact ⟨⟨h, hh, h.sameButCursor_refl⟩, fun _ => hh⟩
  · rw [he]
    by_cases hij : j = i
    · subst hij
      rw [hh] at hj
      cases hj
      refine ⟨⟨.dir (d.Seek offset whence).2.2, by simp [hi], ?_⟩, fun hne => absurd rfl hne⟩
      simp [Handle.SameButCursor, dirSeek_info]
    · rw [List.getElem?_set_ne hij]
      exact ⟨⟨h, hh, h.sameButCursor_refl⟩, fun _ => hh⟩
  · rw [he]
    by_cases hij : j = i
    · subst hij
      rw [hh] at hj
      cases hj
      refine ⟨⟨.file (f.Seek offset whence).2.2, by simp [hi], ?_⟩, fun hne => absurd rfl hne⟩
      simp [Handle.SameButCursor, fileSeek_same]
    · rw [List.getElem?_set_ne hij]
      exact ⟨⟨h, hh, h.sameButCursor_refl⟩, fun _ => hh⟩

/-- A sequence of calls leaves the map as it is and every handle in place on the same
node. -/
theorem calls_frame (cs : List Call) :
    ∀ w : World, (w.calls cs).1.fs = w.fs ∧
      ∀ (i : Nat) (h : Handle), w.handles[i]? = some h →
        ∃ h', (w.calls cs).1.handles[i]? = some h' ∧ h.SameButCursor h' := by
  induction cs with
  | nil => intro w; exact ⟨rfl, fun i h hh => ⟨h, hh, h.sameButCursor_refl⟩⟩
  | cons c cs ih =>
    intro w
    obtain ⟨hfs, hhs⟩ := ih (w.call c).1
    refine ⟨?_, ?_⟩
    · show ((w.call c).1.calls cs).1.fs = w.fs
      rw [hfs, (call_effect w c).1]
    · intro i h hh
      obtain ⟨h₁, hh₁, hs₁⟩ := (call_handles w c i h hh).1
      obtain ⟨h₂, hh₂, hs₂⟩ := hhs i h₁ hh₁
      exact ⟨h₂, hh₂, Handle.sameButCursor_trans _ _ _ hs₁ hs₂⟩


theorem FS_Open_cases (p : String) :
    (∃ f, FS.Open p = .file f) ∨ (∃ d, FS.Open p = .dir d) ∨
      FS.Open p = .error ⟨"open", Clean ("/" ++ p), ErrNotExist⟩ := by
  simp only [vfsgenFS.Open, FS_get]
  split_ifs
  · exact Or.inr (Or.inl ⟨_, rfl⟩)
  · exact Or.inr (Or.inl ⟨_, rfl⟩)
  · exact Or.inr (Or.inl ⟨_, rfl⟩)
  · exact Or.inl ⟨_, rfl⟩
  · exact Or.inr (Or.inr rfl)

/-- C12 (as amended): the template tree is never mutated. For every call among `Open`,
`Readdir`, `Seek`, `Stat` and the metadata methods, and for every sequence of them, the map
is unchanged; every handle stays in place on the same node (a file handle with the same
content to read) and only the cursor of the handle the call was made on can change: the
`pos` of a directory handle, or the reader offset of a file handle, which changes under
`Seek` alone. `Open` of a directory appends a fresh handle with `pos = 0`, and a call on one
handle never changes what `Readdir` returns on another. -/
theorem tree_never_mutated (w : World) (c : Call) (cs : List Call) :
    (w.call c).1.fs = w.fs ∧
    (∀ (i : Nat) (h : Handle), w.handles[i]? = some h →
      (∃ h', (w.call c).1.handles[i]? = some h' ∧ h.SameButCursor h') ∧
      (c.target ≠ some i → (w.call c).1.handles[i]? = some h) ∧
      ((∀ offset whence, c ≠ .Seek i offset whence) → ∀ f, h = .file f →
        (w.call c).1.handles[i]? = some h)) ∧
    (w.calls cs).1.fs = w.fs ∧
    (∀ (i : Nat) (h : Handle), w.handles[i]? = some h →
      ∃ h', (w.calls cs).1.handles[i]? = some h' ∧ h.SameButCursor h') ∧
    (World.start.calls cs).1.fs = FS ∧
    (∀ p d, w.fs.Open p = .dir d →
      d.pos = 0 ∧ (w.call (.Open p)).1.handles = w.handles ++ [.dir d]) ∧
    (∀ (i : Nat) (d : vfsgenDir) (count : Int), w.handles[i]? = some (.dir d) →
      c.target ≠ some i →
      ∃ d', (w.call c).1.handles[i]? = some (.dir d') ∧ d'.Readdir count = d.Readdir count) := by
  refine ⟨(call_effect w c).1, ?_, (calls_frame cs w).1, (calls_frame cs w).2,
    (calls_frame cs World.start).1, ?_, ?_⟩
  · intro i h hh
    refine ⟨(call_handles w c i h hh).1, (call_handles w c i h hh).2, ?_⟩
    intro hns f hf
    subst hf
    obtain ⟨-, heff⟩ := call_effect w c
    have hi : i < w.handles.length := by
      rcases Nat.lt_or_ge i w.handles.length with hlt | hge
      · exact hlt
      · rw [List.getElem?_eq_none hge] at hh; cases hh
    rcases heff with he | ⟨p, h₀, rfl, he, -⟩ | ⟨j, d, count, r, rfl, hj, hr, he⟩ |
      ⟨j, d, offset, whence, rfl, hj, he⟩ | ⟨j, g, offset, whence, rfl, hj, he⟩
    · rw [he]; exact hh
    · rw [he, List.getElem?_append_left hi]; exact hh
    · rw [he]
      by_cases hij : j = i
      · subst hij; rw [hh] at hj; cases hj
      · rw [List.getElem?_set_ne hij]; exact hh
    · rw [he]
      by_cases hij : j = i
      · subst hij; rw [hh] at hj; cases hj
      · rw [List.getElem?_set_ne hij]; exact hh
    · rw [he]
      by_cases hij : j = i
      · subst hij; exact absurd rfl (hns offset whence)
      · rw [List.getElem?_set_ne hij]; exact hh
  · intro p d hO
    refine ⟨Open_dir_fresh w.fs p d hO, ?_⟩
    simp only [World.call, hO]
  · intro i d count hh hne
    exact ⟨d, (call_handles w c i _ hh).2 hne, rfl⟩

/-- C12, on the root directory of `FS`: after two handles are opened on `/` and the first
is read to the end, the map is `FS`, the first handle is at position 1 and the second
still at 0. -/
theorem tree_never_mutated_witness :
    ((World.start.calls [.Open "/", .Open "/", .Readdir 0 (-1)]).1.handles.map
        (fun h => match h with
          | .dir d => (d.info.name, d.pos)
          | .file f => (f.info.name, f.off))) = [("/", 1), ("/", 0)] ∧
    (World.start.calls [.Open "/", .Open "/", .Readdir 0 (-1)]).1.fs = FS ∧
    ((World.start.calls [.Open "/", .Open "/"]).1.call (.Readdir 0 (-1))).1.fs =
      (World.start.calls [.Open "/", .Open "/"]).1.fs :=
  ⟨by decide, rfl,
    (tree_never_mutated (World.start.calls [.Open "/", .Open "/"]).1 (.Readdir 0 (-1)) []).1⟩

/-- C12, the claim as stated fails: `Seek(1, io.SeekStart)` on the handle opened on the
file `/cmd/{{ .name }}/run.go.tmpl` moves the offset of its reader from 0 to 1, a change
of state that is not the `pos` of a directory handle. -/
theorem tree_never_mutated_counterexample :
    (World.start.call (.Open "/cmd/\x7b\x7b .name \x7d\x7d/run.go.tmpl")).1.handles =
      [.file ⟨runGoTmpl, runGoTmplContent, 0⟩] ∧
    ((World.start.call (.Open "/cmd/\x7b\x7b .name \x7d\x7d/run.go.tmpl")).1.call
        (.Seek 0 1 SeekStart)).1.handles =
      [.file ⟨runGoTmpl, runGoTmplContent, 1⟩] ∧
    ¬ World.FrameAsClaimed
      (World.start.call (.Open "/cmd/\x7b\x7b .name \x7d\x7d/run.go.tmpl")).1
      ((World.start.call (.Open "/cmd/\x7b\x7b .name \x7d\x7d/run.go.tmpl")).1.call
        (.Seek 0 1 SeekStart)).1 := by
  have h₀ : (World.start.call (.Open "/cmd/\x7b\x7b .name \x7d\x7d/run.go.tmpl")).1 =
      ⟨FS, [.file ⟨runGoTmpl, runGoTmplContent, 0⟩]⟩ := rfl
  have h₁ : ((World.start.call (.Open "/cmd/\x7b\x7b .name \x7d\x7d/run.go.tmpl")).1.call
      (.Seek 0 1 SeekStart)).1 = ⟨FS, [.file ⟨runGoTmpl, runGoTmplContent, 1⟩]⟩ := rfl
  refine ⟨by rw [h₀], by rw [h₁], ?_⟩
  rw [h₁, h₀]
  rintro ⟨-, hframe⟩
  obtain ⟨h', hh', hs⟩ := hframe 0 _ rfl
  simp only [List.getElem?_cons_zero, Option.some.injEq] at hh'
  subst hh'
  simp [Handle.SameButDirPos] at hs


theorem Readdir_no_panic (d : vfsgenDir) (count : Int) (h : d.InRange) (msg : String) :
    d.Readdir count ≠ .panic msg := by
  obtain ⟨r, hr, -⟩ := Readdir_step d count h
  rw [hr]
  intro hc
  cases hc

theorem dirSeek_inRange (d : vfsgenDir) (offset whence : Int) (h : d.InRange) :
    (d.Seek offset whence).2.2.InRange := by
  unfold vfsgenDir.Seek
  split_ifs
  · exact ⟨le_refl _, Int.natCast_nonneg _⟩
  · exact h

/-- From the start every directory handle has its cursor in range, whatever calls were
made, and no call panics. -/
theorem calls_inRange (cs : List Call) :
    ∀ w : World, w.fs = FS → (∀ d, Handle.dir d ∈ w.handles → d.InRange) →
      (∀ d, Handle.dir d ∈ (w.calls cs).1.handles → d.InRange) ∧
      (∀ msg, Response.panic msg ∉ (w.calls cs).2) := by
  induction cs with
  | nil => intro w _ hin; exact ⟨hin, by simp [World.calls]⟩
  | cons c cs ih =>
    intro w hfs hin
    have hstep : ∀ d, Handle.dir d ∈ (w.call c).1.handles → d.InRange := by
      intro d hd
      obtain ⟨-, heff⟩ := call_effect w c
      rcases heff with he | ⟨p, h₀, rfl, he, hfresh⟩ | ⟨j, d₀, count, r, rfl, hj, hr, he⟩ |
        ⟨j, d₀, offset, whence, rfl, hj, he⟩ | ⟨j, g, offset, whence, rfl, hj, he⟩
      · rw [he] at hd; exact hin d hd
      · rw [he] at hd
        rcases List.mem_append.mp hd with hd | hd
        · exact hin d hd
        · rw [List.mem_singleton] at hd
          rcases hfresh with ⟨f, -, rfl⟩ | ⟨d₁, hO, rfl⟩
          · cases hd
          · cases hd
            have := Open_dir_fresh w.fs p d hO
            exact ⟨by omega, by rw [this]; exact Int.natCast_nonneg _⟩
      · rw [he] at hd
        have h₀ : d₀.InRange := hin d₀ (List.getElem?_mem hj)
        rcases List.mem_or_eq_of_mem_set hd with hd | hd
        · exact hin d hd
        · cases hd
          obtain ⟨r', hr', -, hin', -⟩ := Readdir_step d₀ count h₀
          rw [hr] at hr'
          cases hr'
          exact hin'
      · rw [he] at hd
        have h₀ : d₀.InRange := hin d₀ (List.getElem?_mem hj)
        rcases List.mem_or_eq_of_mem_set hd with hd | hd
        · exact hin d hd
        · cases hd
          exact dirSeek_inRange d₀ offset whence h₀
      · rw [he] at hd
        rcases List.mem_or_eq_of_mem_set hd with hd | hd
        · exact hin d hd
        · cases hd
    have hresp : ∀ msg, (w.call c).2 ≠ .panic msg := by
      intro msg
      cases c with
      | Open p =>
        simp only [World.call, hfs]
        rcases FS_Open_cases p with ⟨f, hf⟩ | ⟨d, hd⟩ | he
        · rw [hf]; simp
        · rw [hd]; simp
        · rw [he]; simp
      | Readdir i count =>
        simp only [World.call]
        rcases hh : w.handles[i]? with _ | (f | d)
        · simp
        · simp
        · simp only
          obtain ⟨r, hr, -⟩ := Readdir_step d count (hin d (List.getElem?_mem hh))
          rw [hr]; simp
      | Seek i offset whence =>
        simp only [World.call]
        rcases hh : w.handles[i]? with _ | (f | d) <;> simp
      | Stat i | Name i | Size i | Mode i | ModTime i | IsDir i | Sys i =>
        simp only [World.call]
        rcases hh : w.handles[i]? with _ | (f | d) <;> simp
    obtain ⟨h1, h2⟩ := ih (w.call c).1 (by rw [(call_effect w c).1, hfs]) hstep
    refine ⟨h1, ?_⟩
    intro msg hmem
    simp only [World.calls, List.mem_cons] at hmem
    rcases hmem with hmem | hmem
    · exact hresp msg hmem.symm
    · exact h2 msg hmem

/-- C17: the directory cursor stays in range. `0 <= pos <= len(entries)` holds for the
handle `Open` returns and is preserved by every `Readdir` call, for every integer count,
and by every `Seek` call; on a handle in range the slice expression of `Readdir` is within
bounds, so `Readdir` does not panic, and `pos` does not decrease under `Readdir` nor change
under a failing `Seek`. So from the start, whatever calls are made, every directory handle
is in range and no call panics. -/
theorem cursor_stays_in_range (d : vfsgenDir) (count offset whence : Int) (h : d.InRange) :
    (∀ (fs : vfsgenFS) (p : String) (d₀ : vfsgenDir), fs.Open p = .dir d₀ → d₀.InRange) ∧
    (∃ r, d.Readdir count = .ret r ∧ r.dir.InRange ∧ d.pos ≤ r.dir.pos ∧
      r.dir.info = d.info ∧
      sliceEntries d.info.entries d.pos r.dir.pos = some (r.entries.getD [])) ∧
    (∀ msg, d.Readdir count ≠ .panic msg) ∧
    (d.Seek offset whence).2.2.InRange ∧
    ((d.Seek offset whence).2.1 ≠ none → (d.Seek offset whence).2.2.pos = d.pos) ∧
    ((d.Seek offset whence).2.2.pos < d.pos →
      (d.Seek offset whence).2.1 = none ∧ (d.Seek offset whence).2.2.pos = 0) ∧
    (∀ cs : List Call,
      (∀ d₁, Handle.dir d₁ ∈ (World.start.calls cs).1.handles → d₁.InRange) ∧
      (∀ msg, Response.panic msg ∉ (World.start.calls cs).2)) := by
  refine ⟨?_, ?_, Readdir_no_panic d count h, dirSeek_inRange d offset whence h, ?_, ?_, ?_⟩
  · intro fs p d₀ hO
    have := Open_dir_fresh fs p d₀ hO
    exact ⟨by omega, by rw [this]; exact Int.natCast_nonneg _⟩
  · obtain ⟨r, hr, hinfo, hin, hle, hent, -⟩ := Readdir_step d count h
    refine ⟨r, hr, hin, hle, hinfo, ?_⟩
    rw [sliceEntries_of_le _ _ _ h.1 hle (by rw [← hinfo]; exact hin.2), hent]
  · unfold vfsgenDir.Seek
    split_ifs <;> simp
  · unfold vfsgenDir.Seek
    split_ifs <;> simp
  · intro cs
    exact calls_inRange cs World.start rfl (by simp [World.start])

/-- C17, on the handle of `/cmd` at position 0 with the count `2^63 - 1`, and after the
calls `Open /cmd, Readdir -5, Readdir 2^63 - 1, Seek 3 0, Seek 0 0` from the start. -/
theorem cursor_stays_in_range_witness :
    (vfsgenDir.mk cmdDir 0).InRange ∧
    (∃ r, (vfsgenDir.mk cmdDir 0).Readdir (2 ^ 63 - 1) = .ret r ∧ r.dir.InRange ∧
      (vfsgenDir.mk cmdDir 0).pos ≤ r.dir.pos ∧ r.dir.info = cmdDir ∧
      sliceEntries cmdDir.entries 0 r.dir.pos = some (r.entries.getD [])) ∧
    ((World.start.calls
        [.Open "/cmd", .Readdir 0 (-5), .Readdir 0 (2 ^ 63 - 1), .Seek 0 3 0,
          .Seek 0 0 0]).1.handles.map
      (fun h => match h with
        | .dir d => d.pos
        | .file f => f.off)) = [0] :=
  ⟨by decide, (cursor_stays_in_range ⟨cmdDir, 0⟩ (2 ^ 63 - 1) 0 0 (by decide)).2.1, by decide⟩

/-- C18: `Seek` on a directory handle succeeds if and only if `offset == 0` and
`whence == io.SeekStart`. On success it returns `(0, nil)` and leaves the handle as a
freshly opened one, `pos = 0` on the same node, so that every following sequence of
`Readdir` calls returns what it returns on the handle `Open` gives; otherwise it returns
0 and a non-nil error and leaves the handle, cursor included, unchanged. -/
theorem Seek_only_rewinds (d : vfsgenDir) (offset whence : Int) (cs : List Int) :
    ((d.Seek offset whence).2.1 = none ↔ offset = 0 ∧ whence = SeekStart) ∧
    SeekStart = 0 ∧
    (offset = 0 ∧ whence = SeekStart →
      d.Seek offset whence = (0, none, ⟨d.info, 0⟩) ∧
      (d.Seek offset whence).2.2.readdirs cs = (vfsgenDir.mk d.info 0).readdirs cs ∧
      ∀ (fs : vfsgenFS) (p : String) (d₀ : vfsgenDir), fs.Open p = .dir d₀ →
        d₀.info = d.info → (d.Seek offset whence).2.2.readdirs cs = d₀.readdirs cs) ∧
    (¬ (offset = 0 ∧ whence = SeekStart) →
      d.Seek offset whence = (0, some ("unsupported Seek in directory " ++ d.info.name), d)) := by
  refine ⟨?_, rfl, ?_, ?_⟩
  · unfold vfsgenDir.Seek
    split_ifs with hc <;> simp [hc]
  · intro hc
    have hS : d.Seek offset whence = (0, none, ⟨d.info, 0⟩) := by
      simp [vfsgenDir.Seek, hc]
    refine ⟨hS, by rw [hS], ?_⟩
    intro fs p d₀ hO hinfo
    have hpos := Open_dir_fresh fs p d₀ hO
    have : d₀ = ⟨d.info, 0⟩ := by
      cases d₀
      simp only at hpos hinfo
      rw [hpos, hinfo]
    rw [hS, this]
  · intro hc
    simp [vfsgenDir.Seek, hc]

/-- C18, on the handle of `/` at position 1: `Seek(0, io.SeekStart)` rewinds it, after
which `Readdir(-1)` returns the entry `cmd` again; `Seek(0, io.SeekCurrent)` and
`Seek(1, io.SeekStart)` fail and leave the position at 1. -/
theorem Seek_only_rewinds_witness :
    (vfsgenDir.mk rootDir 1).Seek 0 SeekStart = (0, none, ⟨rootDir, 0⟩) ∧
    ((vfsgenDir.mk rootDir 1).Seek 0 SeekCurrent).2 =
      (some "unsupported Seek in directory /", ⟨rootDir, 1⟩) ∧
    ((vfsgenDir.mk rootDir 1).Seek 1 SeekStart).2 =
      (some "unsupported Seek in directory /", ⟨rootDir, 1⟩) ∧
    (((vfsgenDir.mk rootDir 1).Seek 0 SeekStart).2.2.readdirs [-1]).map
        (fun r => r.1.map (fun x => x.entries.map (fun es => es.map FileInfo.Name))) =
      some [some ["cmd"]] ∧
    (((vfsgenDir.mk rootDir 1).Seek 1 SeekStart).2.1 = none ↔
      (1 : Int) = 0 ∧ SeekStart = SeekStart) :=
  ⟨rfl, rfl, rfl, by decide, (Seek_only_rewinds ⟨rootDir, 1⟩ 1 SeekStart []).1⟩


/-! ## Opened files -/

theorem take_append_drop_length {α : Type} (n : Nat) (l : List α) :
    l.take n ++ l.drop (l.take n).length = l := by
  rcases Nat.le_total n l.length with h | h
  · rw [List.length_take, Nat.min_eq_left h, List.take_append_drop]
  · rw [List.take_of_length_le h, List.drop_length, List.append_nil]

/-- Reading to the end returns the content from the offset on, whatever the size of the
buffer, with enough calls. -/
theorem readAll_spec (bufLen : Nat) (hb : 0 < bufLen) :
    ∀ (fuel : Nat) (f : vfsgenFile), 0 ≤ f.off → f.reader.length - f.off.toNat < fuel →
      vfsgenFile.readAll bufLen fuel f = f.reader.drop f.off.toNat := by
  intro fuel
  induction fuel with
  | zero => intro f _ h; omega
  | succ fuel ih =>
    intro f h0 hfuel
    simp only [vfsgenFile.readAll, vfsgenFile.Read]
    split_ifs with hend
    · simp only
      rw [List.drop_of_length_le]
      omega
    · simp only
      have hlen : ((f.reader.drop f.off.toNat).take bufLen).length =
          min bufLen (f.reader.length - f.off.toNat) := by
        rw [List.length_take, List.length_drop]
      have hpos : 0 < ((f.reader.drop f.off.toNat).take bufLen).length := by
        rw [hlen]; omega
      rw [ih _ (by show 0 ≤ f.off + _; omega) (by
        show f.reader.length - (f.off + _).toNat < fuel
        omega)]
      show _ ++ f.reader.drop (f.off + _).toNat = _
      have e : (f.off + ((f.reader.drop f.off.toNat).take bufLen).length).toNat =
          f.off.toNat + ((f.reader.drop f.off.toNat).take bufLen).length := by omega
      rw [e, ← List.drop_drop]
      exact take_append_drop_length bufLen _

theorem mem_FS_fileInfo (k : String) (f : vfsgenFileInfo) (h : (k, Value.fileInfo f) ∈ FS) :
    k = "/cmd/\x7b\x7b .name \x7d\x7d/run.go.tmpl" ∧ f = runGoTmpl := by
  simp only [FS, List.mem_cons, Prod.mk.injEq, List.mem_nil_iff, or_false] at h
  rcases h with ⟨-, h⟩ | ⟨-, h⟩ | ⟨-, h⟩ | ⟨hk, h⟩
  · cases h
  · cases h
  · cases h
  · cases h
    exact ⟨hk, rfl⟩

set_option maxRecDepth 100000 in
/-- C11: every leaf of the template tree carries its raw bytes and consistent metadata.
For every file node `f`: `Size()` is the number of bytes of `f.content`, `IsDir()` is false,
`Stat()` returns `f` itself without error, `Name()` is the stored name, and a handle opened
on `f` (offset 0 on `f.content`) reads back exactly `f.content`, in one `Read` into a buffer
that holds it and with any non-empty buffer when read to the end. For the file node of the
map, stored under `/cmd/{{ .name }}/run.go.tmpl`, `Name()` is the last segment of the key,
`Open` of the key returns such a handle, and reading it yields the stored program text of
`Size() = 127` bytes. -/
theorem file_nodes_carry_bytes_and_metadata (f : vfsgenFileInfo) :
    f.Size = f.content.length ∧ f.IsDir = false ∧ f.Stat = (.file f, none) ∧
    f.Name = f.name ∧ f.ModTime = f.modTime ∧
    (∀ bufLen fuel : Nat, 0 < bufLen → f.content.length < fuel →
      vfsgenFile.readAll bufLen fuel ⟨f, f.content, 0⟩ = f.content) ∧
    (∀ bufLen : Nat, f.content.length ≤ bufLen → f.content ≠ [] →
      ((vfsgenFile.mk f f.content 0).Read bufLen).bytes = f.content ∧
      ((vfsgenFile.mk f f.content 0).Read bufLen).n = f.Size ∧
      ((vfsgenFile.mk f f.content 0).Read bufLen).err = none ∧
      (((vfsgenFile.mk f f.content 0).Read bufLen).file.Read bufLen).err = some EOF) ∧
    (∀ (fs : vfsgenFS) (p : String) (h : vfsgenFile), fs.Open p = .file h →
      h.off = 0 ∧ h.reader = h.info.content) ∧
    (∀ k, (k, Value.fileInfo f) ∈ FS →
      f.Name = Base k ∧ FS.Open k = .file ⟨f, f.content, 0⟩) ∧
    FS.Open "/cmd/\x7b\x7b .name \x7d\x7d/run.go.tmpl" =
      .file ⟨runGoTmpl, runGoTmplContent, 0⟩ ∧
    runGoTmpl.Size = 127 ∧
    vfsgenFile.readAll 512 2 ⟨runGoTmpl, runGoTmplContent, 0⟩ = runGoTmplContent := by
  refine ⟨rfl, rfl, rfl, rfl, rfl, ?_, ?_, ?_, ?_, rfl, by decide, by decide⟩
  · intro bufLen fuel hb hfuel
    have := readAll_spec bufLen hb fuel ⟨f, f.content, 0⟩ (le_refl _) (by simpa using hfuel)
    simpa using this
  · intro bufLen hlen hne
    have hpos : 0 < f.content.length := List.length_pos.mpr hne
    have h1 : ¬ ((0 : Int) ≥ f.content.length) := by omega
    have htake : f.content.take bufLen = f.content := List.take_of_length_le hlen
    simp only [vfsgenFile.Read, h1, if_false, Int.toNat_zero, List.drop_zero, htake,
      vfsgenFileInfo.Size, zero_add, ge_iff_le, le_refl, if_true, and_self]
  · intro fs p h hO
    exact Open_file_fresh fs p h hO
  · intro k hk
    obtain ⟨rfl, rfl⟩ := mem_FS_fileInfo k f hk
    exact ⟨by decide, rfl⟩

set_option maxRecDepth 100000 in
/-- C11, on the file node of the map read with a buffer of 50 bytes. -/
theorem file_nodes_carry_bytes_and_metadata_witness :
    (0 : Nat) < 50 ∧ runGoTmpl.content.length < 200 ∧
    ("/cmd/\x7b\x7b .name \x7d\x7d/run.go.tmpl", Value.fileInfo runGoTmpl) ∈ FS ∧
    vfsgenFile.readAll 50 200 ⟨runGoTmpl, runGoTmpl.content, 0⟩ = runGoTmpl.content ∧
    (runGoTmpl.Name = Base "/cmd/\x7b\x7b .name \x7d\x7d/run.go.tmpl" ∧
      FS.Open "/cmd/\x7b\x7b .name \x7d\x7d/run.go.tmpl" =
        .file ⟨runGoTmpl, runGoTmpl.content, 0⟩) :=
  ⟨by decide, by decide, by simp [FS],
    (file_nodes_carry_bytes_and_metadata runGoTmpl).2.2.2.2.2.1 50 200 (by decide) (by decide),
    (file_nodes_carry_bytes_and_metadata runGoTmpl).2.2.2.2.2.2.2.2.1 _ (by simp [FS])⟩


/-! ## The shipped map -/

theorem mem_FS_value (k : String) (v : Value) (h : (k, v) ∈ FS) :
    (k = "/" ∧ v = .dirInfo rootDir) ∨ (k = "/cmd" ∧ v = .dirInfo cmdDir) ∨
    (k = "/cmd/\x7b\x7b .name \x7d\x7d" ∧ v = .dirInfo nameDir) ∨
    (k = "/cmd/\x7b\x7b .name \x7d\x7d/run.go.tmpl" ∧ v = .fileInfo runGoTmpl) := by
  simpa [FS] using h

/-- C14: the panic branch of `Open` is unreachable for the shipped `FS`. Every value
stored in the map is a `*vfsgen۰FileInfo` or a `*vfsgen۰DirInfo`, so for every path `Open`
returns a handle or the not-exist error and never panics; the same holds for any map with
only such values. The type assertions made while `FS` is built, each directory key to
`*vfsgen۰DirInfo` and each entry to `os.FileInfo`, all succeed, and the construction
returns `FS`. -/
theorem Open_never_panics (p : String) :
    (∀ k v, (k, v) ∈ FS → (∃ f, v = .fileInfo f) ∨ (∃ d, v = .dirInfo d)) ∧
    ((∃ f, FS.Open p = .file f) ∨ (∃ d, FS.Open p = .dir d) ∨
      FS.Open p = .error ⟨"open", Clean ("/" ++ p), ErrNotExist⟩) ∧
    (∀ msg, FS.Open p ≠ .panic msg) ∧
    (∀ fs : vfsgenFS,
      (∀ k v, (k, v) ∈ fs → (∃ f, v = .fileInfo f) ∨ (∃ d, v = .dirInfo d)) →
      ∀ msg, fs.Open p ≠ .panic msg) ∧
    assertDirInfo fsLiteral "/" = .ret () ∧
    assertFileInfo fsLiteral "/cmd" = .ret "/cmd" ∧
    assertDirInfo (assignEntries fsLiteral "/" ["/cmd"]) "/cmd" = .ret () ∧
    assertFileInfo (assignEntries fsLiteral "/" ["/cmd"]) "/cmd/\x7b\x7b .name \x7d\x7d" =
      .ret "/cmd/\x7b\x7b .name \x7d\x7d" ∧
    assertDirInfo
        (assignEntries (assignEntries fsLiteral "/" ["/cmd"]) "/cmd"
          ["/cmd/\x7b\x7b .name \x7d\x7d"])
        "/cmd/\x7b\x7b .name \x7d\x7d" = .ret () ∧
    assertFileInfo
        (assignEntries (assignEntries fsLiteral "/" ["/cmd"]) "/cmd"
          ["/cmd/\x7b\x7b .name \x7d\x7d"])
        "/cmd/\x7b\x7b .name \x7d\x7d/run.go.tmpl" =
      .ret "/cmd/\x7b\x7b .name \x7d\x7d/run.go.tmpl" ∧
    (∃ raw, buildRaw = .ret raw) ∧
    buildFS = .ret FS := by
  refine ⟨?_, FS_Open_cases p, ?_, ?_, rfl, rfl, rfl, rfl, rfl, rfl, ⟨_, rfl⟩, rfl⟩
  · intro k v h
    rcases mem_FS_value k v h with ⟨-, rfl⟩ | ⟨-, rfl⟩ | ⟨-, rfl⟩ | ⟨-, rfl⟩
    · exact Or.inr ⟨_, rfl⟩
    · exact Or.inr ⟨_, rfl⟩
    · exact Or.inr ⟨_, rfl⟩
    · exact Or.inl ⟨_, rfl⟩
  · intro msg
    rcases FS_Open_cases p with ⟨f, hf⟩ | ⟨d, hd⟩ | he
    · rw [hf]; simp
    · rw [hd]; simp
    · rw [he]; simp
  · intro fs hfs msg hO
    simp only [vfsgenFS.Open] at hO
    split at hO
    · cases hO
    · cases hO
    · cases hO
    · rename_i t hget
      simp only [vfsgenFS.get, Option.map_eq_some'] at hget
      obtain ⟨kv, hfind, hsnd⟩ := hget
      have hmem := List.mem_of_find?_eq_some hfind
      rcases hfs kv.1 kv.2 hmem with ⟨f, hf⟩ | ⟨d, hd⟩
      · rw [hsnd] at hf; cases hf
      · rw [hsnd] at hd; cases hd

/-- C14, on a map with a value of another type, where `Open` does panic, and on `FS` at
the same path, where it does not. -/
theorem Open_never_panics_witness :
    vfsgenFS.Open [("/x", Value.other "int")] "x" = .panic "unexpected type int" ∧
    FS.Open "x" = .error ⟨"open", "/x", ErrNotExist⟩ ∧
    (∀ msg, FS.Open "x" ≠ .panic msg) :=
  ⟨rfl, rfl, (Open_never_panics "x").2.2.1⟩

/-- C15: the map and the entry lists describe the same tree. For every directory key `k`
and every entry `e` of its node, the map holds that node under `path.Join(k, e.Name())`,
and while the map is built the pointer stored as the entry is the one stored under that
key; every key other than `/` is expected under exactly one directory, its parent path,
and `/` under none; every node is named after the last element of its key; and a
depth-first walk from `/` with `Open` and `Readdir`, given four levels or more, visits
the four keys once each, in the order of the map, finding one file node,
`/cmd/{{ .name }}/run.go.tmpl`, whose path contains the placeholder `{{ .name }}`. -/
theorem map_and_entries_describe_one_tree (n : Nat) :
    (∀ k d e, (k, Value.dirInfo d) ∈ FS → e ∈ d.entries →
      FS.get (Join [k, e.Name]) = some e.toValue) ∧
    (∃ raw, buildRaw = .ret raw ∧ derefFS raw = some FS ∧ raw.map Prod.fst = FS.keys ∧
      ∀ kv ∈ raw, ∀ ptr ∈ kv.2.entries,
        (raw.get ptr).map (fun v => Join [kv.1, v.name]) = some ptr) ∧
    (∀ k ∈ FS.keys, k ≠ "/" → parents FS k = [Dir k] ∧
      (FS.get (Dir k)).map (fun v => (childKeys (Dir k) v).count k) = some 1) ∧
    parents FS "/" = [] ∧
    (∀ k v, (k, v) ∈ FS → ∃ i : FileInfo, v = i.toValue ∧ i.Name = Base k) ∧
    walk FS (n + 4) "/" =
      [ ("/", true), ("/cmd", true), ("/cmd/\x7b\x7b .name \x7d\x7d", true),
        ("/cmd/\x7b\x7b .name \x7d\x7d/run.go.tmpl", false) ] ∧
    (walk FS (n + 4) "/").map Prod.fst = FS.keys ∧
    ((walk FS (n + 4) "/").filter (fun v => !v.2)).map Prod.fst =
      ["/cmd/\x7b\x7b .name \x7d\x7d/run.go.tmpl"] ∧
    "\x7b\x7b .name \x7d\x7d".data <:+: "/cmd/\x7b\x7b .name \x7d\x7d/run.go.tmpl".data := by
  have hwalk : walk FS (n + 4) "/" =
      [ ("/", true), ("/cmd", true), ("/cmd/\x7b\x7b .name \x7d\x7d", true),
        ("/cmd/\x7b\x7b .name \x7d\x7d/run.go.tmpl", false) ] := rfl
  refine ⟨?_, ⟨_, rfl, rfl, rfl, by decide⟩, by decide, by decide, ?_, hwalk, ?_, ?_,
    by decide⟩
  · intro k d e hk he
    rcases mem_FS_value k _ hk with ⟨rfl, hv⟩ | ⟨rfl, hv⟩ | ⟨rfl, hv⟩ | ⟨rfl, hv⟩
    · cases hv
      simp only [rootDir, vfsgenDirInfo.entries, List.mem_singleton] at he
      subst he
      rfl
    · cases hv
      simp only [cmdDir, vfsgenDirInfo.entries, List.mem_singleton] at he
      subst he
      rfl
    · cases hv
      simp only [nameDir, vfsgenDirInfo.entries, List.mem_singleton] at he
      subst he
      rfl
    · cases hv
  · intro k v hk
    rcases mem_FS_value k v hk with ⟨rfl, rfl⟩ | ⟨rfl, rfl⟩ | ⟨rfl, rfl⟩ | ⟨rfl, rfl⟩
    · exact ⟨.dir rootDir, rfl, by decide⟩
    · exact ⟨.dir cmdDir, rfl, by decide⟩
    · exact ⟨.dir nameDir, rfl, by decide⟩
    · exact ⟨.file runGoTmpl, rfl, by decide⟩
  · rw [hwalk]; rfl
  · rw [hwalk]; rfl

end Template
